import Mathlib

/-!
# Height-grid construction of `ccRasterizeTool`

A shallow embedding of `ccRasterizeTool::RasterGrid`, of
`ccRasterizeTool::updateGrid`, of `ccRasterizeTool::getFillEmptyCellsStrategy`
and of `ccRasterizeTool::generateContours` (file `qCC/ccRasterizeTool.cpp`).

Modelling conventions, used throughout:

* `double` and `float` values are rationals (`ℚ`); a scalar-field value that
  may be NaN is an `Option ℚ`, with `none` for NaN.
* Where a `double` decides an integer or an equality test (the size of the
  grid, the index of a point, the `max corner` case of the scan), every
  operation on the way is rounded to the nearest double by `roundDouble`
  (53 significant bits, ties to even; the exponent range is not bounded, so
  that neither overflow nor subnormal numbers are modelled). Heights,
  scalar-field values, contour levels and vertex coordinates are computed in
  exact arithmetic; `levelLoopDouble`, `levelCountDouble` and
  `fillHeightDouble` are the rounded readings of the level loop, of the level
  count and of the interpolation formula.
* `int` and `unsigned` values are integers and naturals. `static_cast<int>` is
  the truncation toward zero, which is what C++ defines whenever the value is
  representable. `static_cast<unsigned>` keeps the low 32 bits, and the product
  of two `unsigned` values wraps modulo `2^32`.
* `m_grid.data[j][i]` is `g.data j i`: row `j`, column `i`.
* What `updateGrid` reads from the dialog, from the cloud and from the
  libraries it calls (message box, allocator, progress dialog, Delaunay mesh)
  is a field of `Tool`; what `generateContours` reads from the dialog and from
  the tracer `Isolines` is a field of `ContourInputs`.
-/

namespace ccRasterizeTool

/-! ## Numeric conversions -/

/-- The conversion `static_cast<int>(x)` of a double: truncation toward zero. -/
def toInt (x : ℚ) : ℤ := if 0 ≤ x then ⌊x⌋ else ⌈x⌉

/-- The power `2 ^ k` for an integer `k`. -/
def pow2 (k : ℤ) : ℚ :=
  if 0 ≤ k then ((2 ^ k.toNat : ℕ) : ℚ) else 1 / ((2 ^ (-k).toNat : ℕ) : ℚ)

/-- The number of halvings that bring `n` below 2, with at most `fuel`
halvings: with `fuel ≥ n` it is the position of the highest bit of `n`. -/
def halvings : ℕ → ℕ → ℕ
  | 0, _ => 0
  | fuel + 1, n => if 2 ≤ n then halvings fuel (n / 2) + 1 else 0

/-- The binary exponent of `x > 0`: the integer `e` with
`2 ^ e ≤ x < 2 ^ (e + 1)`. -/
def binaryExponent (x : ℚ) : ℤ :=
  let e0 : ℤ := (halvings x.num.natAbs x.num.natAbs : ℤ) - (halvings x.den x.den : ℤ)
  if x < pow2 e0 then e0 - 1 else e0

/-- The integer nearest to `y`, the even one of the two when `y` is half-way. -/
def roundNearestEven (y : ℚ) : ℤ :=
  if y - ⌊y⌋ < 1 / 2 then ⌊y⌋
  else if 1 / 2 < y - ⌊y⌋ then ⌊y⌋ + 1
  else if ⌊y⌋ % 2 = 0 then ⌊y⌋ else ⌊y⌋ + 1

/-- The `double` nearest to `x` (round to nearest, ties to even): the multiple
of the unit of the last place `2 ^ (e - 52)` nearest to `x`, where `e` is the
binary exponent of `|x|`. -/
def roundDouble (x : ℚ) : ℚ :=
  if x = 0 then 0
  else
    let u := pow2 (binaryExponent (if x < 0 then -x else x) - 52)
    (roundNearestEven (x / u) : ℚ) * u

/-- The conversion `static_cast<unsigned>(ceil(x))` to a 32-bit `unsigned`: the
low 32 bits of the ceiling. -/
def ceilToUnsigned (x : ℚ) : ℕ := Int.toNat (⌈x⌉ % 2 ^ 32)

/-- The product of two `unsigned` values (32 bits, wrapping). -/
def mulUnsigned (a b : ℕ) : ℕ := (a * b) % 2 ^ 32

/-! ## Data model -/

/-- A 3D vector (`CCVector3`, `CCVector3d`). -/
structure CCVector3 where
  x : ℚ
  y : ℚ
  z : ℚ

/-- The component access `v.u[k]`. -/
def CCVector3.u (v : CCVector3) (k : Fin 3) : ℚ :=
  if k = 0 then v.x else if k = 1 then v.y else v.z

/-- The difference of two vectors of doubles (`CCVector3d::operator-`). -/
def CCVector3.sub (a b : CCVector3) : CCVector3 :=
  { x := roundDouble (a.x - b.x), y := roundDouble (a.y - b.y), z := roundDouble (a.z - b.z) }

/-- A bounding box (`ccBBox`). -/
structure ccBBox where
  minCorner : CCVector3
  maxCorner : CCVector3
  isValid : Bool

/-- The enumeration `ProjectionType`, with the values that
`getTypeOfProjection` and `getTypeOfSFInterpolation` return. -/
inductive ProjectionType where
  | PROJ_MINIMUM_VALUE
  | PROJ_AVERAGE_VALUE
  | PROJ_MAXIMUM_VALUE
  | INVALID_PROJECTION_TYPE
deriving DecidableEq

/-- The enumeration `EmptyCellFillOption`, with the values that
`getFillEmptyCellsStrategy` returns. -/
inductive EmptyCellFillOption where
  | LEAVE_EMPTY
  | FILL_MINIMUM_HEIGHT
  | FILL_MAXIMUM_HEIGHT
  | FILL_CUSTOM_HEIGHT
  | FILL_AVERAGE_HEIGHT
  | INTERPOLATE
deriving DecidableEq

/-- Modelled from the spec: the struct `RasterCell`, declared in the header. A
cell has a height, a number of points and the index of a source point; the
default constructor `RasterCell()` gives an empty cell (`nbPoints = 0`). -/
structure RasterCell where
  height : ℚ
  nbPoints : ℕ
  pointIndex : ℕ
deriving DecidableEq

/-- The value built by `RasterCell()`. -/
def RasterCell.empty : RasterCell := { height := 0, nbPoints := 0, pointIndex := 0 }

/-- Modelled from the spec: the struct `RasterGrid`, declared in the header.
The fields are the ones `ccRasterizeTool.cpp` reads and writes. -/
structure RasterGrid where
  width : ℕ
  height : ℕ
  gridStep : ℚ
  data : ℕ → ℕ → RasterCell
  scalarFields : List (ℕ → Option ℚ)
  minHeight : ℚ
  maxHeight : ℚ
  meanHeight : ℚ
  nonEmptyCells : ℕ
  valid : Bool

/-- The input cloud `m_cloud`: its points, whether it is a `ccPointCloud`, and
the values of its scalar fields (field `k`, point `n`). -/
structure Cloud where
  points : List CCVector3
  isPointCloud : Bool
  scalarFields : List (ℕ → Option ℚ)

/-- The tool: the cloud, the dialog values read by the getters, and the
answers of the environment. -/
structure Tool where
  m_cloud : Option Cloud
  getTypeOfProjection : ProjectionType
  getTypeOfSFInterpolation : ProjectionType
  getFillEmptyCellsStrategy : EmptyCellFillOption
  getProjectionDimension : Fin 3
  getCustomBBox : ccBBox
  getGridStep : ℚ
  getCustomHeightForEmptyCells : ℚ
  /-- The answer to `QMessageBox::question`: `true` for `Yes`. -/
  proceedAnyway : Bool
  /-- Whether the allocation of the cells in `RasterGrid::init` succeeds. -/
  cellsAllocated : Bool
  /-- Whether `the2DPoints.resize` succeeds. -/
  pointsAllocated : Bool
  /-- The content of a scalar-field array just after `new double[]`. -/
  newArray : ℕ → ℕ → Option ℚ
  /-- The value of `nProgress.oneStep()` at its `k`-th call (from 0). -/
  oneStep : ℕ → Bool
  /-- The triangles of `Delaunay2dMesh::buildMesh`, as triples of indexes in
  the point list, or `none` when it fails. -/
  buildMesh : List (ℤ × ℤ) → Option (List (Fin 3 → ℕ))

/-! ## `RasterGrid::clear`, `reset`, `init` -/

/-- The method `RasterGrid::clear`. -/
def RasterGrid.clear (g : RasterGrid) : RasterGrid :=
  { g with width := 0, height := 0, data := fun _ _ => RasterCell.empty, scalarFields := [] }

/-- The method `RasterGrid::reset`. -/
def RasterGrid.reset (g : RasterGrid) : RasterGrid :=
  { g with
    data := fun j i => if j < g.height ∧ i < g.width then RasterCell.empty else g.data j i,
    minHeight := 0, maxHeight := 0, meanHeight := 0, nonEmptyCells := 0 }

/-- The method `RasterGrid::init`; `allocated` tells whether the rows can be
allocated. -/
def RasterGrid.init (g : RasterGrid) (w h : ℕ) (allocated : Bool) : Bool × RasterGrid :=
  let g0 := { g with valid := false }
  if w = g0.width ∧ h = g0.height then
    (true, g0.reset)
  else
    let g1 := g0.clear
    if allocated then
      (true, { g1 with data := fun _ _ => RasterCell.empty, width := w, height := h })
    else
      (false, g1)

/-! ## `updateGrid`: grid size -/

/-- The local `Z` of `updateGrid`. -/
def Tool.Z (t : Tool) : Fin 3 := t.getProjectionDimension

/-- The local `X` of `updateGrid`. -/
def Tool.X (t : Tool) : Fin 3 := if t.Z = 2 then 0 else t.Z + 1

/-- The local `Y` of `updateGrid`. -/
def Tool.Y (t : Tool) : Fin 3 := if t.X = 2 then 0 else t.X + 1

/-- The local `boxDiag` of `updateGrid`. -/
def Tool.boxDiag (t : Tool) : CCVector3 :=
  { x := roundDouble (t.getCustomBBox.maxCorner.x - t.getCustomBBox.minCorner.x),
    y := roundDouble (t.getCustomBBox.maxCorner.y - t.getCustomBBox.minCorner.y),
    z := roundDouble (t.getCustomBBox.maxCorner.z - t.getCustomBBox.minCorner.z) }

/-- The local `gridWidth` of `updateGrid`. -/
def Tool.gridWidth (t : Tool) : ℕ :=
  ceilToUnsigned (roundDouble (t.boxDiag.u t.X / t.getGridStep))

/-- The local `gridHeight` of `updateGrid`. -/
def Tool.gridHeight (t : Tool) : ℕ :=
  ceilToUnsigned (roundDouble (t.boxDiag.u t.Y / t.getGridStep))

/-- The local `gridTotalSize` of `updateGrid`. -/
def Tool.gridTotalSize (t : Tool) : ℕ := mulUnsigned t.gridWidth t.gridHeight

/-! ## `updateGrid`: the scan of the points -/

/-- The index of a point along one axis of the grid, of `size` cells: the
truncation of the double `rel / gridStep`, and the specific case `if we fall
exactly on the max corner of the grid box` (`gridMax = gridStep * size`, a
double). -/
def axisIndex (gridStep rel : ℚ) (size : ℕ) : ℤ :=
  let gridMax := roundDouble (gridStep * (size : ℚ))
  let i := toInt (roundDouble (rel / gridStep))
  if i = (size : ℤ) ∧ rel = gridMax then i - 1 else i

/-- The cell of a point (the body of the scan up to the test that skips the
points outside the box): `none` when the point is skipped, else `(i, j)`. -/
def cellIndex (t : Tool) (width height : ℕ) (P : CCVector3) : Option (ℕ × ℕ) :=
  let relativePos := P.sub t.getCustomBBox.minCorner
  let i := axisIndex t.getGridStep (relativePos.u t.X) width
  let j := axisIndex t.getGridStep (relativePos.u t.Y) height
  if i < 0 ∨ i ≥ (width : ℤ) ∨ j < 0 ∨ j ≥ (height : ℤ) then none
  else some (i.toNat, j.toNat)

/-- What the scan does to the cell `aCell` of point number `n`, of height `h`
(`P->u[Z]`), the final `pointsInCell++` included. -/
def updateCell (projectionType : ProjectionType) (aCell : RasterCell) (n : ℕ) (h : ℚ) :
    RasterCell :=
  let c :=
    if aCell.nbPoints ≠ 0 then
      match projectionType with
      | .PROJ_MINIMUM_VALUE =>
        if h < aCell.height then { aCell with height := h, pointIndex := n } else aCell
      | .PROJ_MAXIMUM_VALUE =>
        if h > aCell.height then { aCell with height := h, pointIndex := n } else aCell
      | .PROJ_AVERAGE_VALUE => { aCell with height := aCell.height + h }
      | .INVALID_PROJECTION_TYPE => aCell
    else
      { aCell with height := h, pointIndex := n }
  { c with nbPoints := c.nbPoints + 1 }

/-- What the scan does to the value `former` of a scalar-field array, for a
point whose field value is `sfValue`, in a cell that holds `pointsInCell`
points already. -/
def updateSFValue (sfInterpolation : ProjectionType) (pointsInCell : ℕ)
    (former sfValue : Option ℚ) : Option ℚ :=
  match former with
  | some f =>
    if pointsInCell ≠ 0 then
      match sfValue with
      | some s =>
        match sfInterpolation with
        | .PROJ_MINIMUM_VALUE => some (min f s)
        | .PROJ_AVERAGE_VALUE => some (f + s)
        | .PROJ_MAXIMUM_VALUE => some (max f s)
        | .INVALID_PROJECTION_TYPE => some f
      | none => some f
    else sfValue
  | none => sfValue

/-- The scalar-field part of the scan, for point `n` in cell `(i, j)`. -/
def updateSFs (t : Tool) (cloud : Cloud) (g : RasterGrid) (n i j : ℕ) :
    List (ℕ → Option ℚ) :=
  let pos := j * g.width + i
  (List.range g.scalarFields.length).map fun k =>
    let grid := g.scalarFields.getD k (fun _ => none)
    let sfValue := (cloud.scalarFields.getD k (fun _ => none)) n
    fun p =>
      if p = pos then
        updateSFValue t.getTypeOfSFInterpolation (g.data j i).nbPoints (grid pos) sfValue
      else grid p

/-- One point of the scan that is not skipped: cell `(i, j)`, point `n`. -/
def projectPoint (t : Tool) (cloud : Cloud) (interpolateSF : Bool) (g : RasterGrid)
    (n : ℕ) (P : CCVector3) (i j : ℕ) : RasterGrid :=
  { g with
    data := fun j1 i1 =>
      if j1 = j ∧ i1 = i then updateCell t.getTypeOfProjection (g.data j i) n (P.u t.Z)
      else g.data j1 i1,
    scalarFields := if interpolateSF then updateSFs t cloud g n i j else g.scalarFields }

/-- The scan `for (unsigned n=0; n<pointCount; ++n)`, from point `n` on, after
`k` calls of `oneStep`. The result is `false` when the user cancels. -/
def scanPoints (t : Tool) (cloud : Cloud) (interpolateSF : Bool) :
    List CCVector3 → ℕ → ℕ → RasterGrid → Bool × RasterGrid
  | [], _, _, g => (true, g)
  | P :: rest, n, k, g =>
    match cellIndex t g.width g.height P with
    | none => scanPoints t cloud interpolateSF rest (n + 1) k g
    | some (i, j) =>
      let g1 := projectPoint t cloud interpolateSF g n P i j
      if t.oneStep k then scanPoints t cloud interpolateSF rest (n + 1) (k + 1) g1
      else (false, g1)

/-! ## `updateGrid`: the average cases -/

/-- The loop `update grids for 'average' cases`: array position
`j * width + i` belongs to cell `(i, j)`. -/
def averageSFs (t : Tool) (g : RasterGrid) : RasterGrid :=
  if t.getTypeOfSFInterpolation = .PROJ_AVERAGE_VALUE then
    { g with
      scalarFields := g.scalarFields.map fun grid p =>
        if p < g.width * g.height then
          let cell := g.data (p / g.width) (p % g.width)
          if cell.nbPoints ≠ 0 then (grid p).map fun s => s / (cell.nbPoints : ℚ) else grid p
        else grid p }
  else g

/-- The loop `we need to finish the average height computation`. -/
def averageHeights (t : Tool) (g : RasterGrid) : RasterGrid :=
  if t.getTypeOfProjection = .PROJ_AVERAGE_VALUE then
    { g with
      data := fun j i =>
        if j < g.height ∧ i < g.width ∧ (g.data j i).nbPoints > 1 then
          { g.data j i with height := (g.data j i).height / ((g.data j i).nbPoints : ℚ) }
        else g.data j i }
  else g

/-! ## `updateGrid`: interpolation of the empty cells -/

/-- The loop `compute the number of non empty cells`. -/
def countNonEmptyCells (g : RasterGrid) : ℕ :=
  (List.range g.height).foldl
    (fun n i => (List.range g.width).foldl
      (fun n j => if (g.data i j).nbPoints ≠ 0 then n + 1 else n) n) 0

/-- The vector `the2DPoints` once filled: the `(i, j)` of the non-empty cells,
row after row. -/
def the2DPoints (g : RasterGrid) : List (ℤ × ℤ) :=
  (List.range g.height).flatMap fun j =>
    ((List.range g.width).filter fun i => (g.data j i).nbPoints ≠ 0).map fun i =>
      ((i : ℤ), (j : ℤ))

/-- The array `P` of the vertices of a triangle: `(P k).1` is `P[k][0]` and
`(P k).2` is `P[k][1]`. -/
def triangleVertices (pts : List (ℤ × ℤ)) (tsi : Fin 3 → ℕ) : Fin 3 → ℤ × ℤ :=
  fun k => pts.getD (tsi k) (0, 0)

/-- The local `det` of a triangle. -/
def triangleDet (P : Fin 3 → ℤ × ℤ) : ℤ :=
  ((P 1).2 - (P 2).2) * ((P 0).1 - (P 2).1) + ((P 2).1 - (P 1).1) * ((P 0).2 - (P 2).2)

/-- The point inclusion test: the value of `inside` after the loop on the three
edges. -/
def insideTriangle (P : Fin 3 → ℤ × ℤ) (i j : ℤ) : Bool :=
  (List.finRange 3).foldl
    (fun inside ti =>
      let P1 := P ti
      let P2 := P (ti + 1)
      if (P2.2 ≤ j ∧ j < P1.2) ∨ (P1.2 ≤ j ∧ j < P2.2) then
        let t := (i - P2.1) * (P1.2 - P2.2) - (P1.1 - P2.1) * (j - P2.2)
        let t := if P1.2 < P2.2 then -t else t
        if t < 0 then !inside else inside
      else inside)
    false

/-- The weight `l1` of cell `(i, j)`. -/
def baryL1 (P : Fin 3 → ℤ × ℤ) (i j : ℤ) : ℚ :=
  ((((P 1).2 - (P 2).2) * (i - (P 2).1) + ((P 2).1 - (P 1).1) * (j - (P 2).2) : ℤ) : ℚ)
    / (triangleDet P : ℚ)

/-- The weight `l2` of cell `(i, j)`. -/
def baryL2 (P : Fin 3 → ℤ × ℤ) (i j : ℤ) : ℚ :=
  ((((P 2).2 - (P 0).2) * (i - (P 2).1) + ((P 0).1 - (P 2).1) * (j - (P 2).2) : ℤ) : ℚ)
    / (triangleDet P : ℚ)

/-- The weight `l3` of cell `(i, j)`. -/
def baryL3 (P : Fin 3 → ℤ × ℤ) (i j : ℤ) : ℚ := 1 - baryL1 P i j - baryL2 P i j

/-- The height of the cell at vertex `k` of a triangle (`valA`, `valB`, `valC`
are references to these heights). -/
def vertexHeight (g : RasterGrid) (P : Fin 3 → ℤ × ℤ) (k : Fin 3) : ℚ :=
  (g.data (P k).2.toNat (P k).1.toNat).height

/-- The body of the scan of a triangle, for cell `(i, j)`; the height is the
exact value of `l1 * valA + l2 * valB + l3 * valC`. -/
def fillCell (P : Fin 3 → ℤ × ℤ) (g : RasterGrid) (i j : ℤ) : RasterGrid :=
  if (g.data j.toNat i.toNat).nbPoints = 0 then
    if insideTriangle P i j then
      { g with
        data := fun j1 i1 =>
          if j1 = j.toNat ∧ i1 = i.toNat then
            { g.data j1 i1 with
              nbPoints := 1,
              height := baryL1 P i j * vertexHeight g P 0 + baryL2 P i j * vertexHeight g P 1
                + baryL3 P i j * vertexHeight g P 2 }
          else g.data j1 i1 }
    else g
  else g

/-- The height of the assignment in `fillCell` as the doubles compute it: `l1`
and `l2` are the doubles of the two quotients, `l3 = 1.0 - l1 - l2` and the sum
`l1 * valA + l2 * valB + l3 * valC` are evaluated from left to right, each
operation rounded. -/
def fillHeightDouble (g : RasterGrid) (P : Fin 3 → ℤ × ℤ) (i j : ℤ) : ℚ :=
  let l1 := roundDouble (baryL1 P i j)
  let l2 := roundDouble (baryL2 P i j)
  let l3 := roundDouble (roundDouble (1 - l1) - l2)
  roundDouble
    (roundDouble (roundDouble (l1 * vertexHeight g P 0) + roundDouble (l2 * vertexHeight g P 1))
      + roundDouble (l3 * vertexHeight g P 2))

/-- The values of `for (int v=a; v<=b; ++v)`. -/
def intRange (a b : ℤ) : List ℤ := (List.range (b - a + 1).toNat).map fun k => a + (k : ℤ)

/-- The projection of one triangle on the grid. -/
def fillTriangle (pts : List (ℤ × ℤ)) (g : RasterGrid) (tsi : Fin 3 → ℕ) : RasterGrid :=
  let P := triangleVertices pts tsi
  let xMin := min (min (P 0).1 (P 1).1) (P 2).1
  let yMin := min (min (P 0).2 (P 1).2) (P 2).2
  let xMax := max (max (P 0).1 (P 1).1) (P 2).1
  let yMax := max (max (P 0).2 (P 1).2) (P 2).2
  (intRange yMin yMax).foldl
    (fun g j => (intRange xMin xMax).foldl (fun g i => fillCell P g i j) g) g

/-- The block `fill empty cells by interpolating nearest values`, once the
strategy is known to be `INTERPOLATE`. -/
def interpolateEmptyCells (t : Tool) (g : RasterGrid) : RasterGrid :=
  let nonEmptyCells := countNonEmptyCells g
  if nonEmptyCells > 2 ∧ nonEmptyCells ≠ mulUnsigned g.width g.height ∧ t.pointsAllocated then
    match t.buildMesh (the2DPoints g) with
    | none => g
    | some triangles => triangles.foldl (fillTriangle (the2DPoints g)) g
  else g

/-! ## `updateGrid`: statistics -/

/-- The body of the loop `computation of the average and extreme height
values in the grid`, for one cell. -/
def addCellToStats (s : RasterGrid) (c : RasterCell) : RasterGrid :=
  if c.nbPoints ≠ 0 then
    let h := c.height
    if s.nonEmptyCells ≠ 0 then
      { s with
        minHeight := if h < s.minHeight then h else s.minHeight,
        maxHeight :=
          if h < s.minHeight then s.maxHeight
          else if h > s.maxHeight then h
          else s.maxHeight,
        meanHeight := s.meanHeight + h,
        nonEmptyCells := s.nonEmptyCells + 1 }
    else
      { s with minHeight := h, maxHeight := h, meanHeight := h, nonEmptyCells := 0 + 1 }
  else s

/-- The end of `updateGrid`: the statistics are set to 0, then every cell is
visited, row after row. -/
def computeStats (g : RasterGrid) : RasterGrid :=
  (List.range g.height).foldl
    (fun s i => (List.range g.width).foldl (fun s j => addCellToStats s (g.data i j)) s)
    { g with minHeight := 0, maxHeight := 0, meanHeight := 0, nonEmptyCells := 0 }

/-! ## `updateGrid` -/

/-- The scalar-field arrays after their allocation. -/
def allocateSFs (t : Tool) (cloud : Cloud) (g : RasterGrid) : RasterGrid :=
  { g with scalarFields := (List.range cloud.scalarFields.length).map fun k => t.newArray k }

/-- The part of `updateGrid` that follows a successful scan. -/
def finishGrid (t : Tool) (g : RasterGrid) : RasterGrid :=
  let g1 := averageHeights t (averageSFs t g)
  let g2 := if t.getFillEmptyCellsStrategy = .INTERPOLATE then interpolateEmptyCells t g1 else g1
  { computeStats g2 with valid := true }

/-- The method `ccRasterizeTool::updateGrid`, on the grid `m_grid = g`: the
returned boolean and the grid it leaves. -/
def updateGrid (t : Tool) (interpolateSF : Bool) (g : RasterGrid) : Bool × RasterGrid :=
  match t.m_cloud with
  | none => (false, g)
  | some cloud =>
    if t.getCustomBBox.isValid = false then (false, g)
    else if t.boxDiag.u t.X ≤ 0 ∨ t.boxDiag.u t.Y ≤ 0 then (false, g)
    else if (t.gridTotalSize = 1 ∨ t.gridTotalSize > 10000000) ∧ t.proceedAnyway = false then
      (false, g)
    else
      match g.init t.gridWidth t.gridHeight t.cellsAllocated with
      | (false, g1) => (false, g1)
      | (true, g1) =>
        let g2 := { g1 with gridStep := t.getGridStep }
        let interpolateSF := interpolateSF && (cloud.isPointCloud && !cloud.scalarFields.isEmpty)
        let g3 := if interpolateSF then allocateSFs t cloud g2 else g2
        match scanPoints t cloud interpolateSF cloud.points 0 0 g3 with
        | (false, g4) => (false, g4)
        | (true, g4) => (true, finishGrid t g4)

/-! ## `getFillEmptyCellsStrategy` with the heights -/

/-- The result of `getFillEmptyCellsStrategy(emptyCellsHeight, minHeight,
maxHeight)`: the returned strategy and the three output arguments. -/
structure FillValues where
  strategy : EmptyCellFillOption
  emptyCellsHeight : ℚ
  minHeight : ℚ
  maxHeight : ℚ

/-- The method `getFillEmptyCellsStrategy(double&, double&, double&)`, on the
grid `m_grid = g`. -/
def Tool.getFillEmptyCellsStrategyWithHeights (t : Tool) (g : RasterGrid) : FillValues :=
  match t.getFillEmptyCellsStrategy with
  | .LEAVE_EMPTY =>
    { strategy := .LEAVE_EMPTY, emptyCellsHeight := 0, minHeight := g.minHeight,
      maxHeight := g.maxHeight }
  | .FILL_MINIMUM_HEIGHT =>
    { strategy := .FILL_MINIMUM_HEIGHT, emptyCellsHeight := g.minHeight,
      minHeight := g.minHeight, maxHeight := g.maxHeight }
  | .FILL_MAXIMUM_HEIGHT =>
    { strategy := .FILL_MAXIMUM_HEIGHT, emptyCellsHeight := g.maxHeight,
      minHeight := g.minHeight, maxHeight := g.maxHeight }
  | .FILL_CUSTOM_HEIGHT =>
    if g.nonEmptyCells ≠ mulUnsigned g.width g.height then
      { strategy := .FILL_CUSTOM_HEIGHT, emptyCellsHeight := t.getCustomHeightForEmptyCells,
        minHeight :=
          if t.getCustomHeightForEmptyCells ≤ g.minHeight then t.getCustomHeightForEmptyCells
          else g.minHeight,
        maxHeight :=
          if t.getCustomHeightForEmptyCells ≤ g.minHeight then g.maxHeight
          else if t.getCustomHeightForEmptyCells ≥ g.maxHeight then
            t.getCustomHeightForEmptyCells
          else g.maxHeight }
    else
      { strategy := .FILL_CUSTOM_HEIGHT, emptyCellsHeight := 0, minHeight := g.minHeight,
        maxHeight := g.maxHeight }
  | .INTERPOLATE =>
    if g.nonEmptyCells ≠ mulUnsigned g.width g.height then
      { strategy := .INTERPOLATE, emptyCellsHeight := t.getCustomHeightForEmptyCells,
        minHeight :=
          if t.getCustomHeightForEmptyCells ≤ g.minHeight then t.getCustomHeightForEmptyCells
          else g.minHeight,
        maxHeight :=
          if t.getCustomHeightForEmptyCells ≤ g.minHeight then g.maxHeight
          else if t.getCustomHeightForEmptyCells ≥ g.maxHeight then
            t.getCustomHeightForEmptyCells
          else g.maxHeight }
    else
      { strategy := .INTERPOLATE, emptyCellsHeight := 0, minHeight := g.minHeight,
        maxHeight := g.maxHeight }
  | .FILL_AVERAGE_HEIGHT =>
    { strategy := .FILL_CUSTOM_HEIGHT, emptyCellsHeight := g.meanHeight,
      minHeight := g.minHeight, maxHeight := g.maxHeight }

/-! ## `generateContours` -/

/-- Modelled from the spec: a raw polyline of the tracer `Isolines`, which is
not in this file. `vertices` holds the `(getContourX, getContourY)` of its
`getContourLength` vertices, in padded coordinates; `closed` is the report of
the tracer on whether the trace returned to its start, which `generateContours`
does not read. -/
structure RawContour where
  vertices : List (ℚ × ℚ)
  closed : Bool

/-- A polyline that `generateContours` adds to `m_contourLines`: its level (in
its name), its vertices and its closed state (`setClosed`). -/
structure ContourLine where
  z : ℚ
  vertices : List CCVector3
  closed : Bool

/-- What `generateContours` reads from the dialog and from the libraries it
calls. -/
structure ContourInputs where
  /-- The value of `contourStartDoubleSpinBox`. -/
  contourStart : ℚ
  /-- The value of `contourStepDoubleSpinBox`. -/
  contourStep : ℚ
  /-- The value of `minVertexCountSpinBox`. -/
  minVertexCount : ℤ
  /-- The state of `ignoreContourBordersCheckBox`. -/
  ignoreContourBorders : Bool
  /-- Whether the array `grid` can be allocated. -/
  gridAllocated : Bool
  /-- The lines of `iso.find(grid)` after `iso.setThreshold(z)`, for an array
  of `xDim` by `yDim` values: `find xDim yDim grid z`, with `grid r c` the value
  at row `r` and column `c`. -/
  find : ℕ → ℕ → (ℕ → ℕ → ℚ) → ℚ → List RawContour
  /-- Whether the calls of `reserve` succeed: `reserved k i v` for level number
  `k` and line `i`, at vertex `v` (0 for the calls made before the vertices
  are read). -/
  reserved : ℕ → ℕ → ℕ → Bool
  /-- The value of `nProgress.oneStep()` at its `k`-th call (from 0). -/
  oneStep : ℕ → Bool

/-- How `generateContours` ends. -/
inductive ContourStatus where
  | invalidGrid
  | startAboveRange
  | notEnoughMemory
  | done
deriving DecidableEq

/-- The outcome of `generateContours`: how it ends, the content of
`m_contourLines`, and the thresholds given to the tracer, in order. -/
structure ContourResult where
  status : ContourStatus
  lines : List ContourLine
  levels : List ℚ

/-- The local `levelCount` of `generateContours`, in exact arithmetic. -/
def levelCount (c : ContourInputs) (g : RasterGrid) : ℕ :=
  1 + Int.toNat ⌊(g.maxHeight - c.contourStart) / c.contourStep⌋

/-- The array `grid` given to the tracer, of `height + 2` rows and `width + 2`
columns, as a function of the row and the column. The inner values are the
ones of the loop `fill grid`. Modelled from the spec: `createOnePixelBorder`
is not in this file; the one-cell border on every side is filled with its
argument, `minHeight - 1`. -/
def paddedGrid (t : Tool) (g : RasterGrid) : ℕ → ℕ → ℚ :=
  let v := t.getFillEmptyCellsStrategyWithHeights g
  let emptyCellsHeight :=
    if v.strategy = .LEAVE_EMPTY then v.minHeight - 1 else v.emptyCellsHeight
  fun r c =>
    if 1 ≤ r ∧ r ≤ g.height ∧ 1 ≤ c ∧ c ≤ g.width then
      if (g.data (r - 1) (c - 1)).nbPoints ≠ 0 then (g.data (r - 1) (c - 1)).height
      else emptyCellsHeight
    else if r < g.height + 2 ∧ c < g.width + 2 then v.minHeight - 1
    else 0

/-- The point `P` added for the vertex `(x, y)` of a line of level `z`. -/
def contourPoint (t : Tool) (g : RasterGrid) (x y z : ℚ) : CCVector3 :=
  let u : Fin 3 → ℚ := fun k =>
    if k = t.Z then z
    else if k = t.Y then y * g.gridStep + t.getCustomBBox.minCorner.u t.Y
    else x * g.gridStep + t.getCustomBBox.minCorner.u t.X
  { x := u 0, y := u 1, z := u 2 }

/-- The local `outside` for the vertex `(x, y)`. -/
def isOutside (c : ContourInputs) (g : RasterGrid) (x y : ℚ) : Bool :=
  c.ignoreContourBorders &&
    decide (x < 1 ∨ y < 1 ∨ x + 1 ≥ (g.width : ℚ) ∨ y + 1 ≥ (g.height : ℚ))

/-- The loop on the vertices of a raw line of `vertCount` vertices, from vertex
`v` on: `poly` holds the vertices of the current polyline and `out` the
polylines already added to `m_contourLines` for this raw line. `reserveOk v`
tells whether the `reserve` calls made at vertex `v` succeed. The result is the
current polyline and the polylines added when the loop ends. -/
def splitContour (t : Tool) (c : ContourInputs) (g : RasterGrid) (z : ℚ)
    (reserveOk : ℕ → Bool) (vertCount : ℕ) :
    List (ℚ × ℚ) → ℕ → List CCVector3 → List ContourLine → List CCVector3 × List ContourLine
  | [], _, poly, out => (poly, out)
  | p :: rest, v, poly, out =>
    if isOutside c g (p.1 - 1) (p.2 - 1) then
      if poly.length ≠ 0 then
        if poly.length = 1 then
          if reserveOk v then splitContour t c g z reserveOk vertCount rest (v + 1) [] out
          else ([], out)
        else if v + 2 ≥ vertCount then (poly, out)
        else
          if reserveOk v then
            splitContour t c g z reserveOk vertCount rest (v + 1) []
              (out ++ [{ z := z, vertices := poly, closed := false }])
          else ([], out ++ [{ z := z, vertices := poly, closed := false }])
      else splitContour t c g z reserveOk vertCount rest (v + 1) poly out
    else
      splitContour t c g z reserveOk vertCount rest (v + 1)
        (poly ++ [contourPoint t g (p.1 - 1) (p.2 - 1) z]) out

/-- The polylines added to `m_contourLines` for one raw line whose first
`reserve` calls succeed: the ones of the loop on the vertices, then the
current polyline when it holds more than one vertex. -/
def convertContour (t : Tool) (c : ContourInputs) (g : RasterGrid) (z : ℚ)
    (reserveOk : ℕ → Bool) (raw : RawContour) : List ContourLine :=
  let r := splitContour t c g z reserveOk raw.vertices.length raw.vertices 0 [] []
  if r.1.length > 1 then
    r.2 ++ [{ z := z, vertices := r.1, closed := decide (r.1.length = raw.vertices.length) }]
  else r.2

/-- The loop `convert them to poylines` on the raw lines of level number `k`,
from line `i` on: the polylines added to `m_contourLines` and the value of
`memoryError`. -/
def convertContours (t : Tool) (c : ContourInputs) (g : RasterGrid) (z : ℚ) (k : ℕ) :
    List RawContour → ℕ → List ContourLine → List ContourLine × Bool
  | [], _, out => (out, false)
  | raw :: rest, i, out =>
    if (raw.vertices.length : ℤ) ≥ c.minVertexCount then
      if c.reserved k i 0 then
        convertContours t c g z k rest (i + 1)
          (out ++ convertContour t c g z (c.reserved k i) raw)
      else (out, true)
    else convertContours t c g z k rest (i + 1) out

/-- The loop `while (z <= m_grid.maxHeight && !memoryError)`, with at most
`fuel` turns: `k` is the number of the level, `lines` the content of
`m_contourLines`, `levels` the thresholds given to the tracer so far. The
result is `none` when the fuel runs out, else the value of `memoryError`, the
lines and the thresholds. The sum of `z += zStep` is exact here. -/
def levelLoop (t : Tool) (c : ContourInputs) (g : RasterGrid) :
    ℕ → ℚ → ℕ → List ContourLine → List ℚ → Option (Bool × List ContourLine × List ℚ)
  | 0, _, _, _, _ => none
  | fuel + 1, z, k, lines, levels =>
    if z ≤ g.maxHeight then
      let r := convertContours t c g z k
        (c.find (g.width + 2) (g.height + 2) (paddedGrid t g) z) 0 []
      if r.2 then some (true, lines ++ r.1, levels ++ [z])
      else if c.oneStep k then
        levelLoop t c g fuel (z + c.contourStep) (k + 1) (lines ++ r.1) (levels ++ [z])
      else some (false, lines ++ r.1, levels ++ [z])
    else some (false, lines, levels)

/-- The local `levelCount` of `generateContours` as the doubles compute it: the
difference and the quotient are rounded, and the conversion to `unsigned` and
the sum keep the low 32 bits. -/
def levelCountDouble (c : ContourInputs) (g : RasterGrid) : ℕ :=
  (1 + Int.toNat
    (⌊roundDouble (roundDouble (g.maxHeight - c.contourStart) / c.contourStep)⌋ % 2 ^ 32)) %
    2 ^ 32

/-- The loop `levelLoop` as the doubles compute it: the sum of `z += zStep` is
rounded. -/
def levelLoopDouble (t : Tool) (c : ContourInputs) (g : RasterGrid) :
    ℕ → ℚ → ℕ → List ContourLine → List ℚ → Option (Bool × List ContourLine × List ℚ)
  | 0, _, _, _, _ => none
  | fuel + 1, z, k, lines, levels =>
    if z ≤ g.maxHeight then
      let r := convertContours t c g z k
        (c.find (g.width + 2) (g.height + 2) (paddedGrid t g) z) 0 []
      if r.2 then some (true, lines ++ r.1, levels ++ [z])
      else if c.oneStep k then
        levelLoopDouble t c g fuel (roundDouble (z + c.contourStep)) (k + 1) (lines ++ r.1)
          (levels ++ [z])
      else some (false, lines ++ r.1, levels ++ [z])
    else some (false, lines, levels)

/-- The method `ccRasterizeTool::generateContours`, on the grid `m_grid = g`
and the lines `m_contourLines`, with at most `fuel` turns of its loop. -/
def generateContours (t : Tool) (c : ContourInputs) (g : RasterGrid)
    (m_contourLines : List ContourLine) (fuel : ℕ) : Option ContourResult :=
  if g.valid = false then
    some { status := .invalidGrid, lines := m_contourLines, levels := [] }
  else if c.contourStart > g.maxHeight then
    some { status := .startAboveRange, lines := m_contourLines, levels := [] }
  else if c.gridAllocated = false then
    some { status := .notEnoughMemory, lines := [], levels := [] }
  else
    match levelLoop t c g fuel c.contourStart 0 [] [] with
    | none => none
    | some (memoryError, lines, levels) =>
      if memoryError then some { status := .notEnoughMemory, lines := [], levels := levels }
      else some { status := .done, lines := lines, levels := levels }

/-! ## Notions used to state the properties -/

/-- The points of the list `pts`, numbered from `n`, that the scan puts in
cell `(i, j)` of a grid of `w` by `h` cells. -/
def pointsOfCell (t : Tool) (w h : ℕ) (n : ℕ) (pts : List CCVector3) (i j : ℕ) :
    List (ℕ × CCVector3) :=
  (List.enumFrom n pts).filter fun p => cellIndex t w h p.2 = some (i, j)

/-- The heights (`P->u[Z]`) of the points of `pts` that the scan puts in cell
`(i, j)`, in the order of the cloud. -/
def heightsOfCell (t : Tool) (pts : List CCVector3) (i j : ℕ) : List ℚ :=
  (pts.filter fun P => cellIndex t t.gridWidth t.gridHeight P = some (i, j)).map
    fun P => P.u t.Z

/-- The cell that the scan builds from an empty cell with the numbered points
`l`. -/
def scanCell (t : Tool) (c : RasterCell) (l : List (ℕ × CCVector3)) : RasterCell :=
  l.foldl (fun c p => updateCell t.getTypeOfProjection c p.1 (p.2.u t.Z)) c

/-- The tool `t` with the points of its cloud replaced by `pts`. -/
def Tool.withPoints (t : Tool) (pts : List CCVector3) : Tool :=
  { t with m_cloud := t.m_cloud.map fun cloud => { cloud with points := pts } }

/-- The cells of the grid that hold at least one point, as a finite set of
`(j, i)` (row, column). -/
def nonEmptyIndexes (g : RasterGrid) : Finset (ℕ × ℕ) :=
  (Finset.range g.height ×ˢ Finset.range g.width).filter
    fun p => (g.data p.1 p.2).nbPoints ≠ 0

/-- The distinct bucket indices `(i, j)` hit by at least one point of `pts`
that the scan does not skip. -/
def hitCells (t : Tool) (pts : List CCVector3) : List (ℕ × ℕ) :=
  (pts.filterMap (cellIndex t t.gridWidth t.gridHeight)).dedup

/-- The heights of the cells of a list that hold at least one point. -/
def cellHeights (cs : List RasterCell) : List ℚ :=
  (cs.filter fun c => c.nbPoints ≠ 0).map fun c => c.height

/-- The heights of the cells of the grid that hold at least one point, row
after row. -/
def nonEmptyHeights (g : RasterGrid) : List ℚ :=
  cellHeights ((List.range g.height ×ˢ List.range g.width).map fun p => g.data p.1 p.2)

/-- The grid `g1` has the size of `g` and the same cell wherever `g` holds a
point. -/
def KeepsCells (g g1 : RasterGrid) : Prop :=
  g1.width = g.width ∧ g1.height = g.height ∧
    ∀ j i, (g.data j i).nbPoints ≠ 0 → g1.data j i = g.data j i

/-- The value `t` of the inclusion test for the edge from `P1` to `P2`, before
its sign is adjusted. -/
def edgeSide (P1 P2 : ℤ × ℤ) (i j : ℤ) : ℤ :=
  (i - P2.1) * (P1.2 - P2.2) - (P1.1 - P2.1) * (j - P2.2)

/-- Whether the inclusion test flips `inside` at the edge from `P1` to `P2`. -/
def crossesEdge (P1 P2 : ℤ × ℤ) (i j : ℤ) : Bool :=
  decide (((P2.2 ≤ j ∧ j < P1.2) ∨ (P1.2 ≤ j ∧ j < P2.2)) ∧
    (if P1.2 < P2.2 then -edgeSide P1 P2 i j else edgeSide P1 P2 i j) < 0)

/-- The numerator of the weight `l1`. -/
def baryN1 (P : Fin 3 → ℤ × ℤ) (i j : ℤ) : ℤ :=
  ((P 1).2 - (P 2).2) * (i - (P 2).1) + ((P 2).1 - (P 1).1) * (j - (P 2).2)

/-- The numerator of the weight `l2`. -/
def baryN2 (P : Fin 3 → ℤ × ℤ) (i j : ℤ) : ℤ :=
  ((P 2).2 - (P 0).2) * (i - (P 2).1) + ((P 0).1 - (P 2).1) * (j - (P 2).2)

/-- The point `(i, j)` is in the closed triangle of the vertices `P`: it is a
combination of the three vertices with non-negative weights of sum 1. -/
def InClosedTriangle (P : Fin 3 → ℤ × ℤ) (i j : ℤ) : Prop :=
  ∃ w0 w1 w2 : ℚ, 0 ≤ w0 ∧ 0 ≤ w1 ∧ 0 ≤ w2 ∧ w0 + w1 + w2 = 1 ∧
    (i : ℚ) = w0 * ((P 0).1 : ℚ) + w1 * ((P 1).1 : ℚ) + w2 * ((P 2).1 : ℚ) ∧
    (j : ℚ) = w0 * ((P 0).2 : ℚ) + w1 * ((P 1).2 : ℚ) + w2 * ((P 2).2 : ℚ)

/-- The cell `c` is what the interpolation makes of the empty cell `(i, j)` of
the grid `g` with one of the triangles `tris` over the points `pts`: the count
is 1, the point index is kept, the inclusion test of the triangle accepts
`(i, j)`, and the height is the combination of the heights that the three
vertices have in `g`, with the weights `l1`, `l2`, `l3`. -/
def FilledFrom (g : RasterGrid) (pts : List (ℤ × ℤ)) (tris : List (Fin 3 → ℕ)) (j i : ℕ)
    (c : RasterCell) : Prop :=
  (g.data j i).nbPoints = 0 ∧ c.nbPoints = 1 ∧ c.pointIndex = (g.data j i).pointIndex ∧
  ∃ tsi ∈ tris,
    insideTriangle (triangleVertices pts tsi) i j = true ∧
    c.height =
      baryL1 (triangleVertices pts tsi) i j * vertexHeight g (triangleVertices pts tsi) 0 +
      baryL2 (triangleVertices pts tsi) i j * vertexHeight g (triangleVertices pts tsi) 1 +
      baryL3 (triangleVertices pts tsi) i j * vertexHeight g (triangleVertices pts tsi) 2

/-- What holds of the grid `g` all along the interpolation of the grid `g0`
with the triangles `tris` over the points `pts`: the cells that hold a point in
`g0` are kept, and every cell is the one of `g0` or is filled from `g0`. -/
def FillInvariant (g0 : RasterGrid) (pts : List (ℤ × ℤ)) (tris : List (Fin 3 → ℕ))
    (g : RasterGrid) : Prop :=
  KeepsCells g0 g ∧
    ∀ j i, g.data j i = g0.data j i ∨ FilledFrom g0 pts tris j i (g.data j i)

/-- The line that carries all the vertices of the raw line `raw`, at level
`z`, in the order of the tracer, marked closed. -/
def wholeLine (t : Tool) (g : RasterGrid) (z : ℚ) (raw : RawContour) : ContourLine :=
  { z := z, vertices := raw.vertices.map fun p => contourPoint t g (p.1 - 1) (p.2 - 1) z,
    closed := true }

/-- The vertex `P` of a line of level `z` is the image of a vertex of the raw
line `raw` that is not `outside`. -/
def FromInsideVertex (t : Tool) (c : ContourInputs) (g : RasterGrid) (z : ℚ)
    (raw : RawContour) (P : CCVector3) : Prop :=
  ∃ p ∈ raw.vertices, isOutside c g (p.1 - 1) (p.2 - 1) = false ∧
    P = contourPoint t g (p.1 - 1) (p.2 - 1) z

/-- The raw lines that the tracer gives `generateContours` at level `z`. -/
def rawContours (t : Tool) (c : ContourInputs) (g : RasterGrid) (z : ℚ) : List RawContour :=
  c.find (g.width + 2) (g.height + 2) (paddedGrid t g) z

/-- The raw lines of a list that pass the test `vertCount >= minVertexCount`. -/
def longContours (c : ContourInputs) (raws : List RawContour) : List RawContour :=
  raws.filter fun raw => decide ((raw.vertices.length : ℤ) ≥ c.minVertexCount)

/-- The point `(i, j)` is strictly inside the triangle of the vertices `P`: it
is a combination of the three vertices with positive weights of sum 1. -/
def InOpenTriangle (P : Fin 3 → ℤ × ℤ) (i j : ℤ) : Prop :=
  ∃ w0 w1 w2 : ℚ, 0 < w0 ∧ 0 < w1 ∧ 0 < w2 ∧ w0 + w1 + w2 = 1 ∧
    (i : ℚ) = w0 * ((P 0).1 : ℚ) + w1 * ((P 1).1 : ℚ) + w2 * ((P 2).1 : ℚ) ∧
    (j : ℚ) = w0 * ((P 0).2 : ℚ) + w1 * ((P 1).2 : ℚ) + w2 * ((P 2).2 : ℚ)

/-- The height that `fillCell` gives to the cell `(i, j)` when it fills it from
the triangle `P`. -/
def fillHeight (g : RasterGrid) (P : Fin 3 → ℤ × ℤ) (i j : ℤ) : ℚ :=
  baryL1 P i j * vertexHeight g P 0 + baryL2 P i j * vertexHeight g P 1 +
    baryL3 P i j * vertexHeight g P 2

/-- Following the words of the specification: the maximal runs of consecutive
vertices of a raw line that are not `outside`, in order (the vertices that are
`outside` separate the runs and are dropped), of which only the runs of at
least 2 vertices are kept. -/
def insideRuns (c : ContourInputs) (g : RasterGrid) (vs : List (ℚ × ℚ)) :
    List (List (ℚ × ℚ)) :=
  (vs.splitOnP fun p => isOutside c g (p.1 - 1) (p.2 - 1)).filter
    fun run => decide (2 ≤ run.length)

/-- The values of the scalar field `k` of the cloud at the points that the
scan puts in cell `(i, j)`, in the order of the cloud; `none` is NaN. -/
def fieldValuesOfCell (t : Tool) (cloud : Cloud) (k i j : ℕ) : List (Option ℚ) :=
  (pointsOfCell t t.gridWidth t.gridHeight 0 cloud.points i j).map
    fun p => (cloud.scalarFields.getD k fun _ => none) p.1

/-- The values of a list that are not NaN, in order. -/
def validValues : List (Option ℚ) → List ℚ
  | [] => []
  | none :: l => validValues l
  | some s :: l => s :: validValues l

/-- What the scan does to one value of a scalar-field array with the field
values `l` of the next points of the cell, when the cell holds `cnt` points
already. -/
def scanValues (sfInterpolation : ProjectionType) : ℕ → Option ℚ → List (Option ℚ) → Option ℚ
  | _, cur, [] => cur
  | cnt, cur, v :: l =>
    scanValues sfInterpolation (cnt + 1) (updateSFValue sfInterpolation cnt cur v) l

/-- How two valid values are combined in each mode. -/
def fieldOp (sfInterpolation : ProjectionType) (f s : ℚ) : ℚ :=
  match sfInterpolation with
  | .PROJ_MINIMUM_VALUE => min f s
  | .PROJ_AVERAGE_VALUE => f + s
  | .PROJ_MAXIMUM_VALUE => max f s
  | .INVALID_PROJECTION_TYPE => f

/-! ## Sample inputs -/

/-- A grid that has not been built yet. -/
def unbuiltGrid : RasterGrid :=
  { width := 0, height := 0, gridStep := 1, data := fun _ _ => RasterCell.empty,
    scalarFields := [], minHeight := 0, maxHeight := 0, meanHeight := 0, nonEmptyCells := 0,
    valid := false }

/-- A point cloud without scalar fields. -/
def sampleCloud (pts : List CCVector3) : Cloud :=
  { points := pts, isPointCloud := true, scalarFields := [] }

/-- Four points: the points 0, 1 and 2, of heights 4, 1 and 3, have their
plane coordinates in `[0, 1) x [0, 1)`, and point 3, of height 2, in
`[1, 2) x [0, 1)`. -/
def fourPoints : List CCVector3 :=
  [{ x := 1 / 2, y := 1 / 2, z := 4 }, { x := 1 / 4, y := 3 / 4, z := 1 },
   { x := 3 / 4, y := 1 / 4, z := 3 }, { x := 3 / 2, y := 1 / 2, z := 2 }]

/-- Three points of heights 1, 5 and 3, with their plane coordinates in
`[0, 1) x [0, 1)`. -/
def threePoints : List CCVector3 :=
  [{ x := 1 / 2, y := 1 / 2, z := 1 }, { x := 1 / 8, y := 1 / 4, z := 5 },
   { x := 3 / 4, y := 1 / 2, z := 3 }]

/-- A tool on the cloud `pts`: the box goes from `(0, 0, 0)` to `(w, h, 10)`,
the step is 1 and the projection is along dimension 2; the user accepts every
grid size and never cancels, the allocations succeed, and the mesh of the
non-empty cells is the single triangle of the points 0, 1 and 2. -/
def sampleTool (projectionType : ProjectionType) (fill : EmptyCellFillOption) (w h : ℚ)
    (pts : List CCVector3) : Tool :=
  { m_cloud := some (sampleCloud pts),
    getTypeOfProjection := projectionType,
    getTypeOfSFInterpolation := .INVALID_PROJECTION_TYPE,
    getFillEmptyCellsStrategy := fill,
    getProjectionDimension := 2,
    getCustomBBox :=
      { minCorner := { x := 0, y := 0, z := 0 }, maxCorner := { x := w, y := h, z := 10 },
        isValid := true },
    getGridStep := 1,
    getCustomHeightForEmptyCells := 0,
    proceedAnyway := true,
    cellsAllocated := true,
    pointsAllocated := true,
    newArray := fun _ _ => none,
    oneStep := fun _ => true,
    buildMesh := fun _ => some [fun k => k.val] }

/-- A cloud with one point, left of the box by half a cell, on a grid of 2 by
2 cells. -/
def strayTool : Tool :=
  sampleTool .PROJ_MINIMUM_VALUE .LEAVE_EMPTY 2 2 [{ x := -1 / 2, y := 1 / 2, z := 7 }]

/-- A cloud with a point on the maximum corner of the box, on a grid of 3 by
2 cells. -/
def cornerTool : Tool :=
  sampleTool .PROJ_MINIMUM_VALUE .LEAVE_EMPTY 3 2
    [{ x := 3, y := 2, z := 5 }, { x := 1 / 2, y := 1 / 2, z := 4 }]

/-- A box of 5/2 by 7/4 by 10, with a step of 1/2, projected along
dimension 1. -/
def fractionTool : Tool :=
  { sampleTool .PROJ_MAXIMUM_VALUE .LEAVE_EMPTY 5 3 [] with
    getProjectionDimension := 1,
    getGridStep := 1 / 2,
    getCustomBBox :=
      { minCorner := { x := 1, y := 0, z := 0 }, maxCorner := { x := 7 / 2, y := 10, z := 7 / 4 },
        isValid := true } }

/-- The cloud `fourPoints` on a grid of 2 by 1 cells, in minimum mode. -/
def minTool : Tool := sampleTool .PROJ_MINIMUM_VALUE .LEAVE_EMPTY 2 1 fourPoints

/-- The cloud `fourPoints` on a grid of 2 by 1 cells, in maximum mode. -/
def maxTool : Tool := sampleTool .PROJ_MAXIMUM_VALUE .LEAVE_EMPTY 2 1 fourPoints

/-- The cloud `threePoints` on a grid of 2 by 2 cells, in average mode. -/
def averageTool : Tool := sampleTool .PROJ_AVERAGE_VALUE .LEAVE_EMPTY 2 2 threePoints

/-- Two points of heights 1 and 2 in the two cells of a grid of 2 by 1
cells. -/
def twoCellTool : Tool :=
  sampleTool .PROJ_MINIMUM_VALUE .LEAVE_EMPTY 2 1
    [{ x := 1 / 2, y := 1 / 2, z := 1 }, { x := 3 / 2, y := 1 / 2, z := 2 }]

/-- Three points in the cells `(0, 0)`, `(2, 0)` and `(1, 1)` of a grid of 3
by 2 cells. -/
def trianglePoints : List CCVector3 :=
  [{ x := 1 / 2, y := 1 / 2, z := 1 }, { x := 5 / 2, y := 1 / 2, z := 2 },
   { x := 3 / 2, y := 3 / 2, z := 2 }]

/-- The cloud `trianglePoints` on a grid of 3 by 2 cells, with the
interpolation of the empty cells. -/
def interpolatingTool : Tool :=
  sampleTool .PROJ_MINIMUM_VALUE .INTERPOLATE 3 2 trianglePoints

/-- The grid that the build of `minTool` leaves: a valid grid of 2 by 1
cells. -/
def builtGrid : RasterGrid := (updateGrid minTool false unbuiltGrid).2

/-- The tool `minTool` with a user who cancels at the second call of
`oneStep`. -/
def cancelTool : Tool := { minTool with oneStep := fun k => decide (k < 1) }

/-- The tool `minTool` with a box of extent 0 on the horizontal axis. -/
def flatBoxTool : Tool := sampleTool .PROJ_MINIMUM_VALUE .LEAVE_EMPTY 0 1 fourPoints

/-- The grid that the build of `averageTool` leaves: 2 by 2 cells, of which
only cell `(0, 0)` holds points. -/
def oneCellGrid : RasterGrid := (updateGrid averageTool false unbuiltGrid).2

/-- The grid that the cloud `trianglePoints` gives without interpolation: 3
by 2 cells, with the non-empty cells `(0, 0)`, `(2, 0)` and `(1, 1)`, of
heights 1, 2 and 2. -/
def triangleGrid : RasterGrid :=
  (updateGrid (sampleTool .PROJ_MINIMUM_VALUE .LEAVE_EMPTY 3 2 trianglePoints) false
    unbuiltGrid).2

/-- Sixteen points, one in each cell of a grid of 4 by 4 cells, of heights 0
to 15 row by row. -/
def sixteenPoints : List CCVector3 :=
  (List.range 16).map fun n : ℕ =>
    { x := ((n % 4 : ℕ) : ℚ) + 1 / 2, y := ((n / 4 : ℕ) : ℚ) + 1 / 2, z := (n : ℚ) }

/-- The cloud `sixteenPoints` on a grid of 4 by 4 cells, in maximum mode. -/
def rampTool : Tool := sampleTool .PROJ_MAXIMUM_VALUE .LEAVE_EMPTY 4 4 sixteenPoints

/-- The grid that the build of `rampTool` leaves: a valid grid of 4 by 4 cells
with the heights 0 to 15. -/
def rampGrid : RasterGrid := (updateGrid rampTool false unbuiltGrid).2

/-- Two points of height 5 in the two cells of a grid of 2 by 1 cells. -/
def flatTool : Tool :=
  sampleTool .PROJ_MINIMUM_VALUE .LEAVE_EMPTY 2 1
    [{ x := 1 / 2, y := 1 / 2, z := 5 }, { x := 3 / 2, y := 1 / 2, z := 5 }]

/-- The grid that the build of `flatTool` leaves: a valid grid of constant
height 5. -/
def flatGrid : RasterGrid := (updateGrid flatTool false unbuiltGrid).2

/-- A raw line around the rows 2 and 3 of a grid of 4 by 4 cells, in padded
coordinates, reported as a closed loop: of its 12 vertices only `(2, 5/2)` and
`(3, 5/2)` are not in the outermost ring of cells. -/
def ringContour : RawContour :=
  { vertices :=
      [(1, 5 / 2), (2, 5 / 2), (3, 5 / 2), (4, 5 / 2), (9 / 2, 3), (9 / 2, 4), (4, 9 / 2),
       (3, 9 / 2), (2, 9 / 2), (1, 9 / 2), (1 / 2, 4), (1 / 2, 3)],
    closed := true }

/-- The inputs of `generateContours` with a tracer that gives the lines `raws`
at every level; the allocations succeed and the user never cancels. -/
def sampleContours (start step : ℚ) (minVertexCount : ℤ) (ignoreBorders : Bool)
    (raws : List RawContour) : ContourInputs :=
  { contourStart := start,
    contourStep := step,
    minVertexCount := minVertexCount,
    ignoreContourBorders := ignoreBorders,
    gridAllocated := true,
    find := fun _ _ _ _ => raws,
    reserved := fun _ _ _ => true,
    oneStep := fun _ => true }

/-- Start 15/2, step 100, `minVertexCount` 3, the borders ignored, and the
raw line `ringContour`. -/
def borderInputs : ContourInputs := sampleContours (15 / 2) 100 3 true [ringContour]

/-- Start 15/2, step 100, `minVertexCount` 3, the borders kept, and the raw
line `ringContour`. -/
def wholeInputs : ContourInputs := sampleContours (15 / 2) 100 3 false [ringContour]

/-- Start 6, step 1, `minVertexCount` 3, the borders kept, and the raw line
`ringContour`. -/
def highStartInputs : ContourInputs := sampleContours 6 1 3 false [ringContour]

/-- The triangle of the vertices `(0, 0)`, `(4, 0)` and `(0, 4)`. -/
def sampleTriangle : Fin 3 → ℤ × ℤ :=
  fun k => if k = 0 then (0, 0) else if k = 1 then (4, 0) else (0, 4)

/-- Three collinear vertices: `(0, 0)`, `(2, 2)` and `(4, 4)`. -/
def flatTriangle : Fin 3 → ℤ × ℤ :=
  fun k => if k = 0 then (0, 0) else if k = 1 then (2, 2) else (4, 4)

/-- Four points in the corner cells `(0, 0)`, `(4, 0)`, `(0, 4)` and `(4, 4)`
of a grid of 5 by 5 cells, of heights 1, 2, 3 and 4. -/
def cornerPoints : List CCVector3 :=
  [{ x := 1 / 2, y := 1 / 2, z := 1 }, { x := 9 / 2, y := 1 / 2, z := 2 },
   { x := 1 / 2, y := 9 / 2, z := 3 }, { x := 9 / 2, y := 9 / 2, z := 4 }]

/-- The grid that the cloud `cornerPoints` gives without interpolation: 5 by
5 cells, of which the four corner cells hold a point. -/
def squareGrid : RasterGrid :=
  (updateGrid (sampleTool .PROJ_MINIMUM_VALUE .LEAVE_EMPTY 5 5 cornerPoints) false
    unbuiltGrid).2

/-- A raw line of 4 vertices, none of which is in the outermost ring of cells
of a grid of 4 by 4 cells, reported as a closed loop. -/
def innerContour : RawContour :=
  { vertices := [(2, 2), (3, 2), (3, 3), (2, 3)], closed := true }

/-- Start 15/2, step 100, `minVertexCount` 3, the borders ignored, and the
raw lines `ringContour` and `innerContour`. -/
def mixedInputs : ContourInputs :=
  sampleContours (15 / 2) 100 3 true [ringContour, innerContour]

/-- Start -10, step 100, `minVertexCount` 3, the borders kept, and the raw
line `ringContour`. -/
def lowStartInputs : ContourInputs := sampleContours (-10) 100 3 false [ringContour]

/-- A box of 65536 by 65536 with a step of 1 and no point; the user answers
`No` to every question and the cells cannot be allocated. -/
def hugeTool : Tool :=
  { sampleTool .PROJ_MINIMUM_VALUE .LEAVE_EMPTY 65536 65536 [] with
    proceedAnyway := false, cellsAllocated := false }

/-- The cloud `fourPoints` on a grid of 1 cell, with a user who answers `No`
to the question on the size of the grid. -/
def declinedTool : Tool :=
  { sampleTool .PROJ_MINIMUM_VALUE .LEAVE_EMPTY 1 1 fourPoints with proceedAnyway := false }

/-- The cloud `fourPoints` with one scalar field, of values 5, NaN, 3 and
NaN: the cell `(0, 0)` gets the values 5, NaN and 3, and the cell `(1, 0)` the
value NaN. -/
def fieldCloud : Cloud :=
  { points := fourPoints, isPointCloud := true,
    scalarFields := [fun n => if n = 0 then some 5 else if n = 2 then some 3 else none] }

/-- The cloud `fieldCloud` on a grid of 2 by 1 cells, with the scalar fields
projected in the given mode; a new array holds 99 everywhere. -/
def fieldTool (sfInterpolation : ProjectionType) : Tool :=
  { sampleTool .PROJ_MINIMUM_VALUE .LEAVE_EMPTY 2 1 fourPoints with
    m_cloud := some fieldCloud,
    getTypeOfSFInterpolation := sfInterpolation,
    newArray := fun _ _ => some 99 }

/-- A box of 29 by 1 by 10 with the step 1.16 (the double nearest to 29/25),
and a cloud of two points: one on the maximum edge of the horizontal axis, one
in the first cell. -/
def edgeTool : Tool :=
  { sampleTool .PROJ_MINIMUM_VALUE .LEAVE_EMPTY 29 1
      [{ x := 29, y := 1 / 2, z := 5 }, { x := 1, y := 1 / 2, z := 3 }] with
    getGridStep := 5224175567749775 / 4503599627370496 }

/-- Three points of height 7 in the cells `(0, 0)`, `(0, 3)` and `(1, 3)` of a
grid of 2 by 4 cells. -/
def levelPoints : List CCVector3 :=
  [{ x := 1 / 2, y := 1 / 2, z := 7 }, { x := 1 / 2, y := 7 / 2, z := 7 },
   { x := 3 / 2, y := 7 / 2, z := 7 }]

/-- The grid that the cloud `levelPoints` gives without interpolation. -/
def levelGrid : RasterGrid :=
  (updateGrid (sampleTool .PROJ_MINIMUM_VALUE .LEAVE_EMPTY 2 4 levelPoints) false unbuiltGrid).2

/-- Two points of heights 1/4 and 1/2 in the two cells of a grid of 2 by 1
cells, in maximum mode. -/
def halfTool : Tool :=
  sampleTool .PROJ_MAXIMUM_VALUE .LEAVE_EMPTY 2 1
    [{ x := 1 / 2, y := 1 / 2, z := 1 / 4 }, { x := 3 / 2, y := 1 / 2, z := 1 / 2 }]

/-- The grid that the build of `halfTool` leaves: a valid grid of maximum
height 1/2. -/
def halfGrid : RasterGrid := (updateGrid halfTool false unbuiltGrid).2

/-- The start -0.1 and the step 0.1, as doubles, `minVertexCount` 3, the
borders kept, and a tracer that finds no line. -/
def tenthInputs : ContourInputs :=
  sampleContours (-3602879701896397 / 36028797018963968)
    (3602879701896397 / 36028797018963968) 3 false []

/-- A box of `2 ^ 32` by 1 by 10 with the step 1 and no point. -/
def wrapTool : Tool := sampleTool .PROJ_MINIMUM_VALUE .LEAVE_EMPTY 4294967296 1 []

/-! ## Lemmas: conversions -/

theorem toInt_of_nonneg {x : ℚ} (hx : 0 ≤ x) : toInt x = ⌊x⌋ := by
  simp [toInt, hx]

theorem toInt_of_neg {x : ℚ} (hx : x < 0) : toInt x = ⌈x⌉ := by
  simp [toInt, not_le.mpr hx]

theorem ceilToUnsigned_cast (x : ℚ) : ((ceilToUnsigned x : ℕ) : ℤ) = ⌈x⌉ % 2 ^ 32 := by
  unfold ceilToUnsigned
  exact Int.toNat_of_nonneg (Int.emod_nonneg _ (by norm_num))

/-! ## Lemmas: rounding to a double -/

theorem pow2_eq (k : ℤ) : pow2 k = (2 : ℚ) ^ k := by
  unfold pow2
  split_ifs with h
  · obtain ⟨n, rfl⟩ := Int.eq_ofNat_of_zero_le h
    simp
  · have h2 : 0 ≤ -k := by omega
    obtain ⟨n, hn⟩ := Int.eq_ofNat_of_zero_le h2
    have hk : k = -(n : ℤ) := by omega
    subst hk
    simp

theorem pow2_pos (k : ℤ) : 0 < pow2 k := by
  rw [pow2_eq]
  positivity

theorem halvings_eq : ∀ fuel n : ℕ, n ≤ fuel → halvings fuel n = Nat.log2 n := by
  intro fuel
  induction fuel with
  | zero =>
    intro n hn
    have : n = 0 := by omega
    subst this
    rw [Nat.log2]; rfl
  | succ fuel ih =>
    intro n hn
    rw [Nat.log2]
    show (if 2 ≤ n then halvings fuel (n / 2) + 1 else 0) = _
    by_cases h : 2 ≤ n
    · rw [if_pos h, if_pos h, ih (n / 2) (by omega)]
    · rw [if_neg h, if_neg h]

theorem halvings_bounds (n : ℕ) (hn : n ≠ 0) :
    2 ^ halvings n n ≤ n ∧ n < 2 ^ (halvings n n + 1) := by
  rw [halvings_eq n n le_rfl]
  exact ⟨Nat.log2_self_le hn, Nat.lt_log2_self⟩

/-- For `x > 0`, `2 ^ (binaryExponent x) ≤ x`. -/
theorem binaryExponent_le (x : ℚ) (hx : 0 < x) : (2 : ℚ) ^ binaryExponent x ≤ x := by
  unfold binaryExponent
  simp only
  split_ifs with h
  · have hnum : 0 < x.num := Rat.num_pos.mpr hx
    have hn0 : x.num.natAbs ≠ 0 := by omega
    obtain ⟨ha, _⟩ := halvings_bounds x.num.natAbs hn0
    obtain ⟨_, hb⟩ := halvings_bounds x.den x.den_nz
    generalize halvings x.num.natAbs x.num.natAbs = a at *
    generalize halvings x.den x.den = b at *
    have hxq : x = (x.num.natAbs : ℚ) / (x.den : ℚ) := by
      have : ((x.num.natAbs : ℤ) : ℚ) = (x.num : ℚ) := by
        rw [Int.natAbs_of_nonneg hnum.le]
      rw [← Int.cast_natCast, this]
      exact (Rat.num_div_den x).symm
    have haq : (2 : ℚ) ^ a ≤ (x.num.natAbs : ℚ) := by exact_mod_cast ha
    have hbq : (x.den : ℚ) ≤ (2 : ℚ) ^ (b + 1) := by exact_mod_cast hb.le
    have hden : (0 : ℚ) < x.den := by exact_mod_cast x.den_pos
    have e : (2 : ℚ) ^ ((a : ℤ) - (b : ℤ) - 1) = (2 : ℚ) ^ a / (2 : ℚ) ^ (b + 1) := by
      rw [show (a : ℤ) - (b : ℤ) - 1 = (a : ℤ) - ((b + 1 : ℕ) : ℤ) by push_cast; ring]
      rw [zpow_sub₀ (by norm_num : (2 : ℚ) ≠ 0), zpow_natCast, zpow_natCast]
    rw [e, hxq]
    rw [div_le_div_iff₀ (by positivity) hden]
    calc (2 : ℚ) ^ a * (x.den : ℚ) ≤ (x.num.natAbs : ℚ) * (x.den : ℚ) :=
          mul_le_mul_of_nonneg_right haq hden.le
      _ ≤ (x.num.natAbs : ℚ) * (2 : ℚ) ^ (b + 1) :=
          mul_le_mul_of_nonneg_left hbq (by positivity)
  · rw [← pow2_eq]
    exact not_lt.mp h

theorem roundNearestEven_bounds (y : ℚ) :
    ⌊y⌋ ≤ roundNearestEven y ∧ roundNearestEven y ≤ ⌈y⌉ := by
  unfold roundNearestEven
  have h1 : ⌊y⌋ ≤ ⌈y⌉ := Int.floor_le_ceil y
  have h2 : y - ⌊y⌋ ≠ 0 → ⌊y⌋ + 1 ≤ ⌈y⌉ := by
    intro h
    have : (⌊y⌋ : ℚ) < y := lt_of_le_of_ne (Int.floor_le y) (fun e => h (by rw [e]; ring))
    have : ⌊y⌋ < ⌈y⌉ := Int.lt_ceil.mpr this
    omega
  split_ifs with a b c
  · exact ⟨le_rfl, h1⟩
  · exact ⟨by omega, h2 (by linarith)⟩
  · exact ⟨le_rfl, h1⟩
  · exact ⟨by omega, h2 (by linarith)⟩

/-- Rounding to the nearest integer does not cross an integer. -/
theorem roundNearestEven_le (y : ℚ) (n : ℤ) (h : y ≤ n) : roundNearestEven y ≤ n :=
  le_trans (roundNearestEven_bounds y).2 (Int.ceil_le.mpr h)

theorem le_roundNearestEven (y : ℚ) (n : ℤ) (h : (n : ℚ) ≤ y) : n ≤ roundNearestEven y :=
  le_trans (Int.le_floor.mpr h) (roundNearestEven_bounds y).1

/-- For `0 < x < 2 ^ 53`, the unit of the last place of `x` is `1 / 2 ^ k` for
a natural number `k`. -/
theorem unit_of_lt (x : ℚ) (hx : 0 < x) (h53 : x < 2 ^ 53) :
    ∃ k : ℕ, pow2 (binaryExponent x - 52) = 1 / (2 : ℚ) ^ k := by
  have hle := binaryExponent_le x hx
  have he : binaryExponent x < 53 := by
    by_contra hc
    have h1 : (2 : ℚ) ^ (53 : ℤ) ≤ (2 : ℚ) ^ binaryExponent x :=
      zpow_le_zpow_right₀ (by norm_num) (by omega)
    have h2 : (2 : ℚ) ^ (53 : ℤ) = 2 ^ 53 := by norm_num
    linarith
  obtain ⟨k, hk⟩ := Int.eq_ofNat_of_zero_le (show 0 ≤ 52 - binaryExponent x by omega)
  refine ⟨k, ?_⟩
  rw [pow2_eq, show binaryExponent x - 52 = -(k : ℤ) by omega, zpow_neg, zpow_natCast,
    one_div]

theorem roundDouble_of_pos (x : ℚ) (hx : 0 < x) :
    roundDouble x = (roundNearestEven (x / pow2 (binaryExponent x - 52)) : ℚ) *
      pow2 (binaryExponent x - 52) := by
  unfold roundDouble
  rw [if_neg hx.ne', if_neg (not_lt.mpr hx.le)]

/-- Rounding to a double does not cross an integer from below: for
`0 < x ≤ n < 2 ^ 53`, the double nearest to `x` is at most `n`. -/
theorem roundDouble_le_int (x : ℚ) (n : ℤ) (hx : 0 < x) (h : x ≤ n) (h53 : x < 2 ^ 53) :
    roundDouble x ≤ n := by
  obtain ⟨k, hk⟩ := unit_of_lt x hx h53
  rw [roundDouble_of_pos x hx, hk]
  have h2 : (0 : ℚ) < 2 ^ k := by positivity
  have h3 : roundNearestEven (x / (1 / (2 : ℚ) ^ k)) ≤ n * 2 ^ k := by
    apply roundNearestEven_le
    rw [div_div_eq_mul_div, div_one]
    push_cast
    exact mul_le_mul_of_nonneg_right h h2.le
  have h4 : (roundNearestEven (x / (1 / (2 : ℚ) ^ k)) : ℚ) ≤ (n : ℚ) * 2 ^ k := by
    exact_mod_cast h3
  rw [mul_one_div, div_le_iff₀ h2]
  exact h4

/-- Rounding to a double does not cross an integer from above: for
`n ≤ x < 2 ^ 53`, `0 < x`, the double nearest to `x` is at least `n`. -/
theorem int_le_roundDouble (x : ℚ) (n : ℤ) (hx : 0 < x) (h : (n : ℚ) ≤ x) (h53 : x < 2 ^ 53) :
    (n : ℚ) ≤ roundDouble x := by
  obtain ⟨k, hk⟩ := unit_of_lt x hx h53
  rw [roundDouble_of_pos x hx, hk]
  have h2 : (0 : ℚ) < 2 ^ k := by positivity
  have h3 : n * 2 ^ k ≤ roundNearestEven (x / (1 / (2 : ℚ) ^ k)) := by
    apply le_roundNearestEven
    rw [div_div_eq_mul_div, div_one]
    push_cast
    exact mul_le_mul_of_nonneg_right h h2.le
  have h4 : (n : ℚ) * 2 ^ k ≤ (roundNearestEven (x / (1 / (2 : ℚ) ^ k)) : ℚ) := by
    exact_mod_cast h3
  rw [mul_one_div, le_div_iff₀ h2]
  exact h4

/-- Rounding to a double keeps the sign: a value that is not positive is not
rounded to a positive one. -/
theorem roundDouble_nonpos (x : ℚ) (hx : x ≤ 0) : roundDouble x ≤ 0 := by
  unfold roundDouble
  split_ifs with h0 hneg
  · exact le_rfl
  · simp only
    have hu := pow2_pos (binaryExponent (-x) - 52)
    have h1 : roundNearestEven (x / pow2 (binaryExponent (-x) - 52)) ≤ 0 :=
      roundNearestEven_le _ 0 (by
        rw [Int.cast_zero]
        exact div_nonpos_of_nonpos_of_nonneg hx hu.le)
    have h2 : (roundNearestEven (x / pow2 (binaryExponent (-x) - 52)) : ℚ) ≤ 0 := by
      exact_mod_cast h1
    exact mul_nonpos_of_nonpos_of_nonneg h2 hu.le
  · exact absurd (lt_of_le_of_ne hx h0) hneg

/-- Rounding to a double keeps the sign: a positive value is rounded to a
positive one. -/
theorem roundDouble_pos (x : ℚ) (hx : 0 < x) : 0 < roundDouble x := by
  rw [roundDouble_of_pos x hx]
  have hu := pow2_pos (binaryExponent x - 52)
  have hle := binaryExponent_le x hx
  have h1 : (1 : ℚ) ≤ x / pow2 (binaryExponent x - 52) := by
    rw [le_div_iff₀ hu, one_mul, pow2_eq]
    refine le_trans (zpow_le_zpow_right₀ (by norm_num) (by omega)) hle
  have h2 : (1 : ℤ) ≤ roundNearestEven (x / pow2 (binaryExponent x - 52)) :=
    le_roundNearestEven _ 1 (by simpa using h1)
  have h3 : (1 : ℚ) ≤ (roundNearestEven (x / pow2 (binaryExponent x - 52)) : ℚ) := by
    exact_mod_cast h2
  exact mul_pos (by linarith) hu

/-- For `x > 0`, `x < 2 ^ (binaryExponent x + 1)`. -/
theorem binaryExponent_lt (x : ℚ) (hx : 0 < x) : x < (2 : ℚ) ^ (binaryExponent x + 1) := by
  unfold binaryExponent
  simp only
  split_ifs with h
  · rw [sub_add_cancel, ← pow2_eq]
    exact h
  · have hnum : 0 < x.num := Rat.num_pos.mpr hx
    have hn0 : x.num.natAbs ≠ 0 := by omega
    obtain ⟨_, ha⟩ := halvings_bounds x.num.natAbs hn0
    obtain ⟨hb, _⟩ := halvings_bounds x.den x.den_nz
    generalize halvings x.num.natAbs x.num.natAbs = a at *
    generalize halvings x.den x.den = b at *
    have hxq : x = (x.num.natAbs : ℚ) / (x.den : ℚ) := by
      have : ((x.num.natAbs : ℤ) : ℚ) = (x.num : ℚ) := by
        rw [Int.natAbs_of_nonneg hnum.le]
      rw [← Int.cast_natCast, this]
      exact (Rat.num_div_den x).symm
    have haq : (x.num.natAbs : ℚ) < (2 : ℚ) ^ (a + 1) := by exact_mod_cast ha
    have hbq : (2 : ℚ) ^ b ≤ (x.den : ℚ) := by exact_mod_cast hb
    have hden : (0 : ℚ) < x.den := by exact_mod_cast x.den_pos
    have e : (2 : ℚ) ^ ((a : ℤ) - (b : ℤ) + 1) = (2 : ℚ) ^ (a + 1) / (2 : ℚ) ^ b := by
      rw [show (a : ℤ) - (b : ℤ) + 1 = ((a + 1 : ℕ) : ℤ) - (b : ℤ) by push_cast; ring]
      rw [zpow_sub₀ (by norm_num : (2 : ℚ) ≠ 0), zpow_natCast, zpow_natCast]
    rw [e]
    nth_rewrite 1 [hxq]
    rw [div_lt_div_iff₀ hden (by positivity)]
    calc (x.num.natAbs : ℚ) * (2 : ℚ) ^ b ≤ (x.num.natAbs : ℚ) * (x.den : ℚ) :=
          mul_le_mul_of_nonneg_left hbq (by positivity)
      _ < (2 : ℚ) ^ (a + 1) * (x.den : ℚ) := mul_lt_mul_of_pos_right haq hden

/-- The nearest integer is at most 1/2 away. -/
theorem roundNearestEven_near (y : ℚ) : |(roundNearestEven y : ℚ) - y| ≤ 1 / 2 := by
  have h1 : (⌊y⌋ : ℚ) ≤ y := Int.floor_le y
  have h2 : y < (⌊y⌋ : ℚ) + 1 := Int.lt_floor_add_one y
  unfold roundNearestEven
  rw [abs_le]
  split_ifs with a b c
  · constructor <;> linarith
  · push_cast; constructor <;> linarith
  · constructor <;> linarith
  · push_cast; constructor <;> linarith

/-- For `x > 0`, the double nearest to `x` is a multiple `m * 2 ^ (e - 52)` of
the unit of the last place, with `2 ^ 52 ≤ m ≤ 2 ^ 53` (53 significant bits),
at most half a unit away from `x`. -/
theorem roundDouble_near (x : ℚ) (hx : 0 < x) :
    ∃ m : ℤ, roundDouble x = (m : ℚ) * (2 : ℚ) ^ (binaryExponent x - 52) ∧
      2 ^ 52 ≤ m ∧ m ≤ 2 ^ 53 ∧
      |roundDouble x - x| ≤ (2 : ℚ) ^ (binaryExponent x - 52) / 2 := by
  have hu : (0 : ℚ) < (2 : ℚ) ^ (binaryExponent x - 52) := by positivity
  have hlo := binaryExponent_le x hx
  have hhi := binaryExponent_lt x hx
  have e1 : (2 : ℚ) ^ binaryExponent x =
      4503599627370496 * (2 : ℚ) ^ (binaryExponent x - 52) := by
    rw [zpow_sub₀ (by norm_num : (2 : ℚ) ≠ 0)]
    norm_num
    ring
  have e2 : (2 : ℚ) ^ (binaryExponent x + 1) =
      9007199254740992 * (2 : ℚ) ^ (binaryExponent x - 52) := by
    rw [zpow_sub₀ (by norm_num : (2 : ℚ) ≠ 0), zpow_add₀ (by norm_num : (2 : ℚ) ≠ 0)]
    norm_num
    ring
  refine ⟨roundNearestEven (x / (2 : ℚ) ^ (binaryExponent x - 52)), ?_, ?_, ?_, ?_⟩
  · rw [roundDouble_of_pos x hx, pow2_eq]
  · apply le_roundNearestEven
    rw [le_div_iff₀ hu]
    push_cast
    linarith
  · apply roundNearestEven_le
    rw [div_le_iff₀ hu]
    push_cast
    linarith
  · rw [roundDouble_of_pos x hx, pow2_eq]
    have h := roundNearestEven_near (x / (2 : ℚ) ^ (binaryExponent x - 52))
    have e3 : (roundNearestEven (x / (2 : ℚ) ^ (binaryExponent x - 52)) : ℚ) *
        (2 : ℚ) ^ (binaryExponent x - 52) - x =
        ((roundNearestEven (x / (2 : ℚ) ^ (binaryExponent x - 52)) : ℚ) -
          x / (2 : ℚ) ^ (binaryExponent x - 52)) * (2 : ℚ) ^ (binaryExponent x - 52) := by
      field_simp
    rw [e3, abs_mul, abs_of_pos hu]
    calc _ ≤ 1 / 2 * (2 : ℚ) ^ (binaryExponent x - 52) :=
          mul_le_mul_of_nonneg_right h hu.le
      _ = (2 : ℚ) ^ (binaryExponent x - 52) / 2 := by ring

/-- The ceiling of the double of a quotient `q > 0` whose ceiling fits in 32
bits is the ceiling of `q` or one less, and the conversion to `unsigned` keeps
it. -/
theorem ceil_roundDouble_bounds (q : ℚ) (hq : 0 < q) (h : ⌈q⌉ < 2 ^ 32) :
    ⌈q⌉ - 1 ≤ ⌈roundDouble q⌉ ∧ ⌈roundDouble q⌉ ≤ ⌈q⌉ ∧
    ⌈roundDouble q⌉ % 2 ^ 32 = ⌈roundDouble q⌉ := by
  have hN : q ≤ (⌈q⌉ : ℚ) := Int.le_ceil q
  have hNq : ((⌈q⌉ : ℤ) : ℚ) < 2 ^ 32 := by exact_mod_cast h
  have h53 : q < 2 ^ 53 := by
    have : (2 : ℚ) ^ 32 < 2 ^ 53 := by norm_num
    linarith
  have hlow : (((⌈q⌉ - 1 : ℤ)) : ℚ) ≤ q := by
    have := Int.ceil_lt_add_one q
    push_cast
    linarith
  have h1 : ⌈roundDouble q⌉ ≤ ⌈q⌉ := Int.ceil_le.mpr (roundDouble_le_int q ⌈q⌉ hq hN h53)
  have h2 : ⌈q⌉ - 1 ≤ ⌈roundDouble q⌉ :=
    Int.cast_le.mp (le_trans (int_le_roundDouble q (⌈q⌉ - 1) hq hlow h53) (Int.le_ceil _))
  have h3 : 0 ≤ ⌈roundDouble q⌉ := Int.ceil_nonneg (roundDouble_pos q hq).le
  exact ⟨h2, h1, Int.emod_eq_of_lt h3 (by omega)⟩

/-! ## Lemmas: the scan -/

theorem projectPoint_width (t : Tool) (cloud : Cloud) (sf : Bool) (g : RasterGrid) (n : ℕ)
    (P : CCVector3) (i j : ℕ) : (projectPoint t cloud sf g n P i j).width = g.width := rfl

theorem projectPoint_height (t : Tool) (cloud : Cloud) (sf : Bool) (g : RasterGrid) (n : ℕ)
    (P : CCVector3) (i j : ℕ) : (projectPoint t cloud sf g n P i j).height = g.height := rfl

theorem scanCell_cons (t : Tool) (c : RasterCell) (p : ℕ × CCVector3)
    (l : List (ℕ × CCVector3)) :
    scanCell t c (p :: l) = scanCell t (updateCell t.getTypeOfProjection c p.1 (p.2.u t.Z)) l :=
  rfl

theorem scanCell_nil (t : Tool) (c : RasterCell) : scanCell t c [] = c := rfl

theorem scanPoints_nil (t : Tool) (cloud : Cloud) (sf : Bool) (n k : ℕ) (g : RasterGrid) :
    scanPoints t cloud sf [] n k g = (true, g) := rfl

theorem scanPoints_cons (t : Tool) (cloud : Cloud) (sf : Bool) (P : CCVector3)
    (rest : List CCVector3) (n k : ℕ) (g : RasterGrid) :
    scanPoints t cloud sf (P :: rest) n k g =
      match cellIndex t g.width g.height P with
      | none => scanPoints t cloud sf rest (n + 1) k g
      | some (i, j) =>
        if t.oneStep k then
          scanPoints t cloud sf rest (n + 1) (k + 1) (projectPoint t cloud sf g n P i j)
        else (false, projectPoint t cloud sf g n P i j) := rfl

/-- After a scan that is not cancelled, every cell is the fold of `updateCell`
over the points that fall in it. -/
theorem scanPoints_data (t : Tool) (cloud : Cloud) (sf : Bool) :
    ∀ (pts : List CCVector3) (n k : ℕ) (g g1 : RasterGrid),
      scanPoints t cloud sf pts n k g = (true, g1) →
      g1.width = g.width ∧ g1.height = g.height ∧
      ∀ j i, g1.data j i = scanCell t (g.data j i) (pointsOfCell t g.width g.height n pts i j) := by
  intro pts
  induction pts with
  | nil =>
    intro n k g g1 h
    rw [scanPoints_nil] at h
    simp only [Prod.mk.injEq, true_and] at h
    subst h
    simp [pointsOfCell, scanCell]
  | cons P rest ih =>
    intro n k g g1 h
    rw [scanPoints_cons] at h
    cases hc : cellIndex t g.width g.height P with
    | none =>
      rw [hc] at h
      obtain ⟨hw, hh, hd⟩ := ih (n + 1) k g g1 h
      refine ⟨hw, hh, fun j i => ?_⟩
      rw [hd j i]
      simp [pointsOfCell, List.enumFrom_cons, List.filter_cons, hc]
    | some ij =>
      obtain ⟨i0, j0⟩ := ij
      rw [hc] at h
      simp only at h
      by_cases hs : t.oneStep k = true
      · rw [if_pos hs] at h
        obtain ⟨hw, hh, hd⟩ := ih (n + 1) (k + 1) _ g1 h
        rw [projectPoint_width] at hw
        rw [projectPoint_height] at hh
        refine ⟨hw, hh, fun j i => ?_⟩
        rw [hd j i, projectPoint_width, projectPoint_height]
        by_cases hji : j = j0 ∧ i = i0
        · obtain ⟨rfl, rfl⟩ := hji
          simp [pointsOfCell, List.enumFrom_cons, List.filter_cons, hc, projectPoint,
            scanCell_cons]
        · have hne : ¬ ((i0, j0) = (i, j)) := by
            intro he
            simp only [Prod.mk.injEq] at he
            exact hji ⟨he.2.symm, he.1.symm⟩
          simp [pointsOfCell, List.enumFrom_cons, List.filter_cons, hc, projectPoint, hji, hne]
      · rw [if_neg hs] at h
        simp at h

/-! ## Lemmas: one cell during the scan -/

theorem updateCell_nbPoints (pt : ProjectionType) (c : RasterCell) (n : ℕ) (h : ℚ) :
    (updateCell pt c n h).nbPoints = c.nbPoints + 1 := by
  unfold updateCell
  cases pt <;> simp only <;> split_ifs <;> rfl

theorem updateCell_of_empty (pt : ProjectionType) (c : RasterCell) (n : ℕ) (h : ℚ)
    (hc : c.nbPoints = 0) :
    updateCell pt c n h = { height := h, nbPoints := 1, pointIndex := n } := by
  unfold updateCell
  simp [hc]

theorem scanCell_nbPoints (t : Tool) (l : List (ℕ × CCVector3)) :
    ∀ c : RasterCell, (scanCell t c l).nbPoints = c.nbPoints + l.length := by
  induction l with
  | nil => intro c; simp [scanCell_nil]
  | cons p l ih =>
    intro c
    rw [scanCell_cons, ih, updateCell_nbPoints, List.length_cons]
    omega

theorem scanCell_min (t : Tool) (hpt : t.getTypeOfProjection = .PROJ_MINIMUM_VALUE)
    (l : List (ℕ × CCVector3)) :
    ∀ c : RasterCell, c.nbPoints ≠ 0 →
      (scanCell t c l).height ≤ c.height ∧
      (∀ p ∈ l, (scanCell t c l).height ≤ p.2.u t.Z) ∧
      (((scanCell t c l).height = c.height ∧ (scanCell t c l).pointIndex = c.pointIndex) ∨
        ∃ p ∈ l, (scanCell t c l).height = p.2.u t.Z ∧ (scanCell t c l).pointIndex = p.1) := by
  induction l with
  | nil => intro c _; simp [scanCell_nil]
  | cons p l ih =>
    intro c hc
    rw [scanCell_cons]
    have hne : (updateCell t.getTypeOfProjection c p.1 (p.2.u t.Z)).nbPoints ≠ 0 := by
      rw [updateCell_nbPoints]; omega
    obtain ⟨h1, h2, h3⟩ := ih _ hne
    by_cases hlt : p.2.u t.Z < c.height
    · have hu : updateCell t.getTypeOfProjection c p.1 (p.2.u t.Z) =
          { height := p.2.u t.Z, nbPoints := c.nbPoints + 1, pointIndex := p.1 } := by
        simp [updateCell, hpt, hc, hlt]
      rw [hu] at h1 h2 h3 ⊢
      simp only at h1 h3
      refine ⟨le_trans h1 (le_of_lt hlt), ?_, ?_⟩
      · intro q hq
        rcases List.mem_cons.mp hq with rfl | hq
        · exact h1
        · exact h2 q hq
      · right
        rcases h3 with ⟨e1, e2⟩ | ⟨q, hq, e1, e2⟩
        · exact ⟨p, List.mem_cons_self _ _, e1, e2⟩
        · exact ⟨q, List.mem_cons_of_mem _ hq, e1, e2⟩
    · have hu : updateCell t.getTypeOfProjection c p.1 (p.2.u t.Z) =
          { height := c.height, nbPoints := c.nbPoints + 1, pointIndex := c.pointIndex } := by
        simp [updateCell, hpt, hc, hlt]
      rw [hu] at h1 h2 h3 ⊢
      simp only at h1 h3
      refine ⟨h1, ?_, ?_⟩
      · intro q hq
        rcases List.mem_cons.mp hq with rfl | hq
        · exact le_trans h1 (not_lt.mp hlt)
        · exact h2 q hq
      · rcases h3 with ⟨e1, e2⟩ | ⟨q, hq, e1, e2⟩
        · exact Or.inl ⟨e1, e2⟩
        · exact Or.inr ⟨q, List.mem_cons_of_mem _ hq, e1, e2⟩

theorem scanCell_max (t : Tool) (hpt : t.getTypeOfProjection = .PROJ_MAXIMUM_VALUE)
    (l : List (ℕ × CCVector3)) :
    ∀ c : RasterCell, c.nbPoints ≠ 0 →
      c.height ≤ (scanCell t c l).height ∧
      (∀ p ∈ l, p.2.u t.Z ≤ (scanCell t c l).height) ∧
      (((scanCell t c l).height = c.height ∧ (scanCell t c l).pointIndex = c.pointIndex) ∨
        ∃ p ∈ l, (scanCell t c l).height = p.2.u t.Z ∧ (scanCell t c l).pointIndex = p.1) := by
  induction l with
  | nil => intro c _; simp [scanCell_nil]
  | cons p l ih =>
    intro c hc
    rw [scanCell_cons]
    have hne : (updateCell t.getTypeOfProjection c p.1 (p.2.u t.Z)).nbPoints ≠ 0 := by
      rw [updateCell_nbPoints]; omega
    obtain ⟨h1, h2, h3⟩ := ih _ hne
    by_cases hlt : p.2.u t.Z > c.height
    · have hu : updateCell t.getTypeOfProjection c p.1 (p.2.u t.Z) =
          { height := p.2.u t.Z, nbPoints := c.nbPoints + 1, pointIndex := p.1 } := by
        simp [updateCell, hpt, hc, hlt]
      rw [hu] at h1 h2 h3 ⊢
      simp only at h1 h3
      refine ⟨le_trans (le_of_lt hlt) h1, ?_, ?_⟩
      · intro q hq
        rcases List.mem_cons.mp hq with rfl | hq
        · exact h1
        · exact h2 q hq
      · right
        rcases h3 with ⟨e1, e2⟩ | ⟨q, hq, e1, e2⟩
        · exact ⟨p, List.mem_cons_self _ _, e1, e2⟩
        · exact ⟨q, List.mem_cons_of_mem _ hq, e1, e2⟩
    · have hu : updateCell t.getTypeOfProjection c p.1 (p.2.u t.Z) =
          { height := c.height, nbPoints := c.nbPoints + 1, pointIndex := c.pointIndex } := by
        simp [updateCell, hpt, hc, hlt]
      rw [hu] at h1 h2 h3 ⊢
      simp only at h1 h3
      refine ⟨h1, ?_, ?_⟩
      · intro q hq
        rcases List.mem_cons.mp hq with rfl | hq
        · exact le_trans (not_lt.mp hlt) h1
        · exact h2 q hq
      · rcases h3 with ⟨e1, e2⟩ | ⟨q, hq, e1, e2⟩
        · exact Or.inl ⟨e1, e2⟩
        · exact Or.inr ⟨q, List.mem_cons_of_mem _ hq, e1, e2⟩

theorem scanCell_average (t : Tool) (hpt : t.getTypeOfProjection = .PROJ_AVERAGE_VALUE)
    (l : List (ℕ × CCVector3)) :
    ∀ c : RasterCell, c.nbPoints ≠ 0 →
      (scanCell t c l).height = c.height + (l.map fun p => p.2.u t.Z).sum := by
  induction l with
  | nil => intro c _; simp [scanCell_nil]
  | cons p l ih =>
    intro c hc
    rw [scanCell_cons]
    have hne : (updateCell t.getTypeOfProjection c p.1 (p.2.u t.Z)).nbPoints ≠ 0 := by
      rw [updateCell_nbPoints]; omega
    rw [ih _ hne]
    have hu : (updateCell t.getTypeOfProjection c p.1 (p.2.u t.Z)).height =
        c.height + p.2.u t.Z := by
      simp [updateCell, hpt, hc]
    rw [hu, List.map_cons, List.sum_cons]
    ring

/-- From an empty cell and a non-empty list of points, in minimum mode: the
cell holds the least height and the number of a point that has it. -/
theorem scanCell_empty_min (t : Tool) (hpt : t.getTypeOfProjection = .PROJ_MINIMUM_VALUE)
    (c : RasterCell) (hc : c.nbPoints = 0) (l : List (ℕ × CCVector3)) (hl : l ≠ []) :
    (∀ p ∈ l, (scanCell t c l).height ≤ p.2.u t.Z) ∧
      ∃ p ∈ l, (scanCell t c l).height = p.2.u t.Z ∧ (scanCell t c l).pointIndex = p.1 := by
  cases l with
  | nil => exact absurd rfl hl
  | cons p l =>
    rw [scanCell_cons, updateCell_of_empty _ _ _ _ hc]
    obtain ⟨h1, h2, h3⟩ := scanCell_min t hpt l
      { height := p.2.u t.Z, nbPoints := 1, pointIndex := p.1 } (by simp)
    simp only at h1 h3
    refine ⟨?_, ?_⟩
    · intro q hq
      rcases List.mem_cons.mp hq with rfl | hq
      · exact h1
      · exact h2 q hq
    · rcases h3 with ⟨e1, e2⟩ | ⟨q, hq, e1, e2⟩
      · exact ⟨p, List.mem_cons_self _ _, e1, e2⟩
      · exact ⟨q, List.mem_cons_of_mem _ hq, e1, e2⟩

/-- From an empty cell and a non-empty list of points, in maximum mode: the
cell holds the greatest height and the number of a point that has it. -/
theorem scanCell_empty_max (t : Tool) (hpt : t.getTypeOfProjection = .PROJ_MAXIMUM_VALUE)
    (c : RasterCell) (hc : c.nbPoints = 0) (l : List (ℕ × CCVector3)) (hl : l ≠ []) :
    (∀ p ∈ l, p.2.u t.Z ≤ (scanCell t c l).height) ∧
      ∃ p ∈ l, (scanCell t c l).height = p.2.u t.Z ∧ (scanCell t c l).pointIndex = p.1 := by
  cases l with
  | nil => exact absurd rfl hl
  | cons p l =>
    rw [scanCell_cons, updateCell_of_empty _ _ _ _ hc]
    obtain ⟨h1, h2, h3⟩ := scanCell_max t hpt l
      { height := p.2.u t.Z, nbPoints := 1, pointIndex := p.1 } (by simp)
    simp only at h1 h3
    refine ⟨?_, ?_⟩
    · intro q hq
      rcases List.mem_cons.mp hq with rfl | hq
      · exact h1
      · exact h2 q hq
    · rcases h3 with ⟨e1, e2⟩ | ⟨q, hq, e1, e2⟩
      · exact ⟨p, List.mem_cons_self _ _, e1, e2⟩
      · exact ⟨q, List.mem_cons_of_mem _ hq, e1, e2⟩

/-- From an empty cell, in average mode: the cell holds the sum of the
heights. -/
theorem scanCell_empty_average (t : Tool) (hpt : t.getTypeOfProjection = .PROJ_AVERAGE_VALUE)
    (c : RasterCell) (hc : c.nbPoints = 0) (l : List (ℕ × CCVector3)) (hl : l ≠ []) :
    (scanCell t c l).height = (l.map fun p => p.2.u t.Z).sum := by
  cases l with
  | nil => exact absurd rfl hl
  | cons p l =>
    rw [scanCell_cons, updateCell_of_empty _ _ _ _ hc,
      scanCell_average t hpt l { height := p.2.u t.Z, nbPoints := 1, pointIndex := p.1 } (by simp)]
    simp

/-! ## Lemmas: the average cases -/

theorem averageSFs_data (t : Tool) (g : RasterGrid) : (averageSFs t g).data = g.data := by
  unfold averageSFs; split_ifs <;> rfl

theorem averageSFs_width (t : Tool) (g : RasterGrid) : (averageSFs t g).width = g.width := by
  unfold averageSFs; split_ifs <;> rfl

theorem averageSFs_height (t : Tool) (g : RasterGrid) : (averageSFs t g).height = g.height := by
  unfold averageSFs; split_ifs <;> rfl

theorem averageHeights_width (t : Tool) (g : RasterGrid) :
    (averageHeights t g).width = g.width := by
  unfold averageHeights; split_ifs <;> rfl

theorem averageHeights_height (t : Tool) (g : RasterGrid) :
    (averageHeights t g).height = g.height := by
  unfold averageHeights; split_ifs <;> rfl

theorem averageHeights_nbPoints (t : Tool) (g : RasterGrid) (j i : ℕ) :
    ((averageHeights t g).data j i).nbPoints = (g.data j i).nbPoints := by
  unfold averageHeights
  split_ifs
  · simp only
    split_ifs <;> rfl
  · rfl

theorem averageHeights_pointIndex (t : Tool) (g : RasterGrid) (j i : ℕ) :
    ((averageHeights t g).data j i).pointIndex = (g.data j i).pointIndex := by
  unfold averageHeights
  split_ifs
  · simp only
    split_ifs <;> rfl
  · rfl

theorem averageHeights_of_not_average (t : Tool) (g : RasterGrid)
    (hpt : t.getTypeOfProjection ≠ .PROJ_AVERAGE_VALUE) : averageHeights t g = g := by
  unfold averageHeights
  rw [if_neg hpt]

theorem averageHeights_of_average (t : Tool) (g : RasterGrid)
    (hpt : t.getTypeOfProjection = .PROJ_AVERAGE_VALUE) (j i : ℕ) (hj : j < g.height)
    (hi : i < g.width) (hn : (g.data j i).nbPoints ≠ 0) :
    ((averageHeights t g).data j i).height =
      (g.data j i).height / ((g.data j i).nbPoints : ℚ) := by
  unfold averageHeights
  rw [if_pos hpt]
  simp only
  by_cases h1 : (g.data j i).nbPoints > 1
  · rw [if_pos ⟨hj, hi, h1⟩]
  · have h2 : (g.data j i).nbPoints = 1 := by omega
    rw [if_neg (fun h => h1 h.2.2), h2]
    simp

/-! ## Lemmas: the interpolation keeps the non-empty cells -/

theorem KeepsCells.refl (g : RasterGrid) : KeepsCells g g := ⟨rfl, rfl, fun _ _ _ => rfl⟩

theorem KeepsCells.trans {g g1 g2 : RasterGrid} (h1 : KeepsCells g g1) (h2 : KeepsCells g1 g2) :
    KeepsCells g g2 := by
  obtain ⟨w1, e1, d1⟩ := h1
  obtain ⟨w2, e2, d2⟩ := h2
  refine ⟨w2.trans w1, e2.trans e1, fun j i hn => ?_⟩
  have h := d1 j i hn
  rw [d2 j i (by rw [h]; exact hn), h]

theorem KeepsCells.foldl {α : Type} (f : RasterGrid → α → RasterGrid)
    (hf : ∀ g x, KeepsCells g (f g x)) (l : List α) :
    ∀ g, KeepsCells g (l.foldl f g) := by
  induction l with
  | nil => intro g; exact KeepsCells.refl g
  | cons x l ih => intro g; exact (hf g x).trans (ih (f g x))

theorem fillCell_keeps (P : Fin 3 → ℤ × ℤ) (g : RasterGrid) (i j : ℤ) :
    KeepsCells g (fillCell P g i j) := by
  unfold fillCell
  split_ifs with h1 h2
  · refine ⟨rfl, rfl, fun j1 i1 hn => ?_⟩
    simp only
    rw [if_neg]
    rintro ⟨rfl, rfl⟩
    exact hn h1
  · exact KeepsCells.refl g
  · exact KeepsCells.refl g

theorem fillTriangle_keeps (pts : List (ℤ × ℤ)) (g : RasterGrid) (tsi : Fin 3 → ℕ) :
    KeepsCells g (fillTriangle pts g tsi) := by
  unfold fillTriangle
  exact KeepsCells.foldl _
    (fun g j => KeepsCells.foldl _ (fun g i => fillCell_keeps _ g i j) _ g) _ g

theorem interpolateEmptyCells_keeps (t : Tool) (g : RasterGrid) :
    KeepsCells g (interpolateEmptyCells t g) := by
  unfold interpolateEmptyCells
  simp only
  split_ifs
  · cases t.buildMesh (the2DPoints g) with
    | none => exact KeepsCells.refl g
    | some triangles => exact KeepsCells.foldl _ (fun g tsi => fillTriangle_keeps _ g tsi) _ g
  · exact KeepsCells.refl g

/-! ## Lemmas: statistics -/

theorem foldl_flatMap_eq {α β γ : Type} (f : α → List β) (op : γ → β → γ) (l : List α) :
    ∀ s, (l.flatMap f).foldl op s = l.foldl (fun s a => (f a).foldl op s) s := by
  induction l with
  | nil => intro s; rfl
  | cons a l ih => intro s; simp [List.flatMap_cons, List.foldl_append, ih]

/-- The two nested loops of the statistics visit the cells row after row. -/
theorem computeStats_eq (g : RasterGrid) :
    computeStats g =
      ((List.range g.height ×ˢ List.range g.width).map fun p => g.data p.1 p.2).foldl
        addCellToStats
        { g with minHeight := 0, maxHeight := 0, meanHeight := 0, nonEmptyCells := 0 } := by
  unfold computeStats
  rw [List.foldl_map]
  show _ = List.foldl _ _ (List.flatMap _ _)
  rw [foldl_flatMap_eq]
  simp only [List.foldl_map]

theorem addCellToStats_frame {β : Type} (π : RasterGrid → β)
    (hπ : ∀ (s : RasterGrid) (a b c : ℚ) (n : ℕ),
      π { s with minHeight := a, maxHeight := b, meanHeight := c, nonEmptyCells := n } = π s)
    (s : RasterGrid) (c : RasterCell) : π (addCellToStats s c) = π s := by
  unfold addCellToStats
  split_ifs
  · exact hπ s _ _ _ _
  · exact hπ s _ _ _ _
  · rfl

theorem statsFold_frame {β : Type} (π : RasterGrid → β)
    (hπ : ∀ (s : RasterGrid) (a b c : ℚ) (n : ℕ),
      π { s with minHeight := a, maxHeight := b, meanHeight := c, nonEmptyCells := n } = π s)
    (cs : List RasterCell) : ∀ s, π (cs.foldl addCellToStats s) = π s := by
  induction cs with
  | nil => intro s; rfl
  | cons c cs ih => intro s; rw [List.foldl_cons, ih, addCellToStats_frame π hπ]

theorem computeStats_data (g : RasterGrid) : (computeStats g).data = g.data := by
  rw [computeStats_eq, statsFold_frame (fun s => s.data) (fun _ _ _ _ _ => rfl)]

theorem computeStats_width (g : RasterGrid) : (computeStats g).width = g.width := by
  rw [computeStats_eq, statsFold_frame (fun s => s.width) (fun _ _ _ _ _ => rfl)]

theorem computeStats_height (g : RasterGrid) : (computeStats g).height = g.height := by
  rw [computeStats_eq, statsFold_frame (fun s => s.height) (fun _ _ _ _ _ => rfl)]

theorem addCellToStats_of_empty (s : RasterGrid) (c : RasterCell) (hc : c.nbPoints = 0) :
    addCellToStats s c = s := by
  unfold addCellToStats
  simp [hc]

theorem addCellToStats_first (s : RasterGrid) (c : RasterCell) (hc : c.nbPoints ≠ 0)
    (hs0 : s.nonEmptyCells = 0) :
    addCellToStats s c =
      { s with minHeight := c.height, maxHeight := c.height, meanHeight := c.height,
               nonEmptyCells := 0 + 1 } := by
  unfold addCellToStats
  rw [if_pos hc, if_neg (not_not.mpr hs0)]

theorem addCellToStats_next (s : RasterGrid) (c : RasterCell) (hc : c.nbPoints ≠ 0)
    (hs0 : s.nonEmptyCells ≠ 0) :
    addCellToStats s c =
      { s with
        minHeight := if c.height < s.minHeight then c.height else s.minHeight,
        maxHeight :=
          if c.height < s.minHeight then s.maxHeight
          else if c.height > s.maxHeight then c.height
          else s.maxHeight,
        meanHeight := s.meanHeight + c.height,
        nonEmptyCells := s.nonEmptyCells + 1 } := by
  unfold addCellToStats
  rw [if_pos hc, if_pos hs0]

theorem cellHeights_cons_of_empty (c : RasterCell) (cs : List RasterCell)
    (hc : c.nbPoints = 0) : cellHeights (c :: cs) = cellHeights cs := by
  unfold cellHeights
  rw [List.filter_cons_of_neg (by simp [hc])]

theorem cellHeights_cons_of_nonEmpty (c : RasterCell) (cs : List RasterCell)
    (hc : c.nbPoints ≠ 0) : cellHeights (c :: cs) = c.height :: cellHeights cs := by
  unfold cellHeights
  rw [List.filter_cons_of_pos (by simp [hc]), List.map_cons]

/-- The statistics after the visit of the cells `cs`, when a non-empty cell
has been seen before. -/
theorem statsFold_started (cs : List RasterCell) :
    ∀ s : RasterGrid, s.nonEmptyCells ≠ 0 → s.minHeight ≤ s.maxHeight →
      (cs.foldl addCellToStats s).nonEmptyCells = s.nonEmptyCells + (cellHeights cs).length ∧
      (cs.foldl addCellToStats s).meanHeight = s.meanHeight + (cellHeights cs).sum ∧
      (cs.foldl addCellToStats s).minHeight ≤ s.minHeight ∧
      s.maxHeight ≤ (cs.foldl addCellToStats s).maxHeight ∧
      (∀ h ∈ cellHeights cs, (cs.foldl addCellToStats s).minHeight ≤ h ∧
        h ≤ (cs.foldl addCellToStats s).maxHeight) ∧
      ((cs.foldl addCellToStats s).minHeight = s.minHeight ∨
        (cs.foldl addCellToStats s).minHeight ∈ cellHeights cs) ∧
      ((cs.foldl addCellToStats s).maxHeight = s.maxHeight ∨
        (cs.foldl addCellToStats s).maxHeight ∈ cellHeights cs) := by
  induction cs with
  | nil => intro s _ _; simp [cellHeights]
  | cons c cs ih =>
    intro s hs0 hle
    by_cases hc : c.nbPoints = 0
    · rw [List.foldl_cons, addCellToStats_of_empty s c hc, cellHeights_cons_of_empty c cs hc]
      exact ih s hs0 hle
    · have hn : (addCellToStats s c).nonEmptyCells = s.nonEmptyCells + 1 := by
        rw [addCellToStats_next s c hc hs0]
      have hm : (addCellToStats s c).meanHeight = s.meanHeight + c.height := by
        rw [addCellToStats_next s c hc hs0]
      have hmin : (addCellToStats s c).minHeight = min s.minHeight c.height := by
        rw [addCellToStats_next s c hc hs0]
        simp only
        split_ifs with h1
        · exact (min_eq_right (le_of_lt h1)).symm
        · exact (min_eq_left (not_lt.mp h1)).symm
      have hmax : (addCellToStats s c).maxHeight = max s.maxHeight c.height := by
        rw [addCellToStats_next s c hc hs0]
        simp only
        split_ifs with h1 h2
        · exact (max_eq_left (le_trans (le_of_lt h1) hle)).symm
        · exact (max_eq_right (le_of_lt h2)).symm
        · exact (max_eq_left (not_lt.mp h2)).symm
      have hle1 : (addCellToStats s c).minHeight ≤ (addCellToStats s c).maxHeight := by
        rw [hmin, hmax]; exact le_trans (min_le_left _ _) (le_trans hle (le_max_left _ _))
      obtain ⟨r1, r2, r4, r5, r6, r7, r8⟩ :=
        ih (addCellToStats s c) (by rw [hn]; omega) hle1
      rw [List.foldl_cons, cellHeights_cons_of_nonEmpty c cs hc]
      rw [hmin] at r4 r7
      rw [hmax] at r5 r8
      refine ⟨?_, ?_, le_trans r4 (min_le_left _ _), le_trans (le_max_left _ _) r5, ?_, ?_, ?_⟩
      · rw [r1, hn, List.length_cons]; omega
      · rw [r2, hm, List.sum_cons]; ring
      · intro h hh
        rcases List.mem_cons.mp hh with rfl | hh
        · exact ⟨le_trans r4 (min_le_right _ _), le_trans (le_max_right _ _) r5⟩
        · exact r6 h hh
      · rcases r7 with e | e
        · rcases min_choice s.minHeight c.height with e1 | e1
          · left; rw [e, e1]
          · right; rw [e, e1]; exact List.mem_cons_self _ _
        · right; exact List.mem_cons_of_mem _ e
      · rcases r8 with e | e
        · rcases max_choice s.maxHeight c.height with e1 | e1
          · left; rw [e, e1]
          · right; rw [e, e1]; exact List.mem_cons_self _ _
        · right; exact List.mem_cons_of_mem _ e

/-- The statistics after the visit of the cells `cs`, from the start of the
loop. -/
theorem statsFold_start (cs : List RasterCell) :
    ∀ s : RasterGrid, s.nonEmptyCells = 0 →
      (cs.foldl addCellToStats s).nonEmptyCells = (cellHeights cs).length ∧
      (cellHeights cs ≠ [] →
        (cs.foldl addCellToStats s).meanHeight = (cellHeights cs).sum ∧
        (cs.foldl addCellToStats s).minHeight ∈ cellHeights cs ∧
        (cs.foldl addCellToStats s).maxHeight ∈ cellHeights cs ∧
        ∀ h ∈ cellHeights cs, (cs.foldl addCellToStats s).minHeight ≤ h ∧
          h ≤ (cs.foldl addCellToStats s).maxHeight) := by
  induction cs with
  | nil => intro s hs0; simp [cellHeights, hs0]
  | cons c cs ih =>
    intro s hs0
    by_cases hc : c.nbPoints = 0
    · rw [List.foldl_cons, addCellToStats_of_empty s c hc, cellHeights_cons_of_empty c cs hc]
      exact ih s hs0
    · have hn : (addCellToStats s c).nonEmptyCells = 1 := by
        rw [addCellToStats_first s c hc hs0]
      have hm : (addCellToStats s c).meanHeight = c.height := by
        rw [addCellToStats_first s c hc hs0]
      have hmin : (addCellToStats s c).minHeight = c.height := by
        rw [addCellToStats_first s c hc hs0]
      have hmax : (addCellToStats s c).maxHeight = c.height := by
        rw [addCellToStats_first s c hc hs0]
      obtain ⟨r1, r2, r4, r5, r6, r7, r8⟩ :=
        statsFold_started cs (addCellToStats s c) (by rw [hn]; omega) (by rw [hmin, hmax])
      rw [List.foldl_cons, cellHeights_cons_of_nonEmpty c cs hc]
      rw [hmin] at r4 r7
      rw [hmax] at r5 r8
      refine ⟨?_, fun _ => ⟨?_, ?_, ?_, ?_⟩⟩
      · rw [r1, hn, List.length_cons]; omega
      · rw [r2, hm, List.sum_cons]
      · rcases r7 with e | e
        · rw [e]; exact List.mem_cons_self _ _
        · exact List.mem_cons_of_mem _ e
      · rcases r8 with e | e
        · rw [e]; exact List.mem_cons_self _ _
        · exact List.mem_cons_of_mem _ e
      · intro h hh
        rcases List.mem_cons.mp hh with rfl | hh
        · exact ⟨r4, r5⟩
        · exact r6 h hh

theorem mem_nonEmptyHeights (g : RasterGrid) (h : ℚ) :
    h ∈ nonEmptyHeights g ↔
      ∃ j i, j < g.height ∧ i < g.width ∧ (g.data j i).nbPoints ≠ 0 ∧ (g.data j i).height = h := by
  unfold nonEmptyHeights cellHeights
  simp only [List.mem_map, List.mem_filter, Prod.exists, List.mem_product, List.mem_range,
    decide_eq_true_eq]
  constructor
  · rintro ⟨c, ⟨⟨j, i, ⟨hj, hi⟩, rfl⟩, hn⟩, rfl⟩
    exact ⟨j, i, hj, hi, hn, rfl⟩
  · rintro ⟨j, i, hj, hi, hn, rfl⟩
    exact ⟨g.data j i, ⟨⟨j, i, ⟨hj, hi⟩, rfl⟩, hn⟩, rfl⟩

theorem length_nonEmptyHeights (g : RasterGrid) :
    (nonEmptyHeights g).length = (nonEmptyIndexes g).card := by
  unfold nonEmptyHeights cellHeights nonEmptyIndexes
  rw [List.length_map, List.filter_map, List.length_map]
  have hnd : ((List.range g.height ×ˢ List.range g.width).filter
      ((fun c : RasterCell => decide (c.nbPoints ≠ 0)) ∘ fun p => g.data p.1 p.2)).Nodup :=
    ((List.nodup_range _).product (List.nodup_range _)).filter _
  rw [← List.toFinset_card_of_nodup hnd]
  congr 1
  ext ⟨j, i⟩
  simp [List.mem_product]

/-- The statistics that `computeStats` leaves, in terms of the non-empty
cells of the grid. -/
theorem computeStats_stats (g : RasterGrid) :
    (computeStats g).nonEmptyCells = (nonEmptyHeights g).length ∧
    (nonEmptyHeights g ≠ [] →
      (computeStats g).meanHeight = (nonEmptyHeights g).sum ∧
      (computeStats g).minHeight ∈ nonEmptyHeights g ∧
      (computeStats g).maxHeight ∈ nonEmptyHeights g ∧
      ∀ h ∈ nonEmptyHeights g, (computeStats g).minHeight ≤ h ∧
        h ≤ (computeStats g).maxHeight) := by
  rw [computeStats_eq]
  exact statsFold_start _ _ rfl

theorem card_nonEmptyIndexes_le (g : RasterGrid) :
    (nonEmptyIndexes g).card ≤ g.width * g.height := by
  unfold nonEmptyIndexes
  refine le_trans (Finset.card_filter_le _ _) ?_
  rw [Finset.card_product, Finset.card_range, Finset.card_range, Nat.mul_comm]

/-! ## Lemmas: `init` and `updateGrid` -/

theorem init_success (g g1 : RasterGrid) (w h : ℕ) (a : Bool)
    (hi : g.init w h a = (true, g1)) :
    g1.width = w ∧ g1.height = h ∧ g1.valid = false ∧
      ∀ j i, j < h → i < w → g1.data j i = RasterCell.empty := by
  unfold RasterGrid.init at hi
  simp only at hi
  split_ifs at hi with h1 h2
  · simp only [Prod.mk.injEq, true_and] at hi
    subst hi
    obtain ⟨rfl, rfl⟩ := h1
    refine ⟨rfl, rfl, rfl, fun j i hj hi => ?_⟩
    simp [RasterGrid.reset, hj, hi]
  · simp only [Prod.mk.injEq, true_and] at hi
    subst hi
    exact ⟨rfl, rfl, rfl, fun _ _ _ _ => rfl⟩
  · simp at hi

/-- What a successful `updateGrid` has gone through. -/
theorem updateGrid_success (t : Tool) (sf : Bool) (g : RasterGrid)
    (h : (updateGrid t sf g).1 = true) :
    ∃ (cloud : Cloud) (sf1 : Bool) (g3 g4 : RasterGrid),
      t.m_cloud = some cloud ∧ 0 < t.boxDiag.u t.X ∧ 0 < t.boxDiag.u t.Y ∧
      g3.width = t.gridWidth ∧ g3.height = t.gridHeight ∧
      (∀ j i, j < t.gridHeight → i < t.gridWidth → g3.data j i = RasterCell.empty) ∧
      scanPoints t cloud sf1 cloud.points 0 0 g3 = (true, g4) ∧
      (updateGrid t sf g).2 = finishGrid t g4 := by
  unfold updateGrid at h ⊢
  cases hc : t.m_cloud with
  | none => rw [hc] at h; simp at h
  | some cloud =>
    rw [hc] at h
    simp only at h ⊢
    by_cases h1 : t.getCustomBBox.isValid = false
    · rw [if_pos h1] at h; simp at h
    rw [if_neg h1] at h ⊢
    by_cases h2 : t.boxDiag.u t.X ≤ 0 ∨ t.boxDiag.u t.Y ≤ 0
    · rw [if_pos h2] at h; simp at h
    rw [if_neg h2] at h ⊢
    by_cases h3 : (t.gridTotalSize = 1 ∨ t.gridTotalSize > 10000000) ∧ t.proceedAnyway = false
    · rw [if_pos h3] at h; simp at h
    rw [if_neg h3] at h ⊢
    · cases hi : g.init t.gridWidth t.gridHeight t.cellsAllocated with
      | mk b g1 =>
        rw [hi] at h
        cases b with
        | false => simp at h
        | true =>
          simp only at h ⊢
          obtain ⟨hw, hh, _, hd⟩ := init_success g g1 _ _ _ hi
          rw [not_or, not_le, not_le] at h2
          generalize hsf : (sf && (cloud.isPointCloud && !cloud.scalarFields.isEmpty)) = sf1 at h ⊢
          generalize hg3 : (if sf1 = true then
              allocateSFs t cloud { g1 with gridStep := t.getGridStep }
            else { g1 with gridStep := t.getGridStep }) = g3 at h ⊢
          have hw3 : g3.width = t.gridWidth := by
            rw [← hg3]; split_ifs <;> exact hw
          have hh3 : g3.height = t.gridHeight := by
            rw [← hg3]; split_ifs <;> exact hh
          have hd3 : g3.data = g1.data := by
            rw [← hg3]; split_ifs <;> rfl
          cases hsc : scanPoints t cloud sf1 cloud.points 0 0 g3 with
          | mk b2 g4 =>
            rw [hsc] at h
            cases b2 with
            | false => simp at h
            | true =>
              exact ⟨cloud, sf1, g3, g4, rfl, h2.1, h2.2, hw3, hh3,
                fun j i hj hi => by rw [hd3]; exact hd j i hj hi, hsc, rfl⟩

theorem finishGrid_width (t : Tool) (g : RasterGrid) : (finishGrid t g).width = g.width := by
  unfold finishGrid
  simp only
  rw [computeStats_width]
  split_ifs
  · rw [(interpolateEmptyCells_keeps t _).1, averageHeights_width, averageSFs_width]
  · rw [averageHeights_width, averageSFs_width]

theorem finishGrid_height (t : Tool) (g : RasterGrid) : (finishGrid t g).height = g.height := by
  unfold finishGrid
  simp only
  rw [computeStats_height]
  split_ifs
  · rw [(interpolateEmptyCells_keeps t _).2.1, averageHeights_height, averageSFs_height]
  · rw [averageHeights_height, averageSFs_height]

/-- The end of `updateGrid` keeps every cell that holds a point as the
average step left it. -/
theorem finishGrid_keeps (t : Tool) (g : RasterGrid) :
    KeepsCells (averageHeights t (averageSFs t g)) (finishGrid t g) := by
  unfold finishGrid
  simp only
  refine ⟨?_, ?_, ?_⟩
  · rw [computeStats_width]
    split_ifs
    · exact (interpolateEmptyCells_keeps t _).1
    · rfl
  · rw [computeStats_height]
    split_ifs
    · exact (interpolateEmptyCells_keeps t _).2.1
    · rfl
  · intro j i hn
    rw [computeStats_data]
    split_ifs
    · exact (interpolateEmptyCells_keeps t _).2.2 j i hn
    · rfl

theorem finishGrid_data_of_not_interpolate (t : Tool) (g : RasterGrid)
    (hs : t.getFillEmptyCellsStrategy ≠ .INTERPOLATE) :
    (finishGrid t g).data = (averageHeights t (averageSFs t g)).data := by
  unfold finishGrid
  simp only
  rw [computeStats_data, if_neg hs]

/-- The statistics of the grid that `finishGrid` leaves. -/
theorem finishGrid_stats (t : Tool) (g : RasterGrid) :
    (finishGrid t g).nonEmptyCells = (nonEmptyHeights (finishGrid t g)).length ∧
    (nonEmptyHeights (finishGrid t g) ≠ [] →
      (finishGrid t g).meanHeight = (nonEmptyHeights (finishGrid t g)).sum ∧
      (finishGrid t g).minHeight ∈ nonEmptyHeights (finishGrid t g) ∧
      (finishGrid t g).maxHeight ∈ nonEmptyHeights (finishGrid t g) ∧
      ∀ h ∈ nonEmptyHeights (finishGrid t g), (finishGrid t g).minHeight ≤ h ∧
        h ≤ (finishGrid t g).maxHeight) := by
  have e : nonEmptyHeights (finishGrid t g) =
      nonEmptyHeights (if t.getFillEmptyCellsStrategy = .INTERPOLATE then
        interpolateEmptyCells t (averageHeights t (averageSFs t g))
        else averageHeights t (averageSFs t g)) := by
    unfold nonEmptyHeights
    rw [finishGrid_width, finishGrid_height]
    unfold finishGrid
    simp only
    rw [computeStats_data]
    congr 3
    · split_ifs
      · rw [(interpolateEmptyCells_keeps t _).2.1, averageHeights_height, averageSFs_height]
      · rw [averageHeights_height, averageSFs_height]
    · split_ifs
      · rw [(interpolateEmptyCells_keeps t _).1, averageHeights_width, averageSFs_width]
      · rw [averageHeights_width, averageSFs_width]
  rw [e]
  exact computeStats_stats _

/-! ## Lemmas: the points of a cell -/

theorem cellIndex_lt (t : Tool) (w h : ℕ) (P : CCVector3) (i j : ℕ)
    (hc : cellIndex t w h P = some (i, j)) : i < w ∧ j < h := by
  unfold cellIndex at hc
  simp only at hc
  split_ifs at hc with h1
  simp only [Option.some.injEq, Prod.mk.injEq] at hc
  simp only [not_or, not_lt, ge_iff_le, not_le] at h1
  obtain ⟨a, b, c, d⟩ := h1
  constructor <;> omega

theorem pointsOfCell_heights (t : Tool) (w h : ℕ) (pts : List CCVector3) (i j : ℕ) :
    ∀ n, (pointsOfCell t w h n pts i j).map (fun p => p.2.u t.Z) =
      (pts.filter fun P => cellIndex t w h P = some (i, j)).map fun P => P.u t.Z := by
  induction pts with
  | nil => intro n; rfl
  | cons P rest ih =>
    intro n
    unfold pointsOfCell at ih ⊢
    rw [List.enumFrom_cons]
    by_cases hc : cellIndex t w h P = some (i, j)
    · rw [List.filter_cons_of_pos (by simpa using hc), List.filter_cons_of_pos (by simpa using hc),
        List.map_cons, List.map_cons, ih]
    · rw [List.filter_cons_of_neg (by simpa using hc), List.filter_cons_of_neg (by simpa using hc),
        ih]

theorem pointsOfCell_heights_grid (t : Tool) (pts : List CCVector3) (i j n : ℕ) :
    (pointsOfCell t t.gridWidth t.gridHeight n pts i j).map (fun p => p.2.u t.Z) =
      heightsOfCell t pts i j :=
  pointsOfCell_heights t _ _ pts i j n

theorem mem_pointsOfCell (t : Tool) (w h : ℕ) (pts : List CCVector3) (i j : ℕ)
    (p : ℕ × CCVector3) (hp : p ∈ pointsOfCell t w h 0 pts i j) :
    pts[p.1]? = some p.2 ∧ cellIndex t w h p.2 = some (i, j) := by
  unfold pointsOfCell at hp
  rw [List.mem_filter] at hp
  obtain ⟨h1, h2⟩ := hp
  obtain ⟨n, P⟩ := p
  obtain ⟨_, hlt, he⟩ := List.mem_enumFrom h1
  refine ⟨?_, by simpa using h2⟩
  simp only [Nat.zero_add, Nat.sub_zero] at hlt he
  simp only
  rw [List.getElem?_eq_getElem hlt, he]

theorem pointsOfCell_length (t : Tool) (w h : ℕ) (pts : List CCVector3) (i j n : ℕ) :
    (pointsOfCell t w h n pts i j).length =
      (pts.filter fun P => cellIndex t w h P = some (i, j)).length := by
  have := congrArg List.length (pointsOfCell_heights t w h pts i j n)
  simpa using this

theorem heightsOfCell_perm (t : Tool) {pts pts1 : List CCVector3} (hp : pts.Perm pts1)
    (i j : ℕ) : (heightsOfCell t pts i j).Perm (heightsOfCell t pts1 i j) :=
  (hp.filter _).map _

/-! ## Lemmas: the build as a whole -/

/-- A scan that the user never cancels runs to its end. -/
theorem scanPoints_succeeds (t : Tool) (cloud : Cloud) (sf : Bool)
    (hp : ∀ k, t.oneStep k = true) :
    ∀ (pts : List CCVector3) (n k : ℕ) (g : RasterGrid),
      (scanPoints t cloud sf pts n k g).1 = true := by
  intro pts
  induction pts with
  | nil => intro n k g; rfl
  | cons P rest ih =>
    intro n k g
    rw [scanPoints_cons]
    cases cellIndex t g.width g.height P with
    | none => exact ih _ _ _
    | some ij =>
      obtain ⟨i, j⟩ := ij
      simp only
      rw [if_pos (hp k)]
      exact ih _ _ _

/-- The build returns `true` when there is a cloud, the box is valid with
positive extents, the user accepts the size of the grid, the cells can be
allocated and the user never cancels. -/
theorem updateGrid_succeeds (t : Tool) (sf : Bool) (g : RasterGrid) (cloud : Cloud)
    (hc : t.m_cloud = some cloud) (hv : t.getCustomBBox.isValid = true)
    (hX : 0 < t.boxDiag.u t.X) (hY : 0 < t.boxDiag.u t.Y)
    (hq : t.proceedAnyway = true) (ha : t.cellsAllocated = true)
    (hp : ∀ k, t.oneStep k = true) : (updateGrid t sf g).1 = true := by
  unfold updateGrid
  rw [hc]
  simp only
  rw [if_neg (by simp [hv]), if_neg (by simp [not_le.mpr hX, not_le.mpr hY]),
    if_neg (by simp [hq])]
  have hi : (g.init t.gridWidth t.gridHeight t.cellsAllocated).1 = true := by
    unfold RasterGrid.init
    simp only
    split_ifs
    · rfl
    · rfl
  cases hi2 : g.init t.gridWidth t.gridHeight t.cellsAllocated with
  | mk b g1 =>
    rw [hi2] at hi
    simp only at hi
    subst hi
    simp only
    have := scanPoints_succeeds t cloud
      (sf && (cloud.isPointCloud && !cloud.scalarFields.isEmpty)) hp cloud.points 0 0
      (if (sf && (cloud.isPointCloud && !cloud.scalarFields.isEmpty)) = true then
        allocateSFs t cloud { g1 with gridStep := t.getGridStep }
      else { g1 with gridStep := t.getGridStep })
    cases hs : scanPoints t cloud
      (sf && (cloud.isPointCloud && !cloud.scalarFields.isEmpty)) cloud.points 0 0
      (if (sf && (cloud.isPointCloud && !cloud.scalarFields.isEmpty)) = true then
        allocateSFs t cloud { g1 with gridStep := t.getGridStep }
      else { g1 with gridStep := t.getGridStep }) with
    | mk b2 g4 =>
      rw [hs] at this
      simp only at this
      subst this
      rfl

/-- After a successful build, the grid is `finishGrid` of a grid whose cells
are the folds of `updateCell` over the points of each cell. -/
theorem updateGrid_cells (t : Tool) (sf : Bool) (g : RasterGrid) (cloud : Cloud)
    (hc : t.m_cloud = some cloud) (h : (updateGrid t sf g).1 = true) :
    ∃ g4 : RasterGrid, g4.width = t.gridWidth ∧ g4.height = t.gridHeight ∧
      (∀ j i, j < t.gridHeight → i < t.gridWidth →
        g4.data j i = scanCell t RasterCell.empty
          (pointsOfCell t t.gridWidth t.gridHeight 0 cloud.points i j)) ∧
      (updateGrid t sf g).2 = finishGrid t g4 := by
  obtain ⟨cloud1, sf1, g3, g4, h1, _, _, hw, hh, hd, hs, hf⟩ := updateGrid_success t sf g h
  rw [hc] at h1
  obtain rfl := Option.some.inj h1
  obtain ⟨hw4, hh4, hd4⟩ := scanPoints_data t cloud sf1 cloud.points 0 0 g3 g4 hs
  refine ⟨g4, hw4.trans hw, hh4.trans hh, fun j i hj hi => ?_, hf⟩
  rw [hd4 j i, hd j i hj hi, hw, hh]

/-- After a successful build, a cell that received points holds their number,
the point index that the scan left, and the height that the scan left, divided
by the number of points in average mode. -/
theorem updateGrid_cell (t : Tool) (sf : Bool) (g : RasterGrid) (cloud : Cloud)
    (hc : t.m_cloud = some cloud) (h : (updateGrid t sf g).1 = true) (i j : ℕ)
    (hl : pointsOfCell t t.gridWidth t.gridHeight 0 cloud.points i j ≠ []) :
    i < t.gridWidth ∧ j < t.gridHeight ∧
    ((updateGrid t sf g).2.data j i).nbPoints =
      (pointsOfCell t t.gridWidth t.gridHeight 0 cloud.points i j).length ∧
    ((updateGrid t sf g).2.data j i).pointIndex =
      (scanCell t RasterCell.empty
        (pointsOfCell t t.gridWidth t.gridHeight 0 cloud.points i j)).pointIndex ∧
    ((updateGrid t sf g).2.data j i).height =
      if t.getTypeOfProjection = .PROJ_AVERAGE_VALUE then
        (scanCell t RasterCell.empty
          (pointsOfCell t t.gridWidth t.gridHeight 0 cloud.points i j)).height /
          ((pointsOfCell t t.gridWidth t.gridHeight 0 cloud.points i j).length : ℚ)
      else
        (scanCell t RasterCell.empty
          (pointsOfCell t t.gridWidth t.gridHeight 0 cloud.points i j)).height := by
  obtain ⟨g4, hw, hh, hd, hf⟩ := updateGrid_cells t sf g cloud hc h
  have hij : i < t.gridWidth ∧ j < t.gridHeight := by
    obtain ⟨p, hp⟩ := List.exists_mem_of_ne_nil _ hl
    exact cellIndex_lt t _ _ p.2 i j (mem_pointsOfCell t _ _ _ i j p hp).2
  have hcell := hd j i hij.2 hij.1
  have hlen : (pointsOfCell t t.gridWidth t.gridHeight 0 cloud.points i j).length ≠ 0 := by
    intro h0; exact hl (List.length_eq_zero.mp h0)
  have hnb : (g4.data j i).nbPoints =
      (pointsOfCell t t.gridWidth t.gridHeight 0 cloud.points i j).length := by
    rw [hcell, scanCell_nbPoints]; simp [RasterCell.empty]
  have hnb1 : ((averageHeights t (averageSFs t g4)).data j i).nbPoints =
      (pointsOfCell t t.gridWidth t.gridHeight 0 cloud.points i j).length := by
    rw [averageHeights_nbPoints, averageSFs_data, hnb]
  have hk := (finishGrid_keeps t g4).2.2 j i (by rw [hnb1]; exact hlen)
  rw [hf, hk]
  refine ⟨hij.1, hij.2, hnb1, ?_, ?_⟩
  · rw [averageHeights_pointIndex, averageSFs_data, hcell]
  · split_ifs with hpt
    · rw [averageHeights_of_average t _ hpt j i (by rw [averageSFs_height, hh]; exact hij.2)
        (by rw [averageSFs_width, hw]; exact hij.1)
        (by rw [averageSFs_data, hnb]; exact hlen), averageSFs_data, hnb, hcell]
    · rw [averageHeights_of_not_average t _ hpt, averageSFs_data, hcell]

/-! ## Lemmas: the index of a point of the region -/

theorem CCVector3.u_sub (a b : CCVector3) (k : Fin 3) :
    (a.sub b).u k = roundDouble (a.u k - b.u k) := by
  unfold CCVector3.u CCVector3.sub
  split_ifs <;> rfl

theorem Tool.boxDiag_u (t : Tool) (k : Fin 3) :
    t.boxDiag.u k =
      roundDouble (t.getCustomBBox.maxCorner.u k - t.getCustomBBox.minCorner.u k) := by
  unfold CCVector3.u Tool.boxDiag
  split_ifs <;> rfl

theorem Tool.X_eq (t : Tool) : t.X = t.getProjectionDimension + 1 := by
  unfold Tool.X Tool.Z
  generalize t.getProjectionDimension = a
  fin_cases a <;> rfl

theorem Tool.Y_eq (t : Tool) : t.Y = t.getProjectionDimension + 2 := by
  unfold Tool.Y Tool.X Tool.Z
  generalize t.getProjectionDimension = a
  fin_cases a <;> rfl

theorem updateGrid_eq (t : Tool) (sf : Bool) (g r : RasterGrid)
    (h : updateGrid t sf g = (true, r)) :
    (updateGrid t sf g).1 = true ∧ (updateGrid t sf g).2 = r := by
  rw [h]; exact ⟨rfl, rfl⟩

theorem pointsOfCell_ne_nil (t : Tool) (w h : ℕ) (pts : List CCVector3) (i j : ℕ)
    (P : CCVector3) (hP : P ∈ pts) (hc : cellIndex t w h P = some (i, j)) :
    pointsOfCell t w h 0 pts i j ≠ [] := by
  intro h0
  have h1 := pointsOfCell_length t w h pts i j 0
  rw [h0, List.length_nil] at h1
  have h2 : P ∈ pts.filter fun P => cellIndex t w h P = some (i, j) :=
    List.mem_filter.mpr ⟨hP, by simpa using hc⟩
  rw [List.length_eq_zero.mp h1.symm] at h2
  exact List.not_mem_nil _ h2

theorem pointsOfCell_ne_nil_iff (t : Tool) (pts : List CCVector3) (i j : ℕ) :
    pointsOfCell t t.gridWidth t.gridHeight 0 pts i j ≠ [] ↔ heightsOfCell t pts i j ≠ [] := by
  rw [← pointsOfCell_heights_grid t pts i j 0]
  simp

/-! ## The bucketing of the points -/

/-- C1 (the code departs from the claim). The point `(-1/2, 1/2, 7)` of
`strayTool` has the relative coordinate `-1/2` on the horizontal axis, so the
floor of `relative / step` is `-1`, outside the grid; but `static_cast<int>`
truncates toward zero: the scan gives the point the cell `(0, 0)` and the build
counts it there. -/
theorem negative_offset_point_is_counted :
    ⌊((-1 / 2 : ℚ) - 0) / 1⌋ = -1 ∧
    cellIndex strayTool strayTool.gridWidth strayTool.gridHeight
      { x := -1 / 2, y := 1 / 2, z := 7 } = some (0, 0) ∧
    (updateGrid strayTool false unbuiltGrid).1 = true ∧
    ((updateGrid strayTool false unbuiltGrid).2.data 0 0).nbPoints = 1 := by
  decide!

/-- C2 (the code departs from the claim). The box of `edgeTool` goes from 0 to
29 on the horizontal axis and its step is the double 1.16. The quotient
`29 / 1.16` is above 25 but the double nearest to it is 25, so the grid has 25
columns; the point `(29, 1/2, 5)`, on the maximum edge of the region, gets the
index 25. The case `if we fall exactly on the max corner of the grid box`
compares 29 with the double `1.16 * 25`, which is below 29: the index stays 25,
the point is skipped, and the successful build counts one of the two points of
the cloud. With the step 1 of `cornerTool` the same case works: the point
`(3, 2, 5)`, on the maximum corner of a box of 3 by 2, gets the last cell
`(2, 1)`. -/
theorem max_edge_point_is_skipped :
    cellIndex cornerTool cornerTool.gridWidth cornerTool.gridHeight
      { x := 3, y := 2, z := 5 } = some (2, 1) ∧
    (edgeTool.getGridStep = roundDouble (116 / 100) ∧ 0 < edgeTool.getGridStep ∧
      edgeTool.boxDiag.u edgeTool.X = 29 ∧ edgeTool.boxDiag.u edgeTool.Y = 1) ∧
    (edgeTool.getCustomBBox.minCorner.u edgeTool.X ≤
        CCVector3.u { x := 29, y := 1 / 2, z := 5 } edgeTool.X ∧
      CCVector3.u { x := 29, y := 1 / 2, z := 5 } edgeTool.X =
        edgeTool.getCustomBBox.maxCorner.u edgeTool.X ∧
      edgeTool.getCustomBBox.minCorner.u edgeTool.Y ≤
        CCVector3.u { x := 29, y := 1 / 2, z := 5 } edgeTool.Y ∧
      CCVector3.u { x := 29, y := 1 / 2, z := 5 } edgeTool.Y ≤
        edgeTool.getCustomBBox.maxCorner.u edgeTool.Y) ∧
    ((25 : ℚ) < 29 / edgeTool.getGridStep ∧ roundDouble (29 / edgeTool.getGridStep) = 25 ∧
      edgeTool.gridWidth = 25 ∧ edgeTool.gridHeight = 1) ∧
    (roundDouble (edgeTool.getGridStep * 25) < 29 ∧
      axisIndex edgeTool.getGridStep 29 25 = 25) ∧
    cellIndex edgeTool edgeTool.gridWidth edgeTool.gridHeight
      { x := 29, y := 1 / 2, z := 5 } = none ∧
    (updateGrid edgeTool false unbuiltGrid).1 = true ∧
    ((List.range 25).map fun i =>
      ((updateGrid edgeTool false unbuiltGrid).2.data 0 i).nbPoints).sum = 1 := by
  refine ⟨by decide!, by decide!, by decide!, by decide!, by decide!, by decide!, by decide!,
    by decide!⟩

/-- C3 (counterexample). With the box of `edgeTool` (extent 29) and the step
1.16 as a double, the ceiling of the quotient is 26 and `gridWidth` is 25; with
the box of `wrapTool` (extent `2 ^ 32`) and the step 1, the ceiling of the
quotient is `2 ^ 32` and `gridWidth` is 0. -/
theorem grid_width_is_not_the_ceiling :
    (0 < edgeTool.getGridStep ∧
      0 < edgeTool.getCustomBBox.maxCorner.u edgeTool.X -
        edgeTool.getCustomBBox.minCorner.u edgeTool.X ∧
      0 < edgeTool.getCustomBBox.maxCorner.u edgeTool.Y -
        edgeTool.getCustomBBox.minCorner.u edgeTool.Y ∧
      ⌈(edgeTool.getCustomBBox.maxCorner.u edgeTool.X -
        edgeTool.getCustomBBox.minCorner.u edgeTool.X) / edgeTool.getGridStep⌉ = 26 ∧
      edgeTool.gridWidth = 25) ∧
    (0 < wrapTool.getGridStep ∧
      0 < wrapTool.getCustomBBox.maxCorner.u wrapTool.X -
        wrapTool.getCustomBBox.minCorner.u wrapTool.X ∧
      0 < wrapTool.getCustomBBox.maxCorner.u wrapTool.Y -
        wrapTool.getCustomBBox.minCorner.u wrapTool.Y ∧
      ⌈(wrapTool.getCustomBBox.maxCorner.u wrapTool.X -
        wrapTool.getCustomBBox.minCorner.u wrapTool.X) / wrapTool.getGridStep⌉ = 4294967296 ∧
      wrapTool.gridWidth = 0) := by
  refine ⟨by decide!, by decide!⟩

/-- C3 (amended). With a positive step and positive extents on the two axes of
the plane, for the projection axis `a`, the horizontal axis is `(a + 1) mod 3`
and the vertical axis is `(a + 2) mod 3`; the extent on an axis is the double
`max corner - min corner`. When the ceilings of the two quotients of an extent
by the step are below `2 ^ 32`, `gridWidth` is the ceiling of the double
quotient of the horizontal extent by the step, and `gridHeight` the same for
the vertical extent: each is the ceiling of the exact quotient or one less,
and it is that ceiling when the double quotient is the exact one. A successful
build leaves a grid of that width and height. -/
theorem grid_size_is_ceil_of_double_quotient (t : Tool) (hstep : 0 < t.getGridStep)
    (hX : 0 < t.getCustomBBox.maxCorner.u (t.getProjectionDimension + 1) -
      t.getCustomBBox.minCorner.u (t.getProjectionDimension + 1))
    (hY : 0 < t.getCustomBBox.maxCorner.u (t.getProjectionDimension + 2) -
      t.getCustomBBox.minCorner.u (t.getProjectionDimension + 2))
    (hW : ⌈t.boxDiag.u t.X / t.getGridStep⌉ < 2 ^ 32)
    (hH : ⌈t.boxDiag.u t.Y / t.getGridStep⌉ < 2 ^ 32) :
    ((t.X : ℕ) = ((t.getProjectionDimension : ℕ) + 1) % 3 ∧
      (t.Y : ℕ) = ((t.getProjectionDimension : ℕ) + 2) % 3) ∧
    (t.boxDiag.u t.X =
        roundDouble (t.getCustomBBox.maxCorner.u t.X - t.getCustomBBox.minCorner.u t.X) ∧
      t.boxDiag.u t.Y =
        roundDouble (t.getCustomBBox.maxCorner.u t.Y - t.getCustomBBox.minCorner.u t.Y)) ∧
    ((t.gridWidth : ℤ) = ⌈roundDouble (t.boxDiag.u t.X / t.getGridStep)⌉ ∧
      ⌈t.boxDiag.u t.X / t.getGridStep⌉ - 1 ≤ (t.gridWidth : ℤ) ∧
      (t.gridWidth : ℤ) ≤ ⌈t.boxDiag.u t.X / t.getGridStep⌉ ∧
      (roundDouble (t.boxDiag.u t.X / t.getGridStep) = t.boxDiag.u t.X / t.getGridStep →
        (t.gridWidth : ℤ) = ⌈t.boxDiag.u t.X / t.getGridStep⌉)) ∧
    ((t.gridHeight : ℤ) = ⌈roundDouble (t.boxDiag.u t.Y / t.getGridStep)⌉ ∧
      ⌈t.boxDiag.u t.Y / t.getGridStep⌉ - 1 ≤ (t.gridHeight : ℤ) ∧
      (t.gridHeight : ℤ) ≤ ⌈t.boxDiag.u t.Y / t.getGridStep⌉ ∧
      (roundDouble (t.boxDiag.u t.Y / t.getGridStep) = t.boxDiag.u t.Y / t.getGridStep →
        (t.gridHeight : ℤ) = ⌈t.boxDiag.u t.Y / t.getGridStep⌉)) ∧
    ∀ (sf : Bool) (g r : RasterGrid), updateGrid t sf g = (true, r) →
      r.width = t.gridWidth ∧ r.height = t.gridHeight := by
  rw [← Tool.X_eq] at hX
  rw [← Tool.Y_eq] at hY
  have hdX : 0 < t.boxDiag.u t.X := by
    rw [Tool.boxDiag_u]; exact roundDouble_pos _ hX
  have hdY : 0 < t.boxDiag.u t.Y := by
    rw [Tool.boxDiag_u]; exact roundDouble_pos _ hY
  have hw : (t.gridWidth : ℤ) = ⌈roundDouble (t.boxDiag.u t.X / t.getGridStep)⌉ % 2 ^ 32 :=
    ceilToUnsigned_cast _
  have hh : (t.gridHeight : ℤ) = ⌈roundDouble (t.boxDiag.u t.Y / t.getGridStep)⌉ % 2 ^ 32 :=
    ceilToUnsigned_cast _
  obtain ⟨a1, a2, a3⟩ := ceil_roundDouble_bounds _ (div_pos hdX hstep) hW
  obtain ⟨b1, b2, b3⟩ := ceil_roundDouble_bounds _ (div_pos hdY hstep) hH
  rw [a3] at hw
  rw [b3] at hh
  refine ⟨⟨?_, ?_⟩, ⟨Tool.boxDiag_u t _, Tool.boxDiag_u t _⟩, ?_, ?_, ?_⟩
  · rw [Tool.X_eq, Fin.val_add]; rfl
  · rw [Tool.Y_eq, Fin.val_add]; rfl
  · rw [hw]
    exact ⟨rfl, a1, a2, fun e => by rw [e]⟩
  · rw [hh]
    exact ⟨rfl, b1, b2, fun e => by rw [e]⟩
  · intro sf g r hr
    obtain ⟨hok, rfl⟩ := updateGrid_eq t sf g r hr
    obtain ⟨_, _, g3, g4, _, _, _, hw, hh, _, hs, hf⟩ := updateGrid_success t sf g hok
    obtain ⟨hw4, hh4, _⟩ := scanPoints_data t _ _ _ 0 0 g3 g4 hs
    rw [hf, finishGrid_width, finishGrid_height]
    exact ⟨hw4.trans hw, hh4.trans hh⟩

/-- Witness of C3 (amended): `fractionTool` projects along dimension 1, so that
its plane axes are 2 and 0; the extents 7/4 and 5/2 with the step 1/2 give the
quotients 7/2 and 5, which are doubles, hence 4 by 5 cells, which is the size
of the grid that its build leaves. -/
theorem grid_size_is_ceil_of_double_quotient_witness :
    ((fractionTool.X : ℕ) = 2 ∧ (fractionTool.Y : ℕ) = 0 ∧
      fractionTool.boxDiag.u fractionTool.X / fractionTool.getGridStep = 7 / 2 ∧
      fractionTool.boxDiag.u fractionTool.Y / fractionTool.getGridStep = 5 ∧
      roundDouble (7 / 2) = 7 / 2 ∧ roundDouble 5 = 5 ∧
      fractionTool.gridWidth = 4 ∧ fractionTool.gridHeight = 5 ∧
      (updateGrid fractionTool false unbuiltGrid).1 = true ∧
      (updateGrid fractionTool false unbuiltGrid).2.width = 4 ∧
      (updateGrid fractionTool false unbuiltGrid).2.height = 5) ∧
    (((fractionTool.X : ℕ) = ((fractionTool.getProjectionDimension : ℕ) + 1) % 3 ∧
      (fractionTool.Y : ℕ) = ((fractionTool.getProjectionDimension : ℕ) + 2) % 3) ∧
    (fractionTool.boxDiag.u fractionTool.X =
        roundDouble (fractionTool.getCustomBBox.maxCorner.u fractionTool.X -
          fractionTool.getCustomBBox.minCorner.u fractionTool.X) ∧
      fractionTool.boxDiag.u fractionTool.Y =
        roundDouble (fractionTool.getCustomBBox.maxCorner.u fractionTool.Y -
          fractionTool.getCustomBBox.minCorner.u fractionTool.Y)) ∧
    ((fractionTool.gridWidth : ℤ) =
        ⌈roundDouble (fractionTool.boxDiag.u fractionTool.X / fractionTool.getGridStep)⌉ ∧
      ⌈fractionTool.boxDiag.u fractionTool.X / fractionTool.getGridStep⌉ - 1 ≤
        (fractionTool.gridWidth : ℤ) ∧
      (fractionTool.gridWidth : ℤ) ≤
        ⌈fractionTool.boxDiag.u fractionTool.X / fractionTool.getGridStep⌉ ∧
      (roundDouble (fractionTool.boxDiag.u fractionTool.X / fractionTool.getGridStep) =
          fractionTool.boxDiag.u fractionTool.X / fractionTool.getGridStep →
        (fractionTool.gridWidth : ℤ) =
          ⌈fractionTool.boxDiag.u fractionTool.X / fractionTool.getGridStep⌉)) ∧
    ((fractionTool.gridHeight : ℤ) =
        ⌈roundDouble (fractionTool.boxDiag.u fractionTool.Y / fractionTool.getGridStep)⌉ ∧
      ⌈fractionTool.boxDiag.u fractionTool.Y / fractionTool.getGridStep⌉ - 1 ≤
        (fractionTool.gridHeight : ℤ) ∧
      (fractionTool.gridHeight : ℤ) ≤
        ⌈fractionTool.boxDiag.u fractionTool.Y / fractionTool.getGridStep⌉ ∧
      (roundDouble (fractionTool.boxDiag.u fractionTool.Y / fractionTool.getGridStep) =
          fractionTool.boxDiag.u fractionTool.Y / fractionTool.getGridStep →
        (fractionTool.gridHeight : ℤ) =
          ⌈fractionTool.boxDiag.u fractionTool.Y / fractionTool.getGridStep⌉)) ∧
    ∀ (sf : Bool) (g r : RasterGrid), updateGrid fractionTool sf g = (true, r) →
      r.width = fractionTool.gridWidth ∧ r.height = fractionTool.gridHeight) :=
  ⟨by decide!,
    grid_size_is_ceil_of_double_quotient fractionTool (by decide!) (by decide!) (by decide!)
      (by decide!) (by decide!)⟩

/-! ## The height and the representative point of a cell -/

theorem withPoints_cloud (t : Tool) (cloud : Cloud) (pts : List CCVector3)
    (hc : t.m_cloud = some cloud) :
    (t.withPoints pts).m_cloud = some { cloud with points := pts } := by
  unfold Tool.withPoints
  rw [hc]
  rfl

theorem mem_heightsOfCell (t : Tool) (pts : List CCVector3) (i j : ℕ) (h : ℚ) :
    h ∈ heightsOfCell t pts i j ↔
      ∃ p ∈ pointsOfCell t t.gridWidth t.gridHeight 0 pts i j, p.2.u t.Z = h := by
  rw [← pointsOfCell_heights_grid t pts i j 0, List.mem_map]

/-- In minimum mode, after a successful build, the height of a cell that
received points is the least of their heights, and its point index is the
number of a point of the cell that has this height. -/
theorem updateGrid_cell_min (t : Tool) (sf : Bool) (g : RasterGrid) (cloud : Cloud)
    (hc : t.m_cloud = some cloud) (hok : (updateGrid t sf g).1 = true) (i j : ℕ)
    (hne : heightsOfCell t cloud.points i j ≠ [])
    (hpt : t.getTypeOfProjection = .PROJ_MINIMUM_VALUE) :
    (∀ h ∈ heightsOfCell t cloud.points i j, ((updateGrid t sf g).2.data j i).height ≤ h) ∧
    ∃ p ∈ pointsOfCell t t.gridWidth t.gridHeight 0 cloud.points i j,
      p.2.u t.Z = ((updateGrid t sf g).2.data j i).height ∧
      ((updateGrid t sf g).2.data j i).pointIndex = p.1 := by
  have hl := (pointsOfCell_ne_nil_iff t cloud.points i j).mpr hne
  obtain ⟨_, _, _, hidx, hh⟩ := updateGrid_cell t sf g cloud hc hok i j hl
  rw [if_neg (by rw [hpt]; decide)] at hh
  obtain ⟨h1, p, hp, h2, h3⟩ := scanCell_empty_min t hpt RasterCell.empty rfl _ hl
  rw [hh, hidx]
  refine ⟨fun h hm => ?_, p, hp, h2.symm, h3⟩
  obtain ⟨q, hq, rfl⟩ := (mem_heightsOfCell t cloud.points i j h).mp hm
  exact h1 q hq

/-- In maximum mode, after a successful build, the height of a cell that
received points is the greatest of their heights, and its point index is the
number of a point of the cell that has this height. -/
theorem updateGrid_cell_max (t : Tool) (sf : Bool) (g : RasterGrid) (cloud : Cloud)
    (hc : t.m_cloud = some cloud) (hok : (updateGrid t sf g).1 = true) (i j : ℕ)
    (hne : heightsOfCell t cloud.points i j ≠ [])
    (hpt : t.getTypeOfProjection = .PROJ_MAXIMUM_VALUE) :
    (∀ h ∈ heightsOfCell t cloud.points i j, h ≤ ((updateGrid t sf g).2.data j i).height) ∧
    ∃ p ∈ pointsOfCell t t.gridWidth t.gridHeight 0 cloud.points i j,
      p.2.u t.Z = ((updateGrid t sf g).2.data j i).height ∧
      ((updateGrid t sf g).2.data j i).pointIndex = p.1 := by
  have hl := (pointsOfCell_ne_nil_iff t cloud.points i j).mpr hne
  obtain ⟨_, _, _, hidx, hh⟩ := updateGrid_cell t sf g cloud hc hok i j hl
  rw [if_neg (by rw [hpt]; decide)] at hh
  obtain ⟨h1, p, hp, h2, h3⟩ := scanCell_empty_max t hpt RasterCell.empty rfl _ hl
  rw [hh, hidx]
  refine ⟨fun h hm => ?_, p, hp, h2.symm, h3⟩
  obtain ⟨q, hq, rfl⟩ := (mem_heightsOfCell t cloud.points i j h).mp hm
  exact h1 q hq

/-- In average mode, after a successful build, a cell that received points
holds their number and the quotient of the sum of their heights by it. -/
theorem updateGrid_cell_average (t : Tool) (sf : Bool) (g : RasterGrid) (cloud : Cloud)
    (hc : t.m_cloud = some cloud) (hok : (updateGrid t sf g).1 = true) (i j : ℕ)
    (hne : heightsOfCell t cloud.points i j ≠ [])
    (hpt : t.getTypeOfProjection = .PROJ_AVERAGE_VALUE) :
    ((updateGrid t sf g).2.data j i).nbPoints = (heightsOfCell t cloud.points i j).length ∧
    ((updateGrid t sf g).2.data j i).height =
      (heightsOfCell t cloud.points i j).sum / ((heightsOfCell t cloud.points i j).length : ℚ) := by
  have hl := (pointsOfCell_ne_nil_iff t cloud.points i j).mpr hne
  obtain ⟨_, _, hnb, _, hh⟩ := updateGrid_cell t sf g cloud hc hok i j hl
  rw [if_pos hpt, scanCell_empty_average t hpt RasterCell.empty rfl _ hl,
    pointsOfCell_heights_grid] at hh
  have hlen : (pointsOfCell t t.gridWidth t.gridHeight 0 cloud.points i j).length =
      (heightsOfCell t cloud.points i j).length := by
    rw [← pointsOfCell_heights_grid t cloud.points i j 0, List.length_map]
  rw [hlen] at hnb hh
  exact ⟨hnb, hh⟩

/-- C4. After a successful build, for a cell `(i, j)` that received at least
one point: in minimum mode its height is the minimum of the heights of the
points bucketed into it, in maximum mode the maximum; and in both modes a build
on the same points in another order gives the cell the same height. -/
theorem extreme_height_of_cell (t : Tool) (sf : Bool) (g r : RasterGrid) (cloud : Cloud)
    (hc : t.m_cloud = some cloud) (hr : updateGrid t sf g = (true, r)) (i j : ℕ)
    (hne : heightsOfCell t cloud.points i j ≠ []) :
    (t.getTypeOfProjection = .PROJ_MINIMUM_VALUE →
      (r.data j i).height ∈ heightsOfCell t cloud.points i j ∧
      ∀ h ∈ heightsOfCell t cloud.points i j, (r.data j i).height ≤ h) ∧
    (t.getTypeOfProjection = .PROJ_MAXIMUM_VALUE →
      (r.data j i).height ∈ heightsOfCell t cloud.points i j ∧
      ∀ h ∈ heightsOfCell t cloud.points i j, h ≤ (r.data j i).height) ∧
    (t.getTypeOfProjection = .PROJ_MINIMUM_VALUE ∨
        t.getTypeOfProjection = .PROJ_MAXIMUM_VALUE →
      ∀ (pts1 : List CCVector3) (g1 r1 : RasterGrid), pts1.Perm cloud.points →
        updateGrid (t.withPoints pts1) sf g1 = (true, r1) →
        (r1.data j i).height = (r.data j i).height) := by
  obtain ⟨hok, rfl⟩ := updateGrid_eq t sf g r hr
  have hmin : t.getTypeOfProjection = .PROJ_MINIMUM_VALUE →
      ((updateGrid t sf g).2.data j i).height ∈ heightsOfCell t cloud.points i j ∧
      ∀ h ∈ heightsOfCell t cloud.points i j, ((updateGrid t sf g).2.data j i).height ≤ h := by
    intro hpt
    obtain ⟨h1, p, hp, h2, _⟩ := updateGrid_cell_min t sf g cloud hc hok i j hne hpt
    exact ⟨(mem_heightsOfCell t _ i j _).mpr ⟨p, hp, h2⟩, h1⟩
  have hmax : t.getTypeOfProjection = .PROJ_MAXIMUM_VALUE →
      ((updateGrid t sf g).2.data j i).height ∈ heightsOfCell t cloud.points i j ∧
      ∀ h ∈ heightsOfCell t cloud.points i j, h ≤ ((updateGrid t sf g).2.data j i).height := by
    intro hpt
    obtain ⟨h1, p, hp, h2, _⟩ := updateGrid_cell_max t sf g cloud hc hok i j hne hpt
    exact ⟨(mem_heightsOfCell t _ i j _).mpr ⟨p, hp, h2⟩, h1⟩
  refine ⟨hmin, hmax, ?_⟩
  intro hpt pts1 g1 r1 hperm hr1
  obtain ⟨hok1, rfl⟩ := updateGrid_eq _ sf g1 r1 hr1
  have hc1 := withPoints_cloud t cloud pts1 hc
  have hp : (heightsOfCell t pts1 i j).Perm (heightsOfCell t cloud.points i j) :=
    heightsOfCell_perm t hperm i j
  have hne1 : heightsOfCell (t.withPoints pts1) pts1 i j ≠ [] := by
    intro h0
    apply hne
    have : heightsOfCell t pts1 i j = [] := h0
    rw [this] at hp
    exact List.Perm.eq_nil hp.symm
  rcases hpt with hpt | hpt
  · obtain ⟨a1, p, hp1, a2, _⟩ :=
      updateGrid_cell_min (t.withPoints pts1) sf g1 _ hc1 hok1 i j hne1 hpt
    have hm1 : ((updateGrid (t.withPoints pts1) sf g1).2.data j i).height ∈
        heightsOfCell t pts1 i j :=
      (mem_heightsOfCell (t.withPoints pts1) pts1 i j _).mpr ⟨p, hp1, a2⟩
    obtain ⟨b1, b2⟩ := hmin hpt
    exact le_antisymm (a1 _ (hp.mem_iff.mpr b1)) (b2 _ (hp.mem_iff.mp hm1))
  · obtain ⟨a1, p, hp1, a2, _⟩ :=
      updateGrid_cell_max (t.withPoints pts1) sf g1 _ hc1 hok1 i j hne1 hpt
    have hm1 : ((updateGrid (t.withPoints pts1) sf g1).2.data j i).height ∈
        heightsOfCell t pts1 i j :=
      (mem_heightsOfCell (t.withPoints pts1) pts1 i j _).mpr ⟨p, hp1, a2⟩
    obtain ⟨b1, b2⟩ := hmax hpt
    exact le_antisymm (b2 _ (hp.mem_iff.mp hm1)) (a1 _ (hp.mem_iff.mpr b1))

/-- Witness of C4: cell `(0, 0)` of `minTool` and of `maxTool` receives the
heights 4, 1 and 3; the minimum is 1 and the maximum is 4. -/
theorem extreme_height_of_cell_witness :
    (heightsOfCell minTool fourPoints 0 0 = [4, 1, 3] ∧
      ((updateGrid minTool false unbuiltGrid).2.data 0 0).height = 1 ∧
      ((updateGrid maxTool false unbuiltGrid).2.data 0 0).height = 4) ∧
    (((updateGrid minTool false unbuiltGrid).2.data 0 0).height ∈
        heightsOfCell minTool fourPoints 0 0 ∧
      ∀ h ∈ heightsOfCell minTool fourPoints 0 0,
        ((updateGrid minTool false unbuiltGrid).2.data 0 0).height ≤ h) ∧
    (((updateGrid maxTool false unbuiltGrid).2.data 0 0).height ∈
        heightsOfCell maxTool fourPoints 0 0 ∧
      ∀ h ∈ heightsOfCell maxTool fourPoints 0 0,
        h ≤ ((updateGrid maxTool false unbuiltGrid).2.data 0 0).height) ∧
    (∀ (pts1 : List CCVector3) (g1 r1 : RasterGrid), pts1.Perm fourPoints →
      updateGrid (minTool.withPoints pts1) false g1 = (true, r1) →
      (r1.data 0 0).height = ((updateGrid minTool false unbuiltGrid).2.data 0 0).height) :=
  ⟨by decide!,
    (extreme_height_of_cell minTool false unbuiltGrid _ (sampleCloud fourPoints) rfl
      (Prod.ext (by decide!) rfl) 0 0 (by decide!)).1 rfl,
    (extreme_height_of_cell maxTool false unbuiltGrid _ (sampleCloud fourPoints) rfl
      (Prod.ext (by decide!) rfl) 0 0 (by decide!)).2.1 rfl,
    (extreme_height_of_cell minTool false unbuiltGrid _ (sampleCloud fourPoints) rfl
      (Prod.ext (by decide!) rfl) 0 0 (by decide!)).2.2 (Or.inl rfl)⟩

/-- C5. After a successful build in minimum or maximum mode, for a cell
`(i, j)` that received at least one point, `pointIndex` is the index in the
cloud of a point that was bucketed into this cell and whose height is the
height of the cell. -/
theorem representative_point_of_cell (t : Tool) (sf : Bool) (g r : RasterGrid) (cloud : Cloud)
    (hc : t.m_cloud = some cloud) (hr : updateGrid t sf g = (true, r)) (i j : ℕ)
    (hne : heightsOfCell t cloud.points i j ≠ [])
    (hpt : t.getTypeOfProjection = .PROJ_MINIMUM_VALUE ∨
      t.getTypeOfProjection = .PROJ_MAXIMUM_VALUE) :
    ∃ P, cloud.points[(r.data j i).pointIndex]? = some P ∧
      cellIndex t t.gridWidth t.gridHeight P = some (i, j) ∧
      P.u t.Z = (r.data j i).height := by
  obtain ⟨hok, rfl⟩ := updateGrid_eq t sf g r hr
  rcases hpt with hpt | hpt
  · obtain ⟨_, p, hp, h1, h2⟩ := updateGrid_cell_min t sf g cloud hc hok i j hne hpt
    obtain ⟨h3, h4⟩ := mem_pointsOfCell t _ _ _ i j p hp
    exact ⟨p.2, by rw [h2]; exact h3, h4, h1⟩
  · obtain ⟨_, p, hp, h1, h2⟩ := updateGrid_cell_max t sf g cloud hc hok i j hne hpt
    obtain ⟨h3, h4⟩ := mem_pointsOfCell t _ _ _ i j p hp
    exact ⟨p.2, by rw [h2]; exact h3, h4, h1⟩

/-- Witness of C5: in cell `(0, 0)` of `minTool` the representative is point
1, of height 1. -/
theorem representative_point_of_cell_witness :
    (((updateGrid minTool false unbuiltGrid).2.data 0 0).pointIndex = 1 ∧
      ((updateGrid minTool false unbuiltGrid).2.data 0 0).height = 1) ∧
    ∃ P, fourPoints[((updateGrid minTool false unbuiltGrid).2.data 0 0).pointIndex]? = some P ∧
      cellIndex minTool minTool.gridWidth minTool.gridHeight P = some (0, 0) ∧
      P.u minTool.Z = ((updateGrid minTool false unbuiltGrid).2.data 0 0).height :=
  ⟨by decide!,
    representative_point_of_cell minTool false unbuiltGrid _ (sampleCloud fourPoints) rfl
      (Prod.ext (by decide!) rfl) 0 0 (by decide!) (Or.inl rfl)⟩

/-- C6. After a successful build in average mode, a cell `(i, j)` into which
the points of heights `h1 .. hn` (`n ≥ 1`) were bucketed has `nbPoints = n` and
the height `(h1 + ... + hn) / n`; a build on the same points in another order
gives the cell the same count and the same height. -/
theorem average_height_of_cell (t : Tool) (sf : Bool) (g r : RasterGrid) (cloud : Cloud)
    (hc : t.m_cloud = some cloud) (hr : updateGrid t sf g = (true, r)) (i j : ℕ)
    (hne : heightsOfCell t cloud.points i j ≠ [])
    (hpt : t.getTypeOfProjection = .PROJ_AVERAGE_VALUE) :
    (r.data j i).nbPoints = (heightsOfCell t cloud.points i j).length ∧
    (r.data j i).height =
      (heightsOfCell t cloud.points i j).sum / ((heightsOfCell t cloud.points i j).length : ℚ) ∧
    ∀ (pts1 : List CCVector3) (g1 r1 : RasterGrid), pts1.Perm cloud.points →
      updateGrid (t.withPoints pts1) sf g1 = (true, r1) →
      (r1.data j i).nbPoints = (r.data j i).nbPoints ∧
      (r1.data j i).height = (r.data j i).height := by
  obtain ⟨hok, rfl⟩ := updateGrid_eq t sf g r hr
  obtain ⟨h1, h2⟩ := updateGrid_cell_average t sf g cloud hc hok i j hne hpt
  refine ⟨h1, h2, ?_⟩
  intro pts1 g1 r1 hperm hr1
  obtain ⟨hok1, rfl⟩ := updateGrid_eq _ sf g1 r1 hr1
  have hc1 := withPoints_cloud t cloud pts1 hc
  have hp : (heightsOfCell t pts1 i j).Perm (heightsOfCell t cloud.points i j) :=
    heightsOfCell_perm t hperm i j
  have hne1 : heightsOfCell (t.withPoints pts1) pts1 i j ≠ [] := by
    intro h0
    apply hne
    have : heightsOfCell t pts1 i j = [] := h0
    rw [this] at hp
    exact List.Perm.eq_nil hp.symm
  obtain ⟨a1, a2⟩ := updateGrid_cell_average (t.withPoints pts1) sf g1 _ hc1 hok1 i j hne1 hpt
  have e : heightsOfCell (t.withPoints pts1) pts1 i j = heightsOfCell t pts1 i j := rfl
  simp only [e] at a1 a2
  rw [a1, a2, h1, h2, hp.length_eq, hp.sum_eq]
  exact ⟨rfl, rfl⟩

/-- Witness of C6: the heights 1, 5 and 3 in cell `(0, 0)` of `averageTool`
give `nbPoints = 3` and the height 3. -/
theorem average_height_of_cell_witness :
    (heightsOfCell averageTool threePoints 0 0 = [1, 5, 3] ∧
      ((updateGrid averageTool false unbuiltGrid).2.data 0 0).nbPoints = 3 ∧
      ((updateGrid averageTool false unbuiltGrid).2.data 0 0).height = 3) ∧
    ((updateGrid averageTool false unbuiltGrid).2.data 0 0).nbPoints =
      (heightsOfCell averageTool threePoints 0 0).length ∧
    ((updateGrid averageTool false unbuiltGrid).2.data 0 0).height =
      (heightsOfCell averageTool threePoints 0 0).sum /
        ((heightsOfCell averageTool threePoints 0 0).length : ℚ) ∧
    ∀ (pts1 : List CCVector3) (g1 r1 : RasterGrid), pts1.Perm threePoints →
      updateGrid (averageTool.withPoints pts1) false g1 = (true, r1) →
      (r1.data 0 0).nbPoints = ((updateGrid averageTool false unbuiltGrid).2.data 0 0).nbPoints ∧
      (r1.data 0 0).height = ((updateGrid averageTool false unbuiltGrid).2.data 0 0).height :=
  ⟨by decide!,
    average_height_of_cell averageTool false unbuiltGrid _ (sampleCloud threePoints) rfl
      (Prod.ext (by decide!) rfl) 0 0 (by decide!) rfl⟩

/-! ## The statistics of the grid -/

/-- After a successful build with a non-empty cell, `meanHeight` is the sum of
the heights of the non-empty cells: the loop adds the heights and nothing
divides the sum. -/
theorem updateGrid_meanHeight (t : Tool) (sf : Bool) (g r : RasterGrid)
    (hr : updateGrid t sf g = (true, r)) (hne : nonEmptyHeights r ≠ []) :
    r.meanHeight = (nonEmptyHeights r).sum := by
  obtain ⟨hok, rfl⟩ := updateGrid_eq t sf g r hr
  obtain ⟨_, _, _, g4, _, _, _, _, _, _, _, hf⟩ := updateGrid_success t sf g hok
  rw [hf] at hne ⊢
  exact ((finishGrid_stats t g4).2 hne).1

/-- C7 (the code departs from the claim). On `twoCellTool` the two cells hold
the heights 1 and 2: their sum divided by `nonEmptyCells = 2` is 3/2, but the
build leaves `meanHeight = 3`, the sum itself. -/
theorem meanHeight_is_not_divided :
    (updateGrid twoCellTool false unbuiltGrid).1 = true ∧
    nonEmptyHeights (updateGrid twoCellTool false unbuiltGrid).2 = [1, 2] ∧
    (updateGrid twoCellTool false unbuiltGrid).2.nonEmptyCells = 2 ∧
    (updateGrid twoCellTool false unbuiltGrid).2.meanHeight = 3 ∧
    (nonEmptyHeights (updateGrid twoCellTool false unbuiltGrid).2).sum /
      ((updateGrid twoCellTool false unbuiltGrid).2.nonEmptyCells : ℚ) = 3 / 2 := by
  decide!

/-- C8 (the code departs from the claim). On `twoCellTool` the build leaves
`minHeight = 1`, `maxHeight = 2` and `meanHeight = 3`, with two non-empty
cells: `meanHeight` is above `maxHeight`. -/
theorem meanHeight_above_maxHeight :
    (updateGrid twoCellTool false unbuiltGrid).1 = true ∧
    0 < (updateGrid twoCellTool false unbuiltGrid).2.nonEmptyCells ∧
    (updateGrid twoCellTool false unbuiltGrid).2.minHeight = 1 ∧
    (updateGrid twoCellTool false unbuiltGrid).2.maxHeight = 2 ∧
    ¬ ((updateGrid twoCellTool false unbuiltGrid).2.meanHeight ≤
      (updateGrid twoCellTool false unbuiltGrid).2.maxHeight) := by
  decide!

/-- C9. After a successful build, `nonEmptyCells` is the number of cells with
`nbPoints > 0`, at most `width * height`; and when there is such a cell,
`minHeight` is the minimum and `maxHeight` the maximum of the heights of these
cells. -/
theorem extreme_heights_and_count (t : Tool) (sf : Bool) (g r : RasterGrid)
    (hr : updateGrid t sf g = (true, r)) :
    r.nonEmptyCells = (nonEmptyIndexes r).card ∧
    r.nonEmptyCells ≤ r.width * r.height ∧
    ((∃ j i, j < r.height ∧ i < r.width ∧ (r.data j i).nbPoints > 0) →
      (∃ j i, j < r.height ∧ i < r.width ∧ (r.data j i).nbPoints > 0 ∧
        (r.data j i).height = r.minHeight) ∧
      (∀ j i, j < r.height → i < r.width → (r.data j i).nbPoints > 0 →
        r.minHeight ≤ (r.data j i).height) ∧
      (∃ j i, j < r.height ∧ i < r.width ∧ (r.data j i).nbPoints > 0 ∧
        (r.data j i).height = r.maxHeight) ∧
      (∀ j i, j < r.height → i < r.width → (r.data j i).nbPoints > 0 →
        (r.data j i).height ≤ r.maxHeight)) := by
  obtain ⟨hok, rfl⟩ := updateGrid_eq t sf g r hr
  obtain ⟨_, _, _, g4, _, _, _, _, _, _, _, hf⟩ := updateGrid_success t sf g hok
  rw [hf]
  obtain ⟨hn, hs⟩ := finishGrid_stats t g4
  have hcard : (finishGrid t g4).nonEmptyCells = (nonEmptyIndexes (finishGrid t g4)).card := by
    rw [hn, length_nonEmptyHeights]
  refine ⟨hcard, ?_, ?_⟩
  · rw [hcard]; exact card_nonEmptyIndexes_le _
  · rintro ⟨j, i, hj, hi, hnb⟩
    have hmem : ((finishGrid t g4).data j i).height ∈ nonEmptyHeights (finishGrid t g4) :=
      (mem_nonEmptyHeights _ _).mpr ⟨j, i, hj, hi, Nat.pos_iff_ne_zero.mp hnb, rfl⟩
    obtain ⟨_, hmin, hmax, hall⟩ := hs (List.ne_nil_of_mem hmem)
    obtain ⟨j1, i1, a1, a2, a3, a4⟩ := (mem_nonEmptyHeights _ _).mp hmin
    obtain ⟨j2, i2, b1, b2, b3, b4⟩ := (mem_nonEmptyHeights _ _).mp hmax
    refine ⟨⟨j1, i1, a1, a2, Nat.pos_iff_ne_zero.mpr a3, a4⟩, ?_,
      ⟨j2, i2, b1, b2, Nat.pos_iff_ne_zero.mpr b3, b4⟩, ?_⟩
    · intro j3 i3 c1 c2 c3
      exact (hall _ ((mem_nonEmptyHeights _ _).mpr
        ⟨j3, i3, c1, c2, Nat.pos_iff_ne_zero.mp c3, rfl⟩)).1
    · intro j3 i3 c1 c2 c3
      exact (hall _ ((mem_nonEmptyHeights _ _).mpr
        ⟨j3, i3, c1, c2, Nat.pos_iff_ne_zero.mp c3, rfl⟩)).2

/-- Witness of C9: the build of `minTool` leaves two non-empty cells, of
heights 1 and 2. -/
theorem extreme_heights_and_count_witness :
    ((updateGrid minTool false unbuiltGrid).2.nonEmptyCells = 2 ∧
      (updateGrid minTool false unbuiltGrid).2.minHeight = 1 ∧
      (updateGrid minTool false unbuiltGrid).2.maxHeight = 2) ∧
    (updateGrid minTool false unbuiltGrid).2.nonEmptyCells =
      (nonEmptyIndexes (updateGrid minTool false unbuiltGrid).2).card ∧
    (updateGrid minTool false unbuiltGrid).2.nonEmptyCells ≤
      (updateGrid minTool false unbuiltGrid).2.width *
        (updateGrid minTool false unbuiltGrid).2.height ∧
    (∀ j i, j < (updateGrid minTool false unbuiltGrid).2.height →
      i < (updateGrid minTool false unbuiltGrid).2.width →
      ((updateGrid minTool false unbuiltGrid).2.data j i).nbPoints > 0 →
      (updateGrid minTool false unbuiltGrid).2.minHeight ≤
        ((updateGrid minTool false unbuiltGrid).2.data j i).height ∧
      ((updateGrid minTool false unbuiltGrid).2.data j i).height ≤
        (updateGrid minTool false unbuiltGrid).2.maxHeight) :=
  ⟨by decide!,
    (extreme_heights_and_count minTool false unbuiltGrid _ (Prod.ext (by decide!) rfl)).1,
    (extreme_heights_and_count minTool false unbuiltGrid _ (Prod.ext (by decide!) rfl)).2.1,
    fun j i hj hi hn =>
      ⟨((extreme_heights_and_count minTool false unbuiltGrid _ (Prod.ext (by decide!) rfl)).2.2
        ⟨0, 0, by decide!⟩).2.1 j i hj hi hn,
      ((extreme_heights_and_count minTool false unbuiltGrid _ (Prod.ext (by decide!) rfl)).2.2
        ⟨0, 0, by decide!⟩).2.2.2 j i hj hi hn⟩⟩

/-! ## The count of the non-empty cells and the cells hit by the points -/

theorem mem_hitCells (t : Tool) (pts : List CCVector3) (i j : ℕ) :
    (i, j) ∈ hitCells t pts ↔
      ∃ P ∈ pts, cellIndex t t.gridWidth t.gridHeight P = some (i, j) := by
  unfold hitCells
  rw [List.mem_dedup, List.mem_filterMap]

theorem mem_hitCells_iff (t : Tool) (pts : List CCVector3) (i j : ℕ) :
    (i, j) ∈ hitCells t pts ↔ pointsOfCell t t.gridWidth t.gridHeight 0 pts i j ≠ [] := by
  rw [mem_hitCells]
  constructor
  · rintro ⟨P, hP, hc⟩
    exact pointsOfCell_ne_nil t _ _ pts i j P hP hc
  · intro hne
    obtain ⟨p, hp⟩ := List.exists_mem_of_ne_nil _ hne
    obtain ⟨h1, h2⟩ := mem_pointsOfCell t _ _ pts i j p hp
    exact ⟨p.2, List.getElem?_mem h1, h2⟩

/-- After a successful build, every cell hit by a point is a non-empty cell of
the grid; without interpolation the non-empty cells are the cells hit. -/
theorem hitCells_nonEmpty (t : Tool) (sf : Bool) (g : RasterGrid) (cloud : Cloud)
    (hc : t.m_cloud = some cloud) (hok : (updateGrid t sf g).1 = true) :
    ((hitCells t cloud.points).toFinset.image Prod.swap ⊆
      nonEmptyIndexes (updateGrid t sf g).2) ∧
    (t.getFillEmptyCellsStrategy ≠ .INTERPOLATE →
      nonEmptyIndexes (updateGrid t sf g).2 ⊆
        (hitCells t cloud.points).toFinset.image Prod.swap) := by
  obtain ⟨g4, hw, hh, hd, hf⟩ := updateGrid_cells t sf g cloud hc hok
  have hW : (updateGrid t sf g).2.width = t.gridWidth := by rw [hf, finishGrid_width, hw]
  have hH : (updateGrid t sf g).2.height = t.gridHeight := by rw [hf, finishGrid_height, hh]
  constructor
  · intro p hp
    obtain ⟨⟨i, j⟩, hq, rfl⟩ := Finset.mem_image.mp hp
    rw [List.mem_toFinset, mem_hitCells_iff] at hq
    obtain ⟨hi, hj, hnb, _, _⟩ := updateGrid_cell t sf g cloud hc hok i j hq
    unfold nonEmptyIndexes
    simp only [Finset.mem_filter, Finset.mem_product, Finset.mem_range, Prod.swap, hW, hH]
    refine ⟨⟨hj, hi⟩, ?_⟩
    rw [hnb]
    intro h0
    exact hq (List.length_eq_zero.mp h0)
  · intro hs p hp
    obtain ⟨j, i⟩ := p
    unfold nonEmptyIndexes at hp
    simp only [Finset.mem_filter, Finset.mem_product, Finset.mem_range, hW, hH] at hp
    obtain ⟨⟨hj, hi⟩, hnb⟩ := hp
    rw [hf, finishGrid_data_of_not_interpolate t g4 hs, averageHeights_nbPoints, averageSFs_data,
      hd j i hj hi, scanCell_nbPoints] at hnb
    refine Finset.mem_image.mpr ⟨(i, j), ?_, rfl⟩
    rw [List.mem_toFinset, mem_hitCells_iff]
    intro h0
    apply hnb
    rw [h0]
    rfl

/-- C10 (counterexample). With the policy `INTERPOLATE`, on
`interpolatingTool`, the points hit the three cells `(0, 0)`, `(2, 0)` and
`(1, 1)`; the interpolation fills cell `(1, 0)`, which received no point, and
the build leaves `nonEmptyCells = 4`. -/
theorem interpolated_cells_are_counted :
    (updateGrid interpolatingTool false unbuiltGrid).1 = true ∧
    hitCells interpolatingTool trianglePoints = [(0, 0), (2, 0), (1, 1)] ∧
    ((updateGrid interpolatingTool false unbuiltGrid).2.data 0 1).nbPoints = 1 ∧
    (updateGrid interpolatingTool false unbuiltGrid).2.nonEmptyCells = 4 ∧
    (updateGrid interpolatingTool false unbuiltGrid).2.nonEmptyCells ≠
      (hitCells interpolatingTool trianglePoints).length := by
  decide!

/-- C10 (amended). After a successful build whose empty-cell policy is not
`INTERPOLATE`, `nonEmptyCells` is the number of distinct bucket indices hit by
at least one point that the scan does not skip; whatever the policy,
`nonEmptyCells` is at least this number. -/
theorem nonEmptyCells_counts_hit_cells (t : Tool) (sf : Bool) (g r : RasterGrid)
    (cloud : Cloud) (hc : t.m_cloud = some cloud) (hr : updateGrid t sf g = (true, r)) :
    (t.getFillEmptyCellsStrategy ≠ .INTERPOLATE →
      r.nonEmptyCells = (hitCells t cloud.points).length) ∧
    (hitCells t cloud.points).length ≤ r.nonEmptyCells := by
  obtain ⟨hok, rfl⟩ := updateGrid_eq t sf g r hr
  obtain ⟨h1, h2⟩ := hitCells_nonEmpty t sf g cloud hc hok
  have hcard : (updateGrid t sf g).2.nonEmptyCells =
      (nonEmptyIndexes (updateGrid t sf g).2).card := by
    obtain ⟨_, _, _, g4, _, _, _, _, _, _, _, hf⟩ := updateGrid_success t sf g hok
    rw [hf, (finishGrid_stats t g4).1, length_nonEmptyHeights]
  have himg : ((hitCells t cloud.points).toFinset.image Prod.swap).card =
      (hitCells t cloud.points).length := by
    rw [Finset.card_image_of_injective _ Prod.swap_injective]
    exact List.toFinset_card_of_nodup (List.nodup_dedup _)
  constructor
  · intro hs
    rw [hcard, ← himg]
    exact congrArg Finset.card (Finset.Subset.antisymm (h2 hs) h1)
  · rw [hcard, ← himg]
    exact Finset.card_le_card h1

/-- Witness of C10 (amended): `minTool` leaves the empty cells empty; its
points hit the two cells `(0, 0)` and `(1, 0)`. -/
theorem nonEmptyCells_counts_hit_cells_witness :
    (hitCells minTool fourPoints = [(0, 0), (1, 0)] ∧
      (updateGrid minTool false unbuiltGrid).2.nonEmptyCells = 2) ∧
    (updateGrid minTool false unbuiltGrid).2.nonEmptyCells =
      (hitCells minTool fourPoints).length ∧
    (hitCells minTool fourPoints).length ≤
      (updateGrid minTool false unbuiltGrid).2.nonEmptyCells :=
  ⟨by decide!,
    (nonEmptyCells_counts_hit_cells minTool false unbuiltGrid _ (sampleCloud fourPoints) rfl
      (Prod.ext (by decide!) rfl)).1 (by decide),
    (nonEmptyCells_counts_hit_cells minTool false unbuiltGrid _ (sampleCloud fourPoints) rfl
      (Prod.ext (by decide!) rfl)).2⟩

/-! ## Builds that fail -/

/-- The scan never writes the size of the grid nor its `valid` flag. -/
theorem scanPoints_frame (t : Tool) (cloud : Cloud) (sf : Bool) :
    ∀ (pts : List CCVector3) (n k : ℕ) (g : RasterGrid),
      (scanPoints t cloud sf pts n k g).2.valid = g.valid ∧
      (scanPoints t cloud sf pts n k g).2.width = g.width ∧
      (scanPoints t cloud sf pts n k g).2.height = g.height := by
  intro pts
  induction pts with
  | nil => intro n k g; exact ⟨rfl, rfl, rfl⟩
  | cons P rest ih =>
    intro n k g
    rw [scanPoints_cons]
    cases cellIndex t g.width g.height P with
    | none => exact ih _ _ _
    | some ij =>
      obtain ⟨i, j⟩ := ij
      simp only
      split_ifs
      · exact ih _ _ _
      · exact ⟨rfl, rfl, rfl⟩

/-- A scan is cancelled when `oneStep` answers `false` at one of the calls
that the points kept by the scan trigger. -/
theorem scanPoints_cancelled (t : Tool) (cloud : Cloud) (sf : Bool) :
    ∀ (pts : List CCVector3) (n k0 : ℕ) (g : RasterGrid) (k : ℕ),
      k < (pts.filterMap (cellIndex t g.width g.height)).length →
      t.oneStep (k0 + k) = false →
      (scanPoints t cloud sf pts n k0 g).1 = false := by
  intro pts
  induction pts with
  | nil => intro n k0 g k hk _; simp at hk
  | cons P rest ih =>
    intro n k0 g k hk hstop
    rw [scanPoints_cons]
    cases hc : cellIndex t g.width g.height P with
    | none =>
      rw [List.filterMap_cons_none hc] at hk
      exact ih _ _ _ k hk hstop
    | some ij =>
      obtain ⟨i, j⟩ := ij
      rw [List.filterMap_cons_some hc, List.length_cons] at hk
      simp only
      by_cases hs : t.oneStep k0 = true
      · rw [if_pos hs]
        cases k with
        | zero => rw [Nat.add_zero, hs] at hstop; exact absurd hstop (by decide)
        | succ k1 =>
          refine ih (n + 1) (k0 + 1) _ k1 ?_ ?_
          · rw [projectPoint_width, projectPoint_height]; omega
          · rw [← hstop]; congr 1; omega
      · rw [if_neg hs]

/-- After a scan that the user cancels, the points up to the one at which the
user cancelled have been scanned: every cell is the fold of `updateCell` over
the points of this prefix of the cloud that fall in it, and the statistics are
the ones the grid had before the scan. -/
theorem scanPoints_stopped (t : Tool) (cloud : Cloud) (sf : Bool) :
    ∀ (pts : List CCVector3) (n k : ℕ) (g g1 : RasterGrid),
      scanPoints t cloud sf pts n k g = (false, g1) →
      ∃ m, m < pts.length ∧
        t.oneStep (k + ((pts.take m).filterMap (cellIndex t g.width g.height)).length) = false ∧
        (∀ k1, k1 < ((pts.take m).filterMap (cellIndex t g.width g.height)).length →
          t.oneStep (k + k1) = true) ∧
        (g1.minHeight = g.minHeight ∧ g1.maxHeight = g.maxHeight ∧
          g1.meanHeight = g.meanHeight ∧ g1.nonEmptyCells = g.nonEmptyCells) ∧
        ∀ j i, g1.data j i =
          scanCell t (g.data j i) (pointsOfCell t g.width g.height n (pts.take (m + 1)) i j) := by
  intro pts
  induction pts with
  | nil =>
    intro n k g g1 h
    rw [scanPoints_nil] at h
    simp at h
  | cons P rest ih =>
    intro n k g g1 h
    rw [scanPoints_cons] at h
    cases hc : cellIndex t g.width g.height P with
    | none =>
      rw [hc] at h
      obtain ⟨m, hm, h1, h2, h3, hd⟩ := ih (n + 1) k g g1 h
      refine ⟨m + 1, by rw [List.length_cons]; omega, ?_, ?_, h3, fun j i => ?_⟩
      · rw [List.take_succ_cons, List.filterMap_cons, hc]
        exact h1
      · rw [List.take_succ_cons, List.filterMap_cons, hc]
        exact h2
      · rw [hd j i, List.take_succ_cons]
        simp [pointsOfCell, List.enumFrom_cons, List.filter_cons, hc]
    | some ij =>
      obtain ⟨i0, j0⟩ := ij
      rw [hc] at h
      simp only at h
      by_cases hs : t.oneStep k = true
      · rw [if_pos hs] at h
        obtain ⟨m, hm, h1, h2, h3, hd⟩ := ih (n + 1) (k + 1) _ g1 h
        rw [projectPoint_width, projectPoint_height] at h1 h2
        refine ⟨m + 1, by rw [List.length_cons]; omega, ?_, ?_, h3, fun j i => ?_⟩
        · rw [List.take_succ_cons, List.filterMap_cons, hc, List.length_cons]
          rw [← h1]
          congr 1
          omega
        · rw [List.take_succ_cons, List.filterMap_cons, hc, List.length_cons]
          intro k1 hk1
          cases k1 with
          | zero => exact hs
          | succ k2 =>
            have := h2 k2 (by omega)
            rw [← this]
            congr 1
            omega
        · rw [hd j i, projectPoint_width, projectPoint_height, List.take_succ_cons]
          by_cases hji : j = j0 ∧ i = i0
          · obtain ⟨rfl, rfl⟩ := hji
            simp [pointsOfCell, List.enumFrom_cons, List.filter_cons, hc, projectPoint,
              scanCell_cons]
          · have hne : ¬ ((i0, j0) = (i, j)) := by
              intro he
              simp only [Prod.mk.injEq] at he
              exact hji ⟨he.2.symm, he.1.symm⟩
            simp [pointsOfCell, List.enumFrom_cons, List.filter_cons, hc, projectPoint, hji, hne]
      · rw [if_neg hs] at h
        simp only [Prod.mk.injEq, true_and] at h
        subst h
        refine ⟨0, by rw [List.length_cons]; omega, ?_, ?_, ⟨rfl, rfl, rfl, rfl⟩, fun j i => ?_⟩
        · simpa using hs
        · intro k1 hk1
          simp at hk1
        · by_cases hji : j = j0 ∧ i = i0
          · obtain ⟨rfl, rfl⟩ := hji
            simp [pointsOfCell, List.enumFrom_cons, List.filter_cons, hc, projectPoint,
              scanCell_cons, scanCell_nil]
          · have hne : ¬ ((i0, j0) = (i, j)) := by
              intro he
              simp only [Prod.mk.injEq] at he
              exact hji ⟨he.2.symm, he.1.symm⟩
            simp [pointsOfCell, List.enumFrom_cons, List.filter_cons, hc, projectPoint, hji, hne,
              scanCell_nil]

/-- The statistics after `init` on a grid that has already the requested
size. -/
theorem init_same_size (g g1 : RasterGrid) (w h : ℕ) (a : Bool)
    (hi : g.init w h a = (true, g1)) (hw : g.width = w) (hh : g.height = h) :
    g1.minHeight = 0 ∧ g1.maxHeight = 0 ∧ g1.meanHeight = 0 ∧ g1.nonEmptyCells = 0 := by
  unfold RasterGrid.init at hi
  simp only at hi
  rw [if_pos ⟨hw.symm, hh.symm⟩] at hi
  simp only [Prod.mk.injEq, true_and] at hi
  subst hi
  exact ⟨rfl, rfl, rfl, rfl⟩

/-- C11 (counterexample). The grid `builtGrid` is valid and its cell `(0, 0)`
holds 3 points; a build of the same size, cancelled at the second point, reports
failure and leaves the grid with `valid = false`, the statistics reset, and 2
points in cell `(0, 0)`. -/
theorem cancelled_build_changes_grid :
    builtGrid.valid = true ∧ (builtGrid.data 0 0).nbPoints = 3 ∧ builtGrid.nonEmptyCells = 2 ∧
    builtGrid.maxHeight = 2 ∧
    (updateGrid cancelTool false builtGrid).1 = false ∧
    (updateGrid cancelTool false builtGrid).2.valid = false ∧
    ((updateGrid cancelTool false builtGrid).2.data 0 0).nbPoints = 2 ∧
    (updateGrid cancelTool false builtGrid).2.nonEmptyCells = 0 ∧
    (updateGrid cancelTool false builtGrid).2.maxHeight = 0 := by
  decide!

/-- C11 (amended). When the build reaches the scan (a cloud, a valid box with
positive extents, a grid size that the user accepts, cells that can be
allocated) and the user cancels at one of the calls of `oneStep` that the
points trigger, `updateGrid` returns `false` and leaves a grid with
`valid = false` and the width and height of the new build; its cells hold the
points scanned up to the cancellation: for the first point `m` at which
`oneStep` answers `false`, every cell is the fold of `updateCell`, from an
empty cell, over the points among the `m + 1` first ones that fall in it; and
when the grid had already the size of the new build, its statistics are reset
to 0. -/
theorem cancelled_build_holds_scanned_points (t : Tool) (sf : Bool) (g : RasterGrid)
    (cloud : Cloud)
    (hc : t.m_cloud = some cloud) (hv : t.getCustomBBox.isValid = true)
    (hX : 0 < t.boxDiag.u t.X) (hY : 0 < t.boxDiag.u t.Y)
    (hq : t.proceedAnyway = true) (ha : t.cellsAllocated = true) (k : ℕ)
    (hk : k < (cloud.points.filterMap (cellIndex t t.gridWidth t.gridHeight)).length)
    (hstop : t.oneStep k = false) :
    (updateGrid t sf g).1 = false ∧ (updateGrid t sf g).2.valid = false ∧
    (updateGrid t sf g).2.width = t.gridWidth ∧
    (updateGrid t sf g).2.height = t.gridHeight ∧
    (∃ m, m < cloud.points.length ∧
      t.oneStep
        ((cloud.points.take m).filterMap (cellIndex t t.gridWidth t.gridHeight)).length = false ∧
      (∀ k1, k1 < ((cloud.points.take m).filterMap
          (cellIndex t t.gridWidth t.gridHeight)).length → t.oneStep k1 = true) ∧
      ∀ j i, j < t.gridHeight → i < t.gridWidth →
        (updateGrid t sf g).2.data j i =
          scanCell t RasterCell.empty
            (pointsOfCell t t.gridWidth t.gridHeight 0 (cloud.points.take (m + 1)) i j)) ∧
    (g.width = t.gridWidth ∧ g.height = t.gridHeight →
      (updateGrid t sf g).2.minHeight = 0 ∧ (updateGrid t sf g).2.maxHeight = 0 ∧
      (updateGrid t sf g).2.meanHeight = 0 ∧ (updateGrid t sf g).2.nonEmptyCells = 0) := by
  unfold updateGrid
  rw [hc]
  simp only
  rw [if_neg (by simp [hv]), if_neg (by simp [not_le.mpr hX, not_le.mpr hY]),
    if_neg (by simp [hq])]
  have hi : (g.init t.gridWidth t.gridHeight t.cellsAllocated).1 = true := by
    unfold RasterGrid.init
    simp only
    split_ifs
    · rfl
    · rfl
  cases hi2 : g.init t.gridWidth t.gridHeight t.cellsAllocated with
  | mk b g1 =>
    rw [hi2] at hi
    simp only at hi
    subst hi
    obtain ⟨hw, hh, hval, hempty⟩ := init_success g g1 _ _ _ hi2
    simp only
    generalize hsf : (sf && (cloud.isPointCloud && !cloud.scalarFields.isEmpty)) = sf1
    generalize hg3 : (if sf1 = true then
        allocateSFs t cloud { g1 with gridStep := t.getGridStep }
      else { g1 with gridStep := t.getGridStep }) = g3
    have hw3 : g3.width = t.gridWidth := by rw [← hg3]; split_ifs <;> exact hw
    have hh3 : g3.height = t.gridHeight := by rw [← hg3]; split_ifs <;> exact hh
    have hv3 : g3.valid = false := by rw [← hg3]; split_ifs <;> exact hval
    have hd3 : g3.data = g1.data := by rw [← hg3]; split_ifs <;> rfl
    have hs3 : g3.minHeight = g1.minHeight ∧ g3.maxHeight = g1.maxHeight ∧
        g3.meanHeight = g1.meanHeight ∧ g3.nonEmptyCells = g1.nonEmptyCells := by
      rw [← hg3]; split_ifs <;> exact ⟨rfl, rfl, rfl, rfl⟩
    have hcan := scanPoints_cancelled t cloud sf1 cloud.points 0 0 g3 k
      (by rw [hw3, hh3]; exact hk) (by rw [Nat.zero_add]; exact hstop)
    obtain ⟨f1, f2, f3⟩ := scanPoints_frame t cloud sf1 cloud.points 0 0 g3
    cases hs : scanPoints t cloud sf1 cloud.points 0 0 g3 with
    | mk b2 g4 =>
      rw [hs] at hcan f1 f2 f3
      simp only at hcan f1 f2 f3
      subst hcan
      obtain ⟨m, hm, s1, s2, s3, s4⟩ := scanPoints_stopped t cloud sf1 cloud.points 0 0 g3 g4 hs
      rw [hw3, hh3] at s1 s2 s4
      rw [Nat.zero_add] at s1
      refine ⟨rfl, f1.trans hv3, f2.trans hw3, f3.trans hh3, ⟨m, hm, s1, ?_, ?_⟩, ?_⟩
      · intro k1 hk1
        have := s2 k1 hk1
        rwa [Nat.zero_add] at this
      · intro j i hj hi
        show g4.data j i = _
        rw [s4 j i, hd3, hempty j i hj hi]
      · intro hsame
        obtain ⟨i1, i2, i3, i4⟩ := init_same_size g g1 _ _ _ hi2 hsame.1 hsame.2
        show g4.minHeight = 0 ∧ g4.maxHeight = 0 ∧ g4.meanHeight = 0 ∧ g4.nonEmptyCells = 0
        rw [s3.1, s3.2.1, s3.2.2.1, s3.2.2.2, hs3.1, hs3.2.1, hs3.2.2.1, hs3.2.2.2]
        exact ⟨i1, i2, i3, i4⟩

/-- Witness of C11 (amended): `cancelTool` on `builtGrid`, a grid of the same
size, cancelled at the second call of `oneStep`: the points 0 and 1, of heights
4 and 1, have been scanned into cell `(0, 0)`, which holds 2 points and the
height 1, and the statistics are 0. -/
theorem cancelled_build_holds_scanned_points_witness :
    (builtGrid.width = cancelTool.gridWidth ∧ builtGrid.height = cancelTool.gridHeight ∧
      (updateGrid cancelTool false builtGrid).2.data 0 0 =
        { height := 1, nbPoints := 2, pointIndex := 1 } ∧
      (updateGrid cancelTool false builtGrid).2.data 0 1 = RasterCell.empty ∧
      (updateGrid cancelTool false builtGrid).2.nonEmptyCells = 0) ∧
    ((updateGrid cancelTool false builtGrid).1 = false ∧
    (updateGrid cancelTool false builtGrid).2.valid = false ∧
    (updateGrid cancelTool false builtGrid).2.width = cancelTool.gridWidth ∧
    (updateGrid cancelTool false builtGrid).2.height = cancelTool.gridHeight ∧
    (∃ m, m < (sampleCloud fourPoints).points.length ∧
      cancelTool.oneStep
        (((sampleCloud fourPoints).points.take m).filterMap
          (cellIndex cancelTool cancelTool.gridWidth cancelTool.gridHeight)).length = false ∧
      (∀ k1, k1 < (((sampleCloud fourPoints).points.take m).filterMap
          (cellIndex cancelTool cancelTool.gridWidth cancelTool.gridHeight)).length →
        cancelTool.oneStep k1 = true) ∧
      ∀ j i, j < cancelTool.gridHeight → i < cancelTool.gridWidth →
        (updateGrid cancelTool false builtGrid).2.data j i =
          scanCell cancelTool RasterCell.empty
            (pointsOfCell cancelTool cancelTool.gridWidth cancelTool.gridHeight 0
              ((sampleCloud fourPoints).points.take (m + 1)) i j)) ∧
    (builtGrid.width = cancelTool.gridWidth ∧ builtGrid.height = cancelTool.gridHeight →
      (updateGrid cancelTool false builtGrid).2.minHeight = 0 ∧
      (updateGrid cancelTool false builtGrid).2.maxHeight = 0 ∧
      (updateGrid cancelTool false builtGrid).2.meanHeight = 0 ∧
      (updateGrid cancelTool false builtGrid).2.nonEmptyCells = 0)) :=
  ⟨by decide!,
    cancelled_build_holds_scanned_points cancelTool false builtGrid (sampleCloud fourPoints)
      rfl rfl (by decide!) (by decide!) rfl rfl 1 (by decide!) rfl⟩

/-- C12. When the extent of the box on one of the two axes of the plane is not
positive, `updateGrid` returns `false` and the grid is the one it was given,
`valid` flag included. -/
theorem invalid_region_leaves_grid (t : Tool) (sf : Bool) (g : RasterGrid)
    (h : t.getCustomBBox.maxCorner.u t.X - t.getCustomBBox.minCorner.u t.X ≤ 0 ∨
      t.getCustomBBox.maxCorner.u t.Y - t.getCustomBBox.minCorner.u t.Y ≤ 0) :
    updateGrid t sf g = (false, g) := by
  have h2 : t.boxDiag.u t.X ≤ 0 ∨ t.boxDiag.u t.Y ≤ 0 := by
    rw [Tool.boxDiag_u, Tool.boxDiag_u]
    exact h.imp (roundDouble_nonpos _) (roundDouble_nonpos _)
  unfold updateGrid
  cases t.m_cloud with
  | none => rfl
  | some cloud =>
    simp only
    split_ifs
    · rfl
    · rfl

/-- Witness of C12: the box of `flatBoxTool` has the extent 0 on the
horizontal axis; the valid grid `builtGrid` is left as it was. -/
theorem invalid_region_leaves_grid_witness :
    builtGrid.valid = true ∧ updateGrid flatBoxTool false builtGrid = (false, builtGrid) :=
  ⟨by decide!, invalid_region_leaves_grid flatBoxTool false builtGrid (Or.inl (by decide!))⟩

/-! ## The interpolation: when nothing is done -/

theorem countFold_eq (cs : List RasterCell) :
    ∀ n : ℕ, cs.foldl (fun n c => if c.nbPoints ≠ 0 then n + 1 else n) n =
      n + (cellHeights cs).length := by
  induction cs with
  | nil => intro n; simp [cellHeights]
  | cons c cs ih =>
    intro n
    rw [List.foldl_cons, ih]
    by_cases hc : c.nbPoints = 0
    · rw [cellHeights_cons_of_empty c cs hc, if_neg (not_not.mpr hc)]
    · rw [cellHeights_cons_of_nonEmpty c cs hc, if_pos hc, List.length_cons]
      omega

/-- The first loop of the interpolation counts the cells that hold a point. -/
theorem countNonEmptyCells_eq (g : RasterGrid) :
    countNonEmptyCells g = (nonEmptyIndexes g).card := by
  rw [← length_nonEmptyHeights]
  unfold nonEmptyHeights
  rw [← Nat.zero_add (cellHeights _).length, ← countFold_eq, List.foldl_map]
  show _ = List.foldl _ _ (List.flatMap _ _)
  rw [foldl_flatMap_eq]
  simp only [List.foldl_map]
  rfl

/-- C15. When at most 2 cells of the grid are non-empty (for instance exactly
1), the interpolation step leaves the grid as it is; and when every cell of
the grid is non-empty, it leaves every cell (height, `nbPoints`, `pointIndex`)
and the size of the grid as they are. -/
theorem interpolation_does_nothing (t : Tool) (g : RasterGrid) :
    ((nonEmptyIndexes g).card ≤ 2 → interpolateEmptyCells t g = g) ∧
    ((∀ j i, j < g.height → i < g.width → (g.data j i).nbPoints ≠ 0) →
      (interpolateEmptyCells t g).width = g.width ∧
      (interpolateEmptyCells t g).height = g.height ∧
      ∀ j i, j < g.height → i < g.width → (interpolateEmptyCells t g).data j i = g.data j i) := by
  constructor
  · intro h
    unfold interpolateEmptyCells
    simp only
    rw [countNonEmptyCells_eq, if_neg]
    intro h1
    omega
  · intro h
    obtain ⟨hw, hh, hd⟩ := interpolateEmptyCells_keeps t g
    exact ⟨hw, hh, fun j i hj hi => hd j i (h j i hj hi)⟩

/-- Witness of C15: `oneCellGrid` has exactly 1 non-empty cell out of 4, and
every cell of `builtGrid` is non-empty. -/
theorem interpolation_does_nothing_witness :
    ((nonEmptyIndexes oneCellGrid).card = 1 ∧
      interpolateEmptyCells interpolatingTool oneCellGrid = oneCellGrid) ∧
    ((interpolateEmptyCells interpolatingTool builtGrid).width = builtGrid.width ∧
      (interpolateEmptyCells interpolatingTool builtGrid).height = builtGrid.height ∧
      ∀ j i, j < builtGrid.height → i < builtGrid.width →
        (interpolateEmptyCells interpolatingTool builtGrid).data j i = builtGrid.data j i) :=
  ⟨⟨by decide!, (interpolation_does_nothing interpolatingTool oneCellGrid).1 (by decide!)⟩,
    (interpolation_does_nothing interpolatingTool builtGrid).2 (by
      intro j i hj hi
      have hh : builtGrid.height = 1 := by decide!
      have hw : builtGrid.width = 2 := by decide!
      rw [hh] at hj
      rw [hw] at hi
      interval_cases j
      interval_cases i <;> decide!)⟩

/-! ## The inclusion test and the weights of a cell -/

theorem apex_high (d nv nu nw yv yu yw j : ℤ)
    (hv : d * (j - yv) = nu * (yu - yv) + nw * (yw - yv))
    (hu : d * (j - yu) = nv * (yv - yu) + nw * (yw - yu))
    (hw : d * (j - yw) = nv * (yv - yw) + nu * (yu - yw))
    (h1 : yu ≤ j) (h2 : yw ≤ j) (h3 : j < yv)
    (hx : (nw < 0 ∧ ¬ 0 < nu) ∨ (¬ nw < 0 ∧ 0 < nu)) :
    (0 < d ∧ 0 ≤ nv ∧ 0 ≤ nu ∧ 0 ≤ nw) ∨ (d < 0 ∧ nv ≤ 0 ∧ nu ≤ 0 ∧ nw ≤ 0) := by
  rcases hx with ⟨a, b⟩ | ⟨a, b⟩
  · right
    have b' : nu ≤ 0 := not_lt.mp b
    have hd : d < 0 := by
      by_contra hd
      have hd' : 0 ≤ d := not_lt.mp hd
      have e1 : d * (j - yv) ≤ 0 := mul_nonpos_of_nonneg_of_nonpos hd' (by linarith)
      have e2 : 0 ≤ nu * (yu - yv) := mul_nonneg_of_nonpos_of_nonpos b' (by linarith)
      have e3 : 0 < nw * (yw - yv) := mul_pos_of_neg_of_neg a (by linarith)
      linarith
    refine ⟨hd, ?_, b', le_of_lt a⟩
    by_contra hn
    have hn' : 0 < nv := not_le.mp hn
    have e1 : d * (j - yu) ≤ 0 := mul_nonpos_of_nonpos_of_nonneg (le_of_lt hd) (by linarith)
    have e2 : 0 < nv * (yv - yu) := mul_pos hn' (by linarith)
    have e3 : nw * (yw - yu) < 0 := by linarith
    have e4 : 0 < yw - yu := by
      by_contra h4
      have : 0 ≤ nw * (yw - yu) := mul_nonneg_of_nonpos_of_nonpos (le_of_lt a) (not_lt.mp h4)
      linarith
    have f1 : d * (j - yw) ≤ 0 := mul_nonpos_of_nonpos_of_nonneg (le_of_lt hd) (by linarith)
    have f2 : 0 < nv * (yv - yw) := mul_pos hn' (by linarith)
    have f3 : nu * (yu - yw) < 0 := by linarith
    have f4 : 0 ≤ nu * (yu - yw) := mul_nonneg_of_nonpos_of_nonpos b' (by linarith)
    linarith
  · left
    have a' : 0 ≤ nw := not_lt.mp a
    have hd : 0 < d := by
      by_contra hd
      have hd' : d ≤ 0 := not_lt.mp hd
      have e1 : 0 ≤ d * (j - yv) := mul_nonneg_of_nonpos_of_nonpos hd' (by linarith)
      have e2 : nu * (yu - yv) < 0 := mul_neg_of_pos_of_neg b (by linarith)
      have e3 : nw * (yw - yv) ≤ 0 := mul_nonpos_of_nonneg_of_nonpos a' (by linarith)
      linarith
    refine ⟨hd, ?_, le_of_lt b, a'⟩
    by_contra hn
    have hn' : nv < 0 := not_le.mp hn
    have e1 : 0 ≤ d * (j - yu) := mul_nonneg (le_of_lt hd) (by linarith)
    have e2 : nv * (yv - yu) < 0 := mul_neg_of_neg_of_pos hn' (by linarith)
    have e3 : 0 < nw * (yw - yu) := by linarith
    have e4 : 0 < yw - yu := by
      by_contra h4
      have : nw * (yw - yu) ≤ 0 := mul_nonpos_of_nonneg_of_nonpos a' (not_lt.mp h4)
      linarith
    have f1 : 0 ≤ d * (j - yw) := mul_nonneg (le_of_lt hd) (by linarith)
    have f2 : nv * (yv - yw) < 0 := mul_neg_of_neg_of_pos hn' (by linarith)
    have f3 : 0 < nu * (yu - yw) := by linarith
    have f4 : nu * (yu - yw) ≤ 0 := mul_nonpos_of_nonneg_of_nonpos (le_of_lt b) (by linarith)
    linarith

theorem apex_low (d nv nu nw yv yu yw j : ℤ)
    (hv : d * (j - yv) = nu * (yu - yv) + nw * (yw - yv))
    (hu : d * (j - yu) = nv * (yv - yu) + nw * (yw - yu))
    (hw : d * (j - yw) = nv * (yv - yw) + nu * (yu - yw))
    (h1 : j < yu) (h2 : j < yw) (h3 : yv ≤ j)
    (hx : (0 < nw ∧ ¬ nu < 0) ∨ (¬ 0 < nw ∧ nu < 0)) :
    (0 < d ∧ 0 ≤ nv ∧ 0 ≤ nu ∧ 0 ≤ nw) ∨ (d < 0 ∧ nv ≤ 0 ∧ nu ≤ 0 ∧ nw ≤ 0) := by
  rcases hx with ⟨a, b⟩ | ⟨a, b⟩
  · left
    have b' : 0 ≤ nu := not_lt.mp b
    have e2 : 0 ≤ nu * (yu - yv) := mul_nonneg b' (by linarith)
    have e3 : 0 < nw * (yw - yv) := mul_pos a (by linarith)
    have hd : 0 < d := by
      by_contra hd
      have hd' : d ≤ 0 := not_lt.mp hd
      have e1 : d * (j - yv) ≤ 0 := mul_nonpos_of_nonpos_of_nonneg hd' (by linarith)
      linarith
    refine ⟨hd, ?_, b', le_of_lt a⟩
    by_contra hn
    have hn' : nv < 0 := not_le.mp hn
    have e1 : d * (j - yu) < 0 := mul_neg_of_pos_of_neg hd (by linarith)
    have e2 : 0 < nv * (yv - yu) := mul_pos_of_neg_of_neg hn' (by linarith)
    have e3 : nw * (yw - yu) < 0 := by linarith
    have e4 : yw - yu < 0 := by
      by_contra h4
      have : 0 ≤ nw * (yw - yu) := mul_nonneg (le_of_lt a) (not_lt.mp h4)
      linarith
    have f1 : d * (j - yw) < 0 := mul_neg_of_pos_of_neg hd (by linarith)
    have f2 : 0 < nv * (yv - yw) := mul_pos_of_neg_of_neg hn' (by linarith)
    have f3 : nu * (yu - yw) < 0 := by linarith
    have f4 : 0 ≤ nu * (yu - yw) := mul_nonneg b' (by linarith)
    linarith
  · right
    have a' : nw ≤ 0 := not_lt.mp a
    have e2 : nu * (yu - yv) < 0 := mul_neg_of_neg_of_pos b (by linarith)
    have e3 : nw * (yw - yv) ≤ 0 := mul_nonpos_of_nonpos_of_nonneg a' (by linarith)
    have hd : d < 0 := by
      by_contra hd
      have hd' : 0 ≤ d := not_lt.mp hd
      have e1 : 0 ≤ d * (j - yv) := mul_nonneg hd' (by linarith)
      linarith
    refine ⟨hd, ?_, le_of_lt b, a'⟩
    by_contra hn
    have hn' : 0 < nv := not_le.mp hn
    have e1 : 0 < d * (j - yu) := mul_pos_of_neg_of_neg hd (by linarith)
    have e2 : nv * (yv - yu) < 0 := mul_neg_of_pos_of_neg hn' (by linarith)
    have e3 : 0 < nw * (yw - yu) := by linarith
    have e4 : yw - yu < 0 := by
      by_contra h4
      have : nw * (yw - yu) ≤ 0 := mul_nonpos_of_nonpos_of_nonneg a' (not_lt.mp h4)
      linarith
    have f1 : 0 < d * (j - yw) := mul_pos_of_neg_of_neg hd (by linarith)
    have f2 : nv * (yv - yw) < 0 := mul_neg_of_pos_of_neg hn' (by linarith)
    have f3 : 0 < nu * (yu - yw) := by linarith
    have f4 : nu * (yu - yw) ≤ 0 := mul_nonpos_of_nonpos_of_nonneg (le_of_lt b) (by linarith)
    linarith

theorem edge_step (b : Bool) (P1 P2 : ℤ × ℤ) (i j : ℤ) :
    (if (P2.2 ≤ j ∧ j < P1.2) ∨ (P1.2 ≤ j ∧ j < P2.2) then
      if (if P1.2 < P2.2 then -((i - P2.1) * (P1.2 - P2.2) - (P1.1 - P2.1) * (j - P2.2))
          else (i - P2.1) * (P1.2 - P2.2) - (P1.1 - P2.1) * (j - P2.2)) < 0 then !b else b
      else b) = xor b (crossesEdge P1 P2 i j) := by
  unfold crossesEdge edgeSide
  by_cases c : (P2.2 ≤ j ∧ j < P1.2) ∨ (P1.2 ≤ j ∧ j < P2.2)
  · rw [if_pos c]
    by_cases d : (if P1.2 < P2.2 then -((i - P2.1) * (P1.2 - P2.2) - (P1.1 - P2.1) * (j - P2.2))
          else (i - P2.1) * (P1.2 - P2.2) - (P1.1 - P2.1) * (j - P2.2)) < 0
    · rw [if_pos d, decide_eq_true (And.intro c d)]
      cases b <;> rfl
    · rw [if_neg d, decide_eq_false (fun h => d h.2)]
      cases b <;> rfl
  · rw [if_neg c, decide_eq_false (fun h => c h.1)]
    cases b <;> rfl

theorem insideTriangle_eq (P : Fin 3 → ℤ × ℤ) (i j : ℤ) :
    insideTriangle P i j =
      xor (xor (crossesEdge (P 0) (P 1) i j) (crossesEdge (P 1) (P 2) i j))
        (crossesEdge (P 2) (P 0) i j) := by
  have hl : List.finRange 3 = [0, 1, 2] := by decide
  have h01 : (0 : Fin 3) + 1 = 1 := rfl
  have h12 : (1 : Fin 3) + 1 = 2 := rfl
  have h20 : (2 : Fin 3) + 1 = 0 := rfl
  unfold insideTriangle
  rw [hl]
  simp only [List.foldl_cons, List.foldl_nil, h01, h12, h20, edge_step, Bool.false_xor]

theorem crossesEdge_high_low (P1 P2 : ℤ × ℤ) (i j : ℤ) (h1 : j < P1.2) (h2 : P2.2 ≤ j) :
    crossesEdge P1 P2 i j = decide (edgeSide P1 P2 i j < 0) := by
  unfold crossesEdge
  have e1 : ((P2.2 ≤ j ∧ j < P1.2) ∨ (P1.2 ≤ j ∧ j < P2.2)) := Or.inl ⟨h2, h1⟩
  have e2 : ¬ P1.2 < P2.2 := by omega
  rw [if_neg e2]
  simp only [e1, true_and]

theorem crossesEdge_low_high (P1 P2 : ℤ × ℤ) (i j : ℤ) (h1 : P1.2 ≤ j) (h2 : j < P2.2) :
    crossesEdge P1 P2 i j = decide (0 < edgeSide P1 P2 i j) := by
  unfold crossesEdge
  have e1 : ((P2.2 ≤ j ∧ j < P1.2) ∨ (P1.2 ≤ j ∧ j < P2.2)) := Or.inr ⟨h1, h2⟩
  have e2 : P1.2 < P2.2 := by omega
  rw [if_pos e2]
  simp only [e1, true_and, Left.neg_neg_iff]

theorem crossesEdge_low_low (P1 P2 : ℤ × ℤ) (i j : ℤ) (h1 : P1.2 ≤ j) (h2 : P2.2 ≤ j) :
    crossesEdge P1 P2 i j = false := by
  unfold crossesEdge
  have e1 : ¬ ((P2.2 ≤ j ∧ j < P1.2) ∨ (P1.2 ≤ j ∧ j < P2.2)) := by omega
  simp only [e1, false_and, decide_False]

theorem crossesEdge_high_high (P1 P2 : ℤ × ℤ) (i j : ℤ) (h1 : j < P1.2) (h2 : j < P2.2) :
    crossesEdge P1 P2 i j = false := by
  unfold crossesEdge
  have e1 : ¬ ((P2.2 ≤ j ∧ j < P1.2) ∨ (P1.2 ≤ j ∧ j < P2.2)) := by omega
  simp only [e1, false_and, decide_False]

theorem xor_decide_eq_true (p q : Prop) [Decidable p] [Decidable q]
    (h : xor (decide p) (decide q) = true) : (p ∧ ¬ q) ∨ (¬ p ∧ q) := by
  by_cases hp : p <;> by_cases hq : q <;> simp [hp, hq] at h ⊢

/-- When the inclusion test says `inside`, the determinant is not 0 and the
three numerators of the weights have its sign, or are 0. -/
theorem insideTriangle_signs (P : Fin 3 → ℤ × ℤ) (i j : ℤ) (h : insideTriangle P i j = true) :
    (0 < triangleDet P ∧ 0 ≤ baryN1 P i j ∧ 0 ≤ baryN2 P i j ∧
      0 ≤ triangleDet P - baryN1 P i j - baryN2 P i j) ∨
    (triangleDet P < 0 ∧ baryN1 P i j ≤ 0 ∧ baryN2 P i j ≤ 0 ∧
      triangleDet P - baryN1 P i j - baryN2 P i j ≤ 0) := by
  rw [insideTriangle_eq] at h
  have k0 : edgeSide (P 0) (P 1) i j = triangleDet P - baryN1 P i j - baryN2 P i j := by
    unfold edgeSide triangleDet baryN1 baryN2; ring
  have k1 : edgeSide (P 1) (P 2) i j = baryN1 P i j := by
    unfold edgeSide baryN1; ring
  have k2 : edgeSide (P 2) (P 0) i j = baryN2 P i j := by
    unfold edgeSide baryN2; ring
  have iA : triangleDet P * (j - (P 0).2) =
      baryN2 P i j * ((P 1).2 - (P 0).2) +
        (triangleDet P - baryN1 P i j - baryN2 P i j) * ((P 2).2 - (P 0).2) := by
    unfold triangleDet baryN1 baryN2; ring
  have iB : triangleDet P * (j - (P 1).2) =
      baryN1 P i j * ((P 0).2 - (P 1).2) +
        (triangleDet P - baryN1 P i j - baryN2 P i j) * ((P 2).2 - (P 1).2) := by
    unfold triangleDet baryN1 baryN2; ring
  have iC : triangleDet P * (j - (P 2).2) =
      baryN1 P i j * ((P 0).2 - (P 2).2) + baryN2 P i j * ((P 1).2 - (P 2).2) := by
    unfold triangleDet baryN1 baryN2; ring
  generalize triangleDet P = d at *
  generalize baryN1 P i j = n1 at *
  generalize baryN2 P i j = n2 at *
  by_cases hA : (P 0).2 ≤ j <;> by_cases hB : (P 1).2 ≤ j <;> by_cases hC : (P 2).2 ≤ j
  · -- all low
    rw [crossesEdge_low_low _ _ i j hA hB, crossesEdge_low_low _ _ i j hB hC,
      crossesEdge_low_low _ _ i j hC hA] at h
    exact absurd h (by decide)
  · -- C high
    have hC' := not_le.mp hC
    rw [crossesEdge_low_low _ _ i j hA hB, crossesEdge_low_high _ _ i j hB hC',
      crossesEdge_high_low _ _ i j hC' hA, Bool.false_xor, k1, k2] at h
    have hx := xor_decide_eq_true _ _ h
    have := apex_high d (d - n1 - n2) n1 n2 (P 2).2 (P 0).2 (P 1).2 j
      (by linarith) (by linarith) (by linarith) hA hB hC'
      (by rcases hx with ⟨a, b⟩ | ⟨a, b⟩
          · exact Or.inr ⟨b, a⟩
          · exact Or.inl ⟨b, a⟩)
    rcases this with ⟨a, b, c, e⟩ | ⟨a, b, c, e⟩
    · exact Or.inl ⟨a, c, e, b⟩
    · exact Or.inr ⟨a, c, e, b⟩
  · -- B high
    have hB' := not_le.mp hB
    rw [crossesEdge_low_high _ _ i j hA hB', crossesEdge_high_low _ _ i j hB' hC,
      crossesEdge_low_low _ _ i j hC hA, Bool.xor_false, k0, k1] at h
    have hx := xor_decide_eq_true _ _ h
    have := apex_high d n2 (d - n1 - n2) n1 (P 1).2 (P 2).2 (P 0).2 j
      (by linarith) (by linarith) (by linarith) hC hA hB'
      (by rcases hx with ⟨a, b⟩ | ⟨a, b⟩
          · exact Or.inr ⟨b, a⟩
          · exact Or.inl ⟨b, a⟩)
    rcases this with ⟨a, b, c, e⟩ | ⟨a, b, c, e⟩
    · exact Or.inl ⟨a, e, b, c⟩
    · exact Or.inr ⟨a, e, b, c⟩
  · -- A low, B and C high
    have hB' := not_le.mp hB
    have hC' := not_le.mp hC
    rw [crossesEdge_low_high _ _ i j hA hB', crossesEdge_high_high _ _ i j hB' hC',
      crossesEdge_high_low _ _ i j hC' hA, Bool.xor_false, k0, k2] at h
    have hx := xor_decide_eq_true _ _ h
    have := apex_low d n1 n2 (d - n1 - n2) (P 0).2 (P 1).2 (P 2).2 j
      (by linarith) (by linarith) (by linarith) hB' hC' hA hx
    rcases this with ⟨a, b, c, e⟩ | ⟨a, b, c, e⟩
    · exact Or.inl ⟨a, b, c, e⟩
    · exact Or.inr ⟨a, b, c, e⟩
  · -- A high, B and C low
    have hA' := not_le.mp hA
    rw [crossesEdge_high_low _ _ i j hA' hB, crossesEdge_low_low _ _ i j hB hC,
      crossesEdge_low_high _ _ i j hC hA', Bool.xor_false, k0, k2] at h
    have hx := xor_decide_eq_true _ _ h
    have := apex_high d n1 n2 (d - n1 - n2) (P 0).2 (P 1).2 (P 2).2 j
      (by linarith) (by linarith) (by linarith) hB hC hA' hx
    rcases this with ⟨a, b, c, e⟩ | ⟨a, b, c, e⟩
    · exact Or.inl ⟨a, b, c, e⟩
    · exact Or.inr ⟨a, b, c, e⟩
  · -- B low, A and C high
    have hA' := not_le.mp hA
    have hC' := not_le.mp hC
    rw [crossesEdge_high_low _ _ i j hA' hB, crossesEdge_low_high _ _ i j hB hC',
      crossesEdge_high_high _ _ i j hC' hA', Bool.xor_false, k0, k1] at h
    have hx := xor_decide_eq_true _ _ h
    have := apex_low d n2 (d - n1 - n2) n1 (P 1).2 (P 2).2 (P 0).2 j
      (by linarith) (by linarith) (by linarith) hC' hA' hB
      (by rcases hx with ⟨a, b⟩ | ⟨a, b⟩
          · exact Or.inr ⟨b, a⟩
          · exact Or.inl ⟨b, a⟩)
    rcases this with ⟨a, b, c, e⟩ | ⟨a, b, c, e⟩
    · exact Or.inl ⟨a, e, b, c⟩
    · exact Or.inr ⟨a, e, b, c⟩
  · -- C low, A and B high
    have hA' := not_le.mp hA
    have hB' := not_le.mp hB
    rw [crossesEdge_high_high _ _ i j hA' hB', crossesEdge_high_low _ _ i j hB' hC,
      crossesEdge_low_high _ _ i j hC hA', Bool.false_xor, k1, k2] at h
    have hx := xor_decide_eq_true _ _ h
    have := apex_low d (d - n1 - n2) n1 n2 (P 2).2 (P 0).2 (P 1).2 j
      (by linarith) (by linarith) (by linarith) hA' hB' hC
      (by rcases hx with ⟨a, b⟩ | ⟨a, b⟩
          · exact Or.inr ⟨b, a⟩
          · exact Or.inl ⟨b, a⟩)
    rcases this with ⟨a, b, c, e⟩ | ⟨a, b, c, e⟩
    · exact Or.inl ⟨a, c, e, b⟩
    · exact Or.inr ⟨a, c, e, b⟩
  · -- all high
    have hA' := not_le.mp hA
    have hB' := not_le.mp hB
    have hC' := not_le.mp hC
    rw [crossesEdge_high_high _ _ i j hA' hB', crossesEdge_high_high _ _ i j hB' hC',
      crossesEdge_high_high _ _ i j hC' hA'] at h
    exact absurd h (by decide)

theorem baryL1_eq (P : Fin 3 → ℤ × ℤ) (i j : ℤ) :
    baryL1 P i j = (baryN1 P i j : ℚ) / (triangleDet P : ℚ) := rfl

theorem baryL2_eq (P : Fin 3 → ℤ × ℤ) (i j : ℤ) :
    baryL2 P i j = (baryN2 P i j : ℚ) / (triangleDet P : ℚ) := rfl

theorem baryL3_eq (P : Fin 3 → ℤ × ℤ) (i j : ℤ) (hd : triangleDet P ≠ 0) :
    baryL3 P i j =
      ((triangleDet P - baryN1 P i j - baryN2 P i j : ℤ) : ℚ) / (triangleDet P : ℚ) := by
  have hq : (triangleDet P : ℚ) ≠ 0 := Int.cast_ne_zero.mpr hd
  unfold baryL3
  rw [baryL1_eq, baryL2_eq]
  push_cast
  field_simp

/-- With a determinant that is not 0, the weights are the barycentric
coordinates of `(i, j)`: their sum is 1 and they combine the vertices into
`(i, j)`. -/
theorem weights_point (P : Fin 3 → ℤ × ℤ) (i j : ℤ) (hd : triangleDet P ≠ 0) :
    baryL1 P i j + baryL2 P i j + baryL3 P i j = 1 ∧
    (i : ℚ) = baryL1 P i j * ((P 0).1 : ℚ) + baryL2 P i j * ((P 1).1 : ℚ) +
      baryL3 P i j * ((P 2).1 : ℚ) ∧
    (j : ℚ) = baryL1 P i j * ((P 0).2 : ℚ) + baryL2 P i j * ((P 1).2 : ℚ) +
      baryL3 P i j * ((P 2).2 : ℚ) := by
  have hq : (triangleDet P : ℚ) ≠ 0 := Int.cast_ne_zero.mpr hd
  refine ⟨by unfold baryL3; ring, ?_, ?_⟩
  · rw [baryL3_eq P i j hd, baryL1_eq, baryL2_eq]
    field_simp
    unfold baryN1 baryN2 triangleDet
    push_cast
    ring
  · rw [baryL3_eq P i j hd, baryL1_eq, baryL2_eq]
    field_simp
    unfold baryN1 baryN2 triangleDet
    push_cast
    ring

/-- When the inclusion test says `inside`, the determinant is not 0 and the
three weights are non-negative. -/
theorem weights_nonneg (P : Fin 3 → ℤ × ℤ) (i j : ℤ) (h : insideTriangle P i j = true) :
    triangleDet P ≠ 0 ∧ 0 ≤ baryL1 P i j ∧ 0 ≤ baryL2 P i j ∧ 0 ≤ baryL3 P i j := by
  rcases insideTriangle_signs P i j h with ⟨hd, h1, h2, h3⟩ | ⟨hd, h1, h2, h3⟩
  · have hne : triangleDet P ≠ 0 := ne_of_gt hd
    have hq : (0 : ℚ) ≤ (triangleDet P : ℚ) := Int.cast_nonneg.mpr (le_of_lt hd)
    refine ⟨hne, ?_, ?_, ?_⟩
    · rw [baryL1_eq]; exact div_nonneg (Int.cast_nonneg.mpr h1) hq
    · rw [baryL2_eq]; exact div_nonneg (Int.cast_nonneg.mpr h2) hq
    · rw [baryL3_eq P i j hne]; exact div_nonneg (Int.cast_nonneg.mpr h3) hq
  · have hne : triangleDet P ≠ 0 := ne_of_lt hd
    have hq : (triangleDet P : ℚ) ≤ 0 := Int.cast_nonpos.mpr (le_of_lt hd)
    refine ⟨hne, ?_, ?_, ?_⟩
    · rw [baryL1_eq]; exact div_nonneg_of_nonpos (Int.cast_nonpos.mpr h1) hq
    · rw [baryL2_eq]; exact div_nonneg_of_nonpos (Int.cast_nonpos.mpr h2) hq
    · rw [baryL3_eq P i j hne]; exact div_nonneg_of_nonpos (Int.cast_nonpos.mpr h3) hq

/-- A cell that the inclusion test accepts is in the closed triangle. -/
theorem insideTriangle_closed (P : Fin 3 → ℤ × ℤ) (i j : ℤ) (h : insideTriangle P i j = true) :
    InClosedTriangle P i j := by
  obtain ⟨hd, h1, h2, h3⟩ := weights_nonneg P i j h
  obtain ⟨hs, hx, hy⟩ := weights_point P i j hd
  exact ⟨_, _, _, h1, h2, h3, hs, hx, hy⟩

/-- A combination with non-negative weights of sum 1 lies between the least and
the greatest of the three values. -/
theorem combination_bounds (l1 l2 l3 a b c : ℚ) (h1 : 0 ≤ l1) (h2 : 0 ≤ l2) (h3 : 0 ≤ l3)
    (hs : l1 + l2 + l3 = 1) :
    min (min a b) c ≤ l1 * a + l2 * b + l3 * c ∧ l1 * a + l2 * b + l3 * c ≤ max (max a b) c := by
  have ma : min (min a b) c ≤ a := le_trans (min_le_left _ _) (min_le_left _ _)
  have mb : min (min a b) c ≤ b := le_trans (min_le_left _ _) (min_le_right _ _)
  have mc : min (min a b) c ≤ c := min_le_right _ _
  have xa : a ≤ max (max a b) c := le_trans (le_max_left _ _) (le_max_left _ _)
  have xb : b ≤ max (max a b) c := le_trans (le_max_right _ _) (le_max_left _ _)
  have xc : c ≤ max (max a b) c := le_max_right _ _
  constructor
  · have e : min (min a b) c = l1 * min (min a b) c + l2 * min (min a b) c +
        l3 * min (min a b) c := by rw [← add_mul, ← add_mul, hs, one_mul]
    rw [e]
    exact add_le_add (add_le_add (mul_le_mul_of_nonneg_left ma h1)
      (mul_le_mul_of_nonneg_left mb h2)) (mul_le_mul_of_nonneg_left mc h3)
  · have e : max (max a b) c = l1 * max (max a b) c + l2 * max (max a b) c +
        l3 * max (max a b) c := by rw [← add_mul, ← add_mul, hs, one_mul]
    rw [e]
    exact add_le_add (add_le_add (mul_le_mul_of_nonneg_left xa h1)
      (mul_le_mul_of_nonneg_left xb h2)) (mul_le_mul_of_nonneg_left xc h3)

/-! ## The interpolation: the cells that are filled -/

theorem foldl_invariant {α β : Type} (Inv : β → Prop) (f : β → α → β) (l : List α)
    (h : ∀ x ∈ l, ∀ b, Inv b → Inv (f b x)) : ∀ b, Inv b → Inv (l.foldl f b) := by
  induction l with
  | nil => intro b hb; exact hb
  | cons x l ih =>
    intro b hb
    exact ih (fun y hy => h y (List.mem_cons_of_mem _ hy)) _ (h x (List.mem_cons_self _ _) b hb)

theorem mem_intRange (a b v : ℤ) (h : v ∈ intRange a b) : a ≤ v ∧ v ≤ b := by
  unfold intRange at h
  simp only [List.mem_map, List.bind_eq_flatMap, List.mem_flatMap, List.mem_range,
    List.pure_def, List.mem_singleton] at h
  obtain ⟨k, ⟨n, hn, rfl⟩, rfl⟩ := h
  omega

theorem mem_the2DPoints (g : RasterGrid) (p : ℤ × ℤ) (h : p ∈ the2DPoints g) :
    ∃ i j : ℕ, p = ((i : ℤ), (j : ℤ)) ∧ j < g.height ∧ i < g.width ∧
      (g.data j i).nbPoints ≠ 0 := by
  unfold the2DPoints at h
  simp only [List.mem_map, List.bind_eq_flatMap, List.mem_flatMap, List.mem_range,
    List.pure_def, List.mem_singleton, List.mem_filter, decide_eq_true_eq] at h
  obtain ⟨j, hj, i, ⟨n, ⟨hn, hne⟩, rfl⟩, rfl⟩ := h
  exact ⟨n, j, rfl, hj, hn, hne⟩

/-- The vertices of a triangle with valid indexes are non-empty cells of the
grid. -/
theorem triangleVertices_nonEmpty (g : RasterGrid) (tsi : Fin 3 → ℕ)
    (hidx : ∀ k, tsi k < (the2DPoints g).length) (k : Fin 3) :
    ∃ i j : ℕ, triangleVertices (the2DPoints g) tsi k = ((i : ℤ), (j : ℤ)) ∧
      j < g.height ∧ i < g.width ∧ (g.data j i).nbPoints ≠ 0 := by
  unfold triangleVertices
  rw [List.getD_eq_getElem _ _ (hidx k)]
  exact mem_the2DPoints g _ (List.getElem_mem _)

theorem fillCell_invariant (g0 : RasterGrid) (pts : List (ℤ × ℤ)) (tris : List (Fin 3 → ℕ))
    (tsi : Fin 3 → ℕ) (hin : tsi ∈ tris)
    (hv : ∀ k, (g0.data (triangleVertices pts tsi k).2.toNat
      (triangleVertices pts tsi k).1.toNat).nbPoints ≠ 0)
    (i j : ℤ) (hi : 0 ≤ i) (hj : 0 ≤ j) (g : RasterGrid) (h : FillInvariant g0 pts tris g) :
    FillInvariant g0 pts tris (fillCell (triangleVertices pts tsi) g i j) := by
  obtain ⟨hk, hd⟩ := h
  unfold fillCell
  by_cases h1 : (g.data j.toNat i.toNat).nbPoints = 0
  · by_cases h2 : insideTriangle (triangleVertices pts tsi) i j = true
    · rw [if_pos h1, if_pos h2]
      have hg0 : (g0.data j.toNat i.toNat).nbPoints = 0 := by
        by_contra hne
        rw [hk.2.2 _ _ hne] at h1
        exact hne h1
      have heq : g.data j.toNat i.toNat = g0.data j.toNat i.toNat := by
        rcases hd j.toNat i.toNat with e | ⟨_, e, _⟩
        · exact e
        · rw [h1] at e; exact absurd e (by decide)
      have hvh : ∀ k, vertexHeight g (triangleVertices pts tsi) k =
          vertexHeight g0 (triangleVertices pts tsi) k := by
        intro k
        unfold vertexHeight
        rw [hk.2.2 _ _ (hv k)]
      refine ⟨⟨hk.1, hk.2.1, fun j1 i1 hn => ?_⟩, fun j1 i1 => ?_⟩
      · simp only
        rw [if_neg]
        · exact hk.2.2 j1 i1 hn
        · rintro ⟨rfl, rfl⟩
          exact hn hg0
      · by_cases hc : j1 = j.toNat ∧ i1 = i.toNat
        · right
          obtain ⟨rfl, rfl⟩ := hc
          simp only [and_self, if_true]
          refine ⟨hg0, rfl, by rw [heq], tsi, hin, ?_, ?_⟩
          · rw [Int.toNat_of_nonneg hi, Int.toNat_of_nonneg hj]
            exact h2
          · rw [Int.toNat_of_nonneg hi, Int.toNat_of_nonneg hj, hvh 0, hvh 1, hvh 2]
        · simp only
          rw [if_neg hc]
          exact hd j1 i1
    · rw [if_pos h1, if_neg h2]
      exact ⟨hk, hd⟩
  · rw [if_neg h1]
    exact ⟨hk, hd⟩

theorem fillTriangle_invariant (g0 : RasterGrid) (tris : List (Fin 3 → ℕ))
    (tsi : Fin 3 → ℕ) (hin : tsi ∈ tris) (hidx : ∀ k, tsi k < (the2DPoints g0).length)
    (g : RasterGrid) (h : FillInvariant g0 (the2DPoints g0) tris g) :
    FillInvariant g0 (the2DPoints g0) tris (fillTriangle (the2DPoints g0) g tsi) := by
  have hP : ∀ k, 0 ≤ (triangleVertices (the2DPoints g0) tsi k).1 ∧
      0 ≤ (triangleVertices (the2DPoints g0) tsi k).2 ∧
      (g0.data (triangleVertices (the2DPoints g0) tsi k).2.toNat
        (triangleVertices (the2DPoints g0) tsi k).1.toNat).nbPoints ≠ 0 := by
    intro k
    obtain ⟨i, j, e, _, _, hn⟩ := triangleVertices_nonEmpty g0 tsi hidx k
    rw [e]
    exact ⟨Int.natCast_nonneg i, Int.natCast_nonneg j, by simpa using hn⟩
  unfold fillTriangle
  simp only
  refine foldl_invariant (FillInvariant g0 (the2DPoints g0) tris) _ _ ?_ g h
  intro j hj g1 h1
  refine foldl_invariant (FillInvariant g0 (the2DPoints g0) tris) _ _ ?_ g1 h1
  intro i hi g2 h2
  have hi0 := (mem_intRange _ _ _ hi).1
  have hj0 := (mem_intRange _ _ _ hj).1
  refine fillCell_invariant g0 _ tris tsi hin (fun k => (hP k).2.2) i j ?_ ?_ g2 h2
  · exact le_trans (le_min (le_min (hP 0).1 (hP 1).1) (hP 2).1) hi0
  · exact le_trans (le_min (le_min (hP 0).2.1 (hP 1).2.1) (hP 2).2.1) hj0

/-- After the projection of triangles with valid indexes, every cell of the
grid is as before or is filled from one of the triangles. -/
theorem fillTriangles_cells (g : RasterGrid) (tris : List (Fin 3 → ℕ))
    (hidx : ∀ tsi ∈ tris, ∀ k, tsi k < (the2DPoints g).length) :
    FillInvariant g (the2DPoints g) tris (tris.foldl (fillTriangle (the2DPoints g)) g) := by
  refine foldl_invariant (FillInvariant g (the2DPoints g) tris) _ _ ?_ g
    ⟨KeepsCells.refl g, fun _ _ => Or.inl rfl⟩
  intro tsi hin g1 h1
  exact fillTriangle_invariant g tris tsi hin (hidx tsi hin) g1 h1

/-- Every cell after the interpolation step is as before or is filled from a
triangle of the mesh, when the mesh has valid indexes. -/
theorem interpolateEmptyCells_cells (t : Tool) (g : RasterGrid)
    (hmesh : ∀ tris, t.buildMesh (the2DPoints g) = some tris →
      ∀ tsi ∈ tris, ∀ k, tsi k < (the2DPoints g).length) (j i : ℕ) :
    (interpolateEmptyCells t g).data j i = g.data j i ∨
    ∃ tris, t.buildMesh (the2DPoints g) = some tris ∧
      FilledFrom g (the2DPoints g) tris j i ((interpolateEmptyCells t g).data j i) := by
  unfold interpolateEmptyCells
  simp only
  split_ifs
  · cases hb : t.buildMesh (the2DPoints g) with
    | none => exact Or.inl rfl
    | some tris =>
      simp only
      rcases (fillTriangles_cells g tris (hmesh tris hb)).2 j i with e | e
      · exact Or.inl e
      · exact Or.inr ⟨tris, rfl, e⟩
  · exact Or.inl rfl

/-- C13 (counterexample). On `levelGrid` the three non-empty cells `(0, 0)`,
`(0, 3)` and `(1, 3)` have the height 7, and their triangle accepts the empty
cell `(0, 1)`. The exact value of `l1 * valA + l2 * valB + l3 * valC` is 7, but
the doubles give `7 - 2 ^ (-50)` (6.999999999999999): `l1` and `l2` are the
doubles of 2/3 and 1/3, and `l3 = 1.0 - l1 - l2` is `2 ^ (-54)`, not 0. The
height of the filled cell is below the least of the three vertex heights. -/
theorem double_height_below_vertex_heights :
    (the2DPoints levelGrid = [(0, 0), (0, 3), (1, 3)] ∧
      (levelGrid.data 1 0).nbPoints = 0 ∧
      insideTriangle (triangleVertices (the2DPoints levelGrid) fun k => k.val) 0 1 = true) ∧
    (∀ k, vertexHeight levelGrid (triangleVertices (the2DPoints levelGrid) fun k => k.val) k = 7) ∧
    fillHeight levelGrid (triangleVertices (the2DPoints levelGrid) fun k => k.val) 0 1 = 7 ∧
    fillHeightDouble levelGrid (triangleVertices (the2DPoints levelGrid) fun k => k.val) 0 1 =
      7 - 1 / 2 ^ 50 ∧
    fillHeightDouble levelGrid (triangleVertices (the2DPoints levelGrid) fun k => k.val) 0 1 <
      min (min (vertexHeight levelGrid (triangleVertices (the2DPoints levelGrid) fun k => k.val) 0)
        (vertexHeight levelGrid (triangleVertices (the2DPoints levelGrid) fun k => k.val) 1))
        (vertexHeight levelGrid (triangleVertices (the2DPoints levelGrid) fun k => k.val) 2) := by
  refine ⟨by decide!, by decide!, by decide!, by decide!, by decide!⟩

/-- C13 (amended). In exact arithmetic: for every list of triangles whose
vertices are non-empty cells of the grid (valid indexes in `the2DPoints`) and
every cell `(i, j)` that is empty before and non-empty after the projection of
the triangles, one of the triangles accepts `(i, j)` and the exact value of
`l1 * valA + l2 * valB + l3 * valC`, the height given to the cell, lies between
the least and the greatest of the heights of the three vertex cells of this
triangle. -/
theorem interpolated_height_bounds (g : RasterGrid) (tris : List (Fin 3 → ℕ))
    (hidx : ∀ tsi ∈ tris, ∀ k, tsi k < (the2DPoints g).length) (j i : ℕ)
    (h0 : (g.data j i).nbPoints = 0)
    (h1 : ((tris.foldl (fillTriangle (the2DPoints g)) g).data j i).nbPoints ≠ 0) :
    ∃ tsi ∈ tris,
      insideTriangle (triangleVertices (the2DPoints g) tsi) i j = true ∧
      min (min (vertexHeight g (triangleVertices (the2DPoints g) tsi) 0)
          (vertexHeight g (triangleVertices (the2DPoints g) tsi) 1))
          (vertexHeight g (triangleVertices (the2DPoints g) tsi) 2) ≤
        ((tris.foldl (fillTriangle (the2DPoints g)) g).data j i).height ∧
      ((tris.foldl (fillTriangle (the2DPoints g)) g).data j i).height ≤
        max (max (vertexHeight g (triangleVertices (the2DPoints g) tsi) 0)
          (vertexHeight g (triangleVertices (the2DPoints g) tsi) 1))
          (vertexHeight g (triangleVertices (the2DPoints g) tsi) 2) := by
  rcases (fillTriangles_cells g tris hidx).2 j i with e | ⟨_, _, _, tsi, hin, hins, hh⟩
  · rw [e] at h1
    exact absurd h0 h1
  · obtain ⟨_, w1, w2, w3⟩ := weights_nonneg _ _ _ hins
    have hs : baryL1 (triangleVertices (the2DPoints g) tsi) i j +
        baryL2 (triangleVertices (the2DPoints g) tsi) i j +
        baryL3 (triangleVertices (the2DPoints g) tsi) i j = 1 := by
      unfold baryL3; ring
    refine ⟨tsi, hin, hins, ?_⟩
    rw [hh]
    exact combination_bounds _ _ _ _ _ _ w1 w2 w3 hs

/-- Witness of C13 (amended): on `triangleGrid`, the triangle of the three non-empty
cells, of heights 1, 2 and 2, fills the empty cell `(1, 0)` with the height
3/2. -/
theorem interpolated_height_bounds_witness :
    (([fun k : Fin 3 => k.val].foldl (fillTriangle (the2DPoints triangleGrid))
        triangleGrid).data 0 1).height = 3 / 2 ∧
    ∃ tsi ∈ [fun k : Fin 3 => k.val],
      insideTriangle (triangleVertices (the2DPoints triangleGrid) tsi) (1 : ℕ) (0 : ℕ) = true ∧
      min (min (vertexHeight triangleGrid (triangleVertices (the2DPoints triangleGrid) tsi) 0)
          (vertexHeight triangleGrid (triangleVertices (the2DPoints triangleGrid) tsi) 1))
          (vertexHeight triangleGrid (triangleVertices (the2DPoints triangleGrid) tsi) 2) ≤
        (([fun k : Fin 3 => k.val].foldl (fillTriangle (the2DPoints triangleGrid))
          triangleGrid).data 0 1).height ∧
      (([fun k : Fin 3 => k.val].foldl (fillTriangle (the2DPoints triangleGrid))
          triangleGrid).data 0 1).height ≤
        max (max (vertexHeight triangleGrid (triangleVertices (the2DPoints triangleGrid) tsi) 0)
          (vertexHeight triangleGrid (triangleVertices (the2DPoints triangleGrid) tsi) 1))
          (vertexHeight triangleGrid (triangleVertices (the2DPoints triangleGrid) tsi) 2) :=
  ⟨by decide!,
    interpolated_height_bounds triangleGrid [fun k : Fin 3 => k.val]
      (by
        intro tsi htsi k
        rw [List.mem_singleton.mp htsi]
        have hl : (the2DPoints triangleGrid).length = 3 := by decide!
        rw [hl]
        exact k.isLt)
      0 1 (by decide!) (by decide!)⟩

/-- C14. When the mesh has valid indexes (its vertices are non-empty cells),
for every cell `(i, j)`: if its height or its `nbPoints` differs before and
after the interpolation step, the cell was empty, has `nbPoints = 1` after the
step, and `(i, j)` lies in the closed triangle of three cells of the grid that
were non-empty before the step; a cell that was non-empty is unchanged; and a
cell that lies in no closed triangle of three non-empty cells (a cell outside
their convex hull) is unchanged. -/
theorem interpolation_changes_only_hull (t : Tool) (g : RasterGrid)
    (hmesh : ∀ tris, t.buildMesh (the2DPoints g) = some tris →
      ∀ tsi ∈ tris, ∀ k, tsi k < (the2DPoints g).length) (j i : ℕ) :
    (((interpolateEmptyCells t g).data j i).height ≠ (g.data j i).height ∨
        ((interpolateEmptyCells t g).data j i).nbPoints ≠ (g.data j i).nbPoints →
      (g.data j i).nbPoints = 0 ∧ ((interpolateEmptyCells t g).data j i).nbPoints = 1 ∧
      ∃ P : Fin 3 → ℤ × ℤ,
        (∀ k, ∃ ik jk : ℕ, P k = ((ik : ℤ), (jk : ℤ)) ∧ jk < g.height ∧ ik < g.width ∧
          (g.data jk ik).nbPoints ≠ 0) ∧
        InClosedTriangle P i j) ∧
    ((g.data j i).nbPoints ≠ 0 → (interpolateEmptyCells t g).data j i = g.data j i) ∧
    ((¬ ∃ P : Fin 3 → ℤ × ℤ,
        (∀ k, ∃ ik jk : ℕ, P k = ((ik : ℤ), (jk : ℤ)) ∧ jk < g.height ∧ ik < g.width ∧
          (g.data jk ik).nbPoints ≠ 0) ∧
        InClosedTriangle P i j) →
      (interpolateEmptyCells t g).data j i = g.data j i) := by
  have key : (interpolateEmptyCells t g).data j i ≠ g.data j i →
      (g.data j i).nbPoints = 0 ∧ ((interpolateEmptyCells t g).data j i).nbPoints = 1 ∧
      ∃ P : Fin 3 → ℤ × ℤ,
        (∀ k, ∃ ik jk : ℕ, P k = ((ik : ℤ), (jk : ℤ)) ∧ jk < g.height ∧ ik < g.width ∧
          (g.data jk ik).nbPoints ≠ 0) ∧
        InClosedTriangle P i j := by
    intro hne
    rcases interpolateEmptyCells_cells t g hmesh j i with e | ⟨tris, hb, a1, a2, _, tsi, hin, hins, _⟩
    · exact absurd e hne
    · exact ⟨a1, a2, triangleVertices (the2DPoints g) tsi,
        fun k => triangleVertices_nonEmpty g tsi (hmesh tris hb tsi hin) k,
        insideTriangle_closed _ _ _ hins⟩
  refine ⟨fun h => key ?_, (interpolateEmptyCells_keeps t g).2.2 j i, fun h => ?_⟩
  · intro e
    rw [e] at h
    rcases h with h | h <;> exact h rfl
  · by_contra hne
    exact h (key hne).2.2

/-- Witness of C14: on `triangleGrid`, with the triangle of the three
non-empty cells, the interpolation step changes the empty cell `(1, 0)`. -/
theorem interpolation_changes_only_hull_witness :
    ((triangleGrid.data 0 1).nbPoints = 0 ∧
      ((interpolateEmptyCells interpolatingTool triangleGrid).data 0 1).nbPoints = 1) ∧
    ∃ P : Fin 3 → ℤ × ℤ,
      (∀ k, ∃ ik jk : ℕ, P k = ((ik : ℤ), (jk : ℤ)) ∧ jk < triangleGrid.height ∧
        ik < triangleGrid.width ∧ (triangleGrid.data jk ik).nbPoints ≠ 0) ∧
      InClosedTriangle P (1 : ℕ) (0 : ℕ) :=
  ⟨by decide!,
    ((interpolation_changes_only_hull interpolatingTool triangleGrid
      (by
        intro tris hb tsi htsi k
        have hb1 : tris = [fun k : Fin 3 => k.val] := (Option.some.inj hb).symm
        rw [hb1] at htsi
        rw [List.mem_singleton.mp htsi]
        have hl : (the2DPoints triangleGrid).length = 3 := by decide!
        rw [hl]
        exact k.isLt)
      0 1).1 (Or.inr (by decide!))).2.2⟩

/-! ## Lemmas: the conversion of a raw line -/

theorem splitContour_nil (t : Tool) (c : ContourInputs) (g : RasterGrid) (z : ℚ)
    (ok : ℕ → Bool) (n v : ℕ) (poly : List CCVector3) (out : List ContourLine) :
    splitContour t c g z ok n [] v poly out = (poly, out) := rfl

theorem splitContour_cons (t : Tool) (c : ContourInputs) (g : RasterGrid) (z : ℚ)
    (ok : ℕ → Bool) (n v : ℕ) (p : ℚ × ℚ) (rest : List (ℚ × ℚ)) (poly : List CCVector3)
    (out : List ContourLine) :
    splitContour t c g z ok n (p :: rest) v poly out =
      if isOutside c g (p.1 - 1) (p.2 - 1) then
        if poly.length ≠ 0 then
          if poly.length = 1 then
            if ok v then splitContour t c g z ok n rest (v + 1) [] out
            else ([], out)
          else if v + 2 ≥ n then (poly, out)
          else
            if ok v then
              splitContour t c g z ok n rest (v + 1) []
                (out ++ [{ z := z, vertices := poly, closed := false }])
            else ([], out ++ [{ z := z, vertices := poly, closed := false }])
        else splitContour t c g z ok n rest (v + 1) poly out
      else
        splitContour t c g z ok n rest (v + 1)
          (poly ++ [contourPoint t g (p.1 - 1) (p.2 - 1) z]) out := rfl

/-- What the loop on the vertices keeps true: the vertices of the current
polyline satisfy `Q`, and the polylines added have the level `z`, at least 2
vertices, the open state, and vertices that satisfy `Q`; here `Q` holds of the
image of every vertex of the list that is not `outside`. -/
theorem splitContour_invariant (t : Tool) (c : ContourInputs) (g : RasterGrid) (z : ℚ)
    (ok : ℕ → Bool) (n : ℕ) (Q : CCVector3 → Prop) :
    ∀ (verts : List (ℚ × ℚ)) (v : ℕ) (poly : List CCVector3) (out : List ContourLine),
      (∀ p ∈ verts, isOutside c g (p.1 - 1) (p.2 - 1) = false →
        Q (contourPoint t g (p.1 - 1) (p.2 - 1) z)) →
      (∀ P ∈ poly, Q P) →
      (∀ l ∈ out, l.z = z ∧ 2 ≤ l.vertices.length ∧ l.closed = false ∧
        ∀ P ∈ l.vertices, Q P) →
      (∀ P ∈ (splitContour t c g z ok n verts v poly out).1, Q P) ∧
      (∀ l ∈ (splitContour t c g z ok n verts v poly out).2,
        l.z = z ∧ 2 ≤ l.vertices.length ∧ l.closed = false ∧ ∀ P ∈ l.vertices, Q P) := by
  intro verts
  induction verts with
  | nil => intro v poly out _ hp ho; exact ⟨hp, ho⟩
  | cons p rest ih =>
    intro v poly out hv hp ho
    have hrest : ∀ q ∈ rest, isOutside c g (q.1 - 1) (q.2 - 1) = false →
        Q (contourPoint t g (q.1 - 1) (q.2 - 1) z) :=
      fun q hq => hv q (List.mem_cons_of_mem _ hq)
    have hnil : ∀ P ∈ ([] : List CCVector3), Q P := fun P hP => absurd hP (List.not_mem_nil P)
    rw [splitContour_cons]
    by_cases h1 : isOutside c g (p.1 - 1) (p.2 - 1) = true
    · rw [if_pos h1]
      by_cases h2 : poly.length ≠ 0
      · rw [if_pos h2]
        by_cases h3 : poly.length = 1
        · rw [if_pos h3]
          by_cases h4 : ok v = true
          · rw [if_pos h4]; exact ih _ _ _ hrest hnil ho
          · rw [if_neg h4]; exact ⟨hnil, ho⟩
        · rw [if_neg h3]
          have ho1 : ∀ l ∈ out ++ [({ z := z, vertices := poly, closed := false } : ContourLine)],
              l.z = z ∧ 2 ≤ l.vertices.length ∧ l.closed = false ∧ ∀ P ∈ l.vertices, Q P := by
            intro l hl
            rcases List.mem_append.mp hl with hl | hl
            · exact ho l hl
            · rw [List.mem_singleton.mp hl]
              exact ⟨rfl, by simp only; omega, rfl, hp⟩
          by_cases h5 : v + 2 ≥ n
          · rw [if_pos h5]; exact ⟨hp, ho⟩
          · rw [if_neg h5]
            by_cases h4 : ok v = true
            · rw [if_pos h4]; exact ih _ _ _ hrest hnil ho1
            · rw [if_neg h4]; exact ⟨hnil, ho1⟩
      · rw [if_neg h2]; exact ih _ _ _ hrest hp ho
    · rw [if_neg h1]
      refine ih _ _ _ hrest ?_ ho
      intro P hP
      rcases List.mem_append.mp hP with hP | hP
      · exact hp P hP
      · rw [List.mem_singleton.mp hP]
        exact hv p (List.mem_cons_self _ _) (by simpa using h1)

/-- Without the exclusion of the borders, the loop on the vertices adds every
vertex to the current polyline and adds no polyline. -/
theorem splitContour_of_not_ignore (t : Tool) (c : ContourInputs) (g : RasterGrid) (z : ℚ)
    (ok : ℕ → Bool) (n : ℕ) (hb : c.ignoreContourBorders = false) :
    ∀ (verts : List (ℚ × ℚ)) (v : ℕ) (poly : List CCVector3) (out : List ContourLine),
      splitContour t c g z ok n verts v poly out =
        (poly ++ verts.map fun p => contourPoint t g (p.1 - 1) (p.2 - 1) z, out) := by
  intro verts
  induction verts with
  | nil => intro v poly out; rw [splitContour_nil]; simp
  | cons p rest ih =>
    intro v poly out
    have h1 : ¬ isOutside c g (p.1 - 1) (p.2 - 1) = true := by
      unfold isOutside; rw [hb]; simp
    rw [splitContour_cons, if_neg h1, ih, List.map_cons, List.append_assoc]
    rfl

/-- Every polyline added for a raw line has the level `z`, at least 2
vertices, and vertices that are the images of vertices of the raw line that
are not `outside`; it is closed only when it holds as many vertices as the raw
line. -/
theorem convertContour_lines (t : Tool) (c : ContourInputs) (g : RasterGrid) (z : ℚ)
    (ok : ℕ → Bool) (raw : RawContour) :
    ∀ l ∈ convertContour t c g z ok raw,
      l.z = z ∧ 2 ≤ l.vertices.length ∧
      (l.closed = true → l.vertices.length = raw.vertices.length) ∧
      ∀ P ∈ l.vertices, FromInsideVertex t c g z raw P := by
  obtain ⟨h1, h2⟩ := splitContour_invariant t c g z ok raw.vertices.length
    (FromInsideVertex t c g z raw) raw.vertices 0 [] []
    (fun p hp ho => ⟨p, hp, ho, rfl⟩)
    (fun P hP => absurd hP (List.not_mem_nil P))
    (fun l hl => absurd hl (List.not_mem_nil l))
  intro l hl
  unfold convertContour at hl
  simp only at hl
  split_ifs at hl with h3
  · rcases List.mem_append.mp hl with hl | hl
    · obtain ⟨a, b, cl, d⟩ := h2 l hl
      exact ⟨a, b, fun hc => by rw [cl] at hc; exact absurd hc (by decide), d⟩
    · rw [List.mem_singleton.mp hl]
      exact ⟨rfl, h3, fun hc => by simpa using hc, h1⟩
  · obtain ⟨a, b, cl, d⟩ := h2 l hl
    exact ⟨a, b, fun hc => by rw [cl] at hc; exact absurd hc (by decide), d⟩

/-- Without the exclusion of the borders, a raw line of at least 2 vertices
gives one polyline: all its vertices, in order, marked closed. -/
theorem convertContour_of_not_ignore (t : Tool) (c : ContourInputs) (g : RasterGrid) (z : ℚ)
    (ok : ℕ → Bool) (raw : RawContour) (hb : c.ignoreContourBorders = false)
    (h2 : 2 ≤ raw.vertices.length) :
    convertContour t c g z ok raw = [wholeLine t g z raw] := by
  unfold convertContour
  simp only
  rw [splitContour_of_not_ignore t c g z ok _ hb]
  simp only [List.nil_append, List.length_map]
  rw [if_pos (by omega)]
  simp [wholeLine]

/-! ## Lemmas: the loops on the raw lines and on the levels -/

theorem convertContours_nil (t : Tool) (c : ContourInputs) (g : RasterGrid) (z : ℚ) (k i : ℕ)
    (out : List ContourLine) : convertContours t c g z k [] i out = (out, false) := rfl

theorem convertContours_cons (t : Tool) (c : ContourInputs) (g : RasterGrid) (z : ℚ) (k i : ℕ)
    (raw : RawContour) (rest : List RawContour) (out : List ContourLine) :
    convertContours t c g z k (raw :: rest) i out =
      if (raw.vertices.length : ℤ) ≥ c.minVertexCount then
        if c.reserved k i 0 then
          convertContours t c g z k rest (i + 1)
            (out ++ convertContour t c g z (c.reserved k i) raw)
        else (out, true)
      else convertContours t c g z k rest (i + 1) out := rfl

/-- A property of the polylines of every raw line that passes the test on the
number of vertices holds of the polylines that the loop on the raw lines
adds. -/
theorem convertContours_all (t : Tool) (c : ContourInputs) (g : RasterGrid) (z : ℚ) (k : ℕ)
    (Q : ContourLine → Prop) :
    ∀ (raws : List RawContour) (i : ℕ) (out : List ContourLine),
      (∀ raw ∈ raws, (raw.vertices.length : ℤ) ≥ c.minVertexCount →
        ∀ ok, ∀ l ∈ convertContour t c g z ok raw, Q l) →
      (∀ l ∈ out, Q l) →
      ∀ l ∈ (convertContours t c g z k raws i out).1, Q l := by
  intro raws
  induction raws with
  | nil => intro i out _ ho; exact ho
  | cons raw rest ih =>
    intro i out hr ho
    have hrest : ∀ r ∈ rest, (r.vertices.length : ℤ) ≥ c.minVertexCount →
        ∀ ok, ∀ l ∈ convertContour t c g z ok r, Q l :=
      fun r hr1 => hr r (List.mem_cons_of_mem _ hr1)
    rw [convertContours_cons]
    by_cases h1 : (raw.vertices.length : ℤ) ≥ c.minVertexCount
    · rw [if_pos h1]
      by_cases h2 : c.reserved k i 0 = true
      · rw [if_pos h2]
        refine ih _ _ hrest ?_
        intro l hl
        rcases List.mem_append.mp hl with hl | hl
        · exact ho l hl
        · exact hr raw (List.mem_cons_self _ _) h1 _ l hl
      · rw [if_neg h2]; exact ho
    · rw [if_neg h1]; exact ih _ _ hrest ho

/-- The loop on the raw lines ends without memory error when the first
`reserve` calls of every line succeed. -/
theorem convertContours_no_error (t : Tool) (c : ContourInputs) (g : RasterGrid) (z : ℚ)
    (k : ℕ) (hr : ∀ i, c.reserved k i 0 = true) :
    ∀ (raws : List RawContour) (i : ℕ) (out : List ContourLine),
      (convertContours t c g z k raws i out).2 = false := by
  intro raws
  induction raws with
  | nil => intro i out; rfl
  | cons raw rest ih =>
    intro i out
    rw [convertContours_cons]
    split_ifs with h1 h2
    · exact ih _ _
    · exact absurd (hr i) h2
    · exact ih _ _

theorem levelLoop_zero (t : Tool) (c : ContourInputs) (g : RasterGrid) (z : ℚ) (k : ℕ)
    (lines : List ContourLine) (levels : List ℚ) :
    levelLoop t c g 0 z k lines levels = none := rfl

theorem levelLoop_succ (t : Tool) (c : ContourInputs) (g : RasterGrid) (fuel : ℕ) (z : ℚ)
    (k : ℕ) (lines : List ContourLine) (levels : List ℚ) :
    levelLoop t c g (fuel + 1) z k lines levels =
      if z ≤ g.maxHeight then
        if (convertContours t c g z k (rawContours t c g z) 0 []).2 then
          some (true, lines ++ (convertContours t c g z k (rawContours t c g z) 0 []).1,
            levels ++ [z])
        else if c.oneStep k then
          levelLoop t c g fuel (z + c.contourStep) (k + 1)
            (lines ++ (convertContours t c g z k (rawContours t c g z) 0 []).1) (levels ++ [z])
        else
          some (false, lines ++ (convertContours t c g z k (rawContours t c g z) 0 []).1,
            levels ++ [z])
      else some (false, lines, levels) := rfl

/-- A property of the polylines of every raw line of every level that passes
the test on the number of vertices holds of all the lines after the loop on
the levels. -/
theorem levelLoop_all (t : Tool) (c : ContourInputs) (g : RasterGrid)
    (Q : ContourLine → Prop)
    (hQ : ∀ z, ∀ raw ∈ rawContours t c g z, (raw.vertices.length : ℤ) ≥ c.minVertexCount →
      ∀ ok, ∀ l ∈ convertContour t c g z ok raw, Q l) :
    ∀ (fuel : ℕ) (z : ℚ) (k : ℕ) (lines : List ContourLine) (levels : List ℚ)
      (r : Bool × List ContourLine × List ℚ),
      levelLoop t c g fuel z k lines levels = some r →
      (∀ l ∈ lines, Q l) → ∀ l ∈ r.2.1, Q l := by
  intro fuel
  induction fuel with
  | zero => intro z k lines levels r h; rw [levelLoop_zero] at h; exact absurd h (by simp)
  | succ fuel ih =>
    intro z k lines levels r h hl
    rw [levelLoop_succ] at h
    have hnew : ∀ l ∈ lines ++ (convertContours t c g z k (rawContours t c g z) 0 []).1, Q l := by
      intro l hm
      rcases List.mem_append.mp hm with hm | hm
      · exact hl l hm
      · exact convertContours_all t c g z k Q _ 0 [] (hQ z)
          (fun l hl0 => absurd hl0 (List.not_mem_nil l)) l hm
    split_ifs at h with h1 h2 h3
    · rw [← Option.some.inj h]; exact hnew
    · exact ih _ _ _ _ r h hnew
    · rw [← Option.some.inj h]; exact hnew
    · rw [← Option.some.inj h]; exact hl

/-- Without the exclusion of the borders, a polyline added for a raw line has
as many vertices as the raw line. -/
theorem convertContour_length_of_not_ignore (t : Tool) (c : ContourInputs) (g : RasterGrid)
    (z : ℚ) (ok : ℕ → Bool) (raw : RawContour) (hb : c.ignoreContourBorders = false) :
    ∀ l ∈ convertContour t c g z ok raw, l.vertices.length = raw.vertices.length := by
  intro l hl
  by_cases h2 : 2 ≤ raw.vertices.length
  · rw [convertContour_of_not_ignore t c g z ok raw hb h2] at hl
    rw [List.mem_singleton.mp hl]
    simp [wholeLine]
  · unfold convertContour at hl
    simp only at hl
    rw [splitContour_of_not_ignore t c g z ok _ hb] at hl
    simp only [List.nil_append, List.length_map] at hl
    rw [if_neg (by omega)] at hl
    exact absurd hl (List.not_mem_nil l)

/-- With enough fuel, no memory error and no cancellation, the loop on the
levels ends, and the levels it adds are `z + m * contourStep` for the `n` first
values of `m`, when `n` is the first number of steps that goes above
`maxHeight`. -/
theorem levelLoop_levels (t : Tool) (c : ContourInputs) (g : RasterGrid)
    (hr : ∀ k i, c.reserved k i 0 = true) (ho : ∀ k, c.oneStep k = true) :
    ∀ (n fuel : ℕ) (z : ℚ) (k : ℕ) (lines : List ContourLine) (levels : List ℚ),
      n < fuel →
      (∀ m : ℕ, m < n → z + (m : ℚ) * c.contourStep ≤ g.maxHeight) →
      g.maxHeight < z + (n : ℚ) * c.contourStep →
      ∃ ls, levelLoop t c g fuel z k lines levels =
        some (false, ls,
          levels ++ (List.range n).map fun m : ℕ => z + (m : ℚ) * c.contourStep) := by
  intro n
  induction n with
  | zero =>
    intro fuel z k lines levels hf _ hgt
    obtain ⟨f, rfl⟩ : ∃ f, fuel = f + 1 := ⟨fuel - 1, by omega⟩
    have h1 : ¬ z ≤ g.maxHeight := by
      simp only [Nat.cast_zero, zero_mul, add_zero] at hgt
      exact not_le.mpr hgt
    rw [levelLoop_succ, if_neg h1]
    exact ⟨lines, by simp⟩
  | succ n ih =>
    intro fuel z k lines levels hf hle hgt
    obtain ⟨f, rfl⟩ : ∃ f, fuel = f + 1 := ⟨fuel - 1, by omega⟩
    have h1 : z ≤ g.maxHeight := by
      have := hle 0 (Nat.succ_pos n)
      simpa using this
    have h2 : ¬ (convertContours t c g z k (rawContours t c g z) 0 []).2 = true := by
      rw [convertContours_no_error t c g z k (hr k)]; decide
    rw [levelLoop_succ, if_pos h1, if_neg h2, if_pos (ho k)]
    obtain ⟨ls, e⟩ := ih f (z + c.contourStep) (k + 1)
      (lines ++ (convertContours t c g z k (rawContours t c g z) 0 []).1) (levels ++ [z])
      (by omega)
      (fun m hm => by
        have := hle (m + 1) (by omega)
        push_cast at this
        linarith)
      (by push_cast at hgt; linarith)
    refine ⟨ls, ?_⟩
    rw [e, List.range_succ_eq_map, List.map_cons, List.map_map, List.append_assoc]
    have e1 : (List.range n).map (fun m : ℕ => z + c.contourStep + (m : ℚ) * c.contourStep) =
        (List.range n).map ((fun m : ℕ => z + (m : ℚ) * c.contourStep) ∘ Nat.succ) := by
      apply List.map_congr_left
      intro m _
      simp only [Function.comp_apply, Nat.cast_succ]
      ring
    rw [e1]
    simp

/-- For a start that is not above `maxHeight` and a positive step,
`levelCount` is the first number of steps from the start that goes above
`maxHeight`. -/
theorem levelCount_steps (c : ContourInputs) (g : RasterGrid)
    (hs : c.contourStart ≤ g.maxHeight) (hstep : 0 < c.contourStep) :
    (∀ m : ℕ, m < levelCount c g → c.contourStart + (m : ℚ) * c.contourStep ≤ g.maxHeight) ∧
    g.maxHeight < c.contourStart + (levelCount c g : ℚ) * c.contourStep := by
  have hq : 0 ≤ (g.maxHeight - c.contourStart) / c.contourStep :=
    div_nonneg (by linarith) hstep.le
  have hfl : 0 ≤ ⌊(g.maxHeight - c.contourStart) / c.contourStep⌋ := Int.floor_nonneg.mpr hq
  have hn : ((levelCount c g : ℕ) : ℤ) = 1 + ⌊(g.maxHeight - c.contourStart) / c.contourStep⌋ := by
    unfold levelCount
    rw [Nat.cast_add, Int.toNat_of_nonneg hfl]
    rfl
  constructor
  · intro m hm
    have h1 : (m : ℤ) ≤ ⌊(g.maxHeight - c.contourStart) / c.contourStep⌋ := by
      have : (m : ℤ) < (levelCount c g : ℤ) := by exact_mod_cast hm
      omega
    have h2 : ((m : ℤ) : ℚ) ≤ (g.maxHeight - c.contourStart) / c.contourStep :=
      Int.le_floor.mp h1
    have h3 := (le_div_iff₀ hstep).mp h2
    simp only [Int.cast_natCast] at h3
    linarith
  · have h1 := Int.lt_floor_add_one ((g.maxHeight - c.contourStart) / c.contourStep)
    have h2 : ((levelCount c g : ℕ) : ℚ) =
        (⌊(g.maxHeight - c.contourStart) / c.contourStep⌋ : ℚ) + 1 := by
      have := congrArg (fun x : ℤ => (x : ℚ)) hn
      simp only [Int.cast_natCast, Int.cast_add, Int.cast_one] at this
      rw [this]; ring
    rw [← h2] at h1
    have h3 := (div_lt_iff₀ hstep).mp h1
    linarith

/-! ## Lemmas: `generateContours` -/

/-- On a valid grid with a start that is not above `maxHeight`,
`generateContours` either ends on a memory error with no line, or ends with the
lines and the levels of the loop on the levels. -/
theorem generateContours_traced (t : Tool) (c : ContourInputs) (g : RasterGrid)
    (m : List ContourLine) (fuel : ℕ) (r : ContourResult) (hv : g.valid = true)
    (hs : c.contourStart ≤ g.maxHeight) (h : generateContours t c g m fuel = some r) :
    (r.status = .notEnoughMemory ∧ r.lines = []) ∨
    (r.status = .done ∧
      levelLoop t c g fuel c.contourStart 0 [] [] = some (false, r.lines, r.levels)) := by
  unfold generateContours at h
  rw [if_neg (by rw [hv]; decide), if_neg (not_lt.mpr hs)] at h
  by_cases ha : c.gridAllocated = false
  · rw [if_pos ha] at h
    rw [← Option.some.inj h]
    exact Or.inl ⟨rfl, rfl⟩
  · rw [if_neg ha] at h
    cases hl : levelLoop t c g fuel c.contourStart 0 [] [] with
    | none => rw [hl] at h; exact absurd h (by simp)
    | some x =>
      obtain ⟨b, ls, lv⟩ := x
      rw [hl] at h
      simp only at h
      cases b with
      | true =>
        rw [if_pos rfl] at h
        rw [← Option.some.inj h]
        exact Or.inl ⟨rfl, rfl⟩
      | false =>
        rw [if_neg (by decide)] at h
        rw [← Option.some.inj h]
        exact Or.inr ⟨rfl, rfl⟩

/-- An outcome `done` comes from a valid grid and a start that is not above
`maxHeight`. -/
theorem generateContours_done (t : Tool) (c : ContourInputs) (g : RasterGrid)
    (m : List ContourLine) (fuel : ℕ) (r : ContourResult)
    (h : generateContours t c g m fuel = some r) (hd : r.status = .done) :
    g.valid = true ∧ c.contourStart ≤ g.maxHeight := by
  unfold generateContours at h
  by_cases hv : g.valid = false
  · rw [if_pos hv] at h
    rw [← Option.some.inj h] at hd
    exact ContourStatus.noConfusion hd
  · rw [if_neg hv] at h
    by_cases hs : c.contourStart > g.maxHeight
    · rw [if_pos hs] at h
      rw [← Option.some.inj h] at hd
      exact ContourStatus.noConfusion hd
    · exact ⟨by simpa using hv, not_lt.mp hs⟩

/-- A property of the polylines of every raw line of every level that passes
the test on the number of vertices holds of all the lines that
`generateContours` leaves, on a valid grid with a start that is not above
`maxHeight`. -/
theorem generateContours_all (t : Tool) (c : ContourInputs) (g : RasterGrid)
    (m : List ContourLine) (fuel : ℕ) (r : ContourResult) (Q : ContourLine → Prop)
    (hQ : ∀ z, ∀ raw ∈ rawContours t c g z, (raw.vertices.length : ℤ) ≥ c.minVertexCount →
      ∀ ok, ∀ l ∈ convertContour t c g z ok raw, Q l)
    (hv : g.valid = true) (hs : c.contourStart ≤ g.maxHeight)
    (h : generateContours t c g m fuel = some r) : ∀ l ∈ r.lines, Q l := by
  rcases generateContours_traced t c g m fuel r hv hs h with ⟨_, h1⟩ | ⟨_, h1⟩
  · rw [h1]; intro l hl; exact absurd hl (List.not_mem_nil l)
  · exact levelLoop_all t c g Q hQ fuel _ 0 [] [] _ h1
      (fun l hl => absurd hl (List.not_mem_nil l))

/-! ## The contour lines: borders and number of vertices -/

/-- C16. On a valid grid with a start that is not above `maxHeight`, when
`ignoreContourBorders` is checked, every vertex of every line that
`generateContours` leaves is the image `contourPoint` of a vertex of a raw line
of the level of that line whose unpadded column `x` and row `y` satisfy none of
`x < 1`, `y < 1`, `x ≥ width - 1`, `y ≥ height - 1`. -/
theorem no_vertex_on_border (t : Tool) (c : ContourInputs) (g : RasterGrid)
    (m : List ContourLine) (fuel : ℕ) (r : ContourResult)
    (hb : c.ignoreContourBorders = true) (hv : g.valid = true)
    (hs : c.contourStart ≤ g.maxHeight) (h : generateContours t c g m fuel = some r) :
    ∀ l ∈ r.lines, ∀ P ∈ l.vertices, ∃ raw ∈ rawContours t c g l.z, ∃ p ∈ raw.vertices,
      ¬ (p.1 - 1 < 1 ∨ p.2 - 1 < 1 ∨ p.1 - 1 ≥ (g.width : ℚ) - 1 ∨
        p.2 - 1 ≥ (g.height : ℚ) - 1) ∧
      P = contourPoint t g (p.1 - 1) (p.2 - 1) l.z := by
  refine generateContours_all t c g m fuel r _ ?_ hv hs h
  intro z raw hraw _ ok l hl P hP
  obtain ⟨hz, _, _, hin⟩ := convertContour_lines t c g z ok raw l hl
  obtain ⟨p, hp, ho, e⟩ := hin P hP
  rw [hz]
  refine ⟨raw, hraw, p, hp, ?_, e⟩
  unfold isOutside at ho
  rw [hb, Bool.true_and, decide_eq_false_iff_not] at ho
  intro hc
  apply ho
  rcases hc with hc | hc | hc | hc
  · exact Or.inl hc
  · exact Or.inr (Or.inl hc)
  · exact Or.inr (Or.inr (Or.inl (by linarith)))
  · exact Or.inr (Or.inr (Or.inr (by linarith)))

/-- Witness of C16: the level 15/2 on `rampGrid` with the raw line
`ringContour` and the borders ignored; one line is left. -/
theorem no_vertex_on_border_witness :
    ∃ r, generateContours rampTool borderInputs rampGrid [] 2 = some r ∧ r.lines.length = 1 ∧
      ∀ l ∈ r.lines, ∀ P ∈ l.vertices,
        ∃ raw ∈ rawContours rampTool borderInputs rampGrid l.z, ∃ p ∈ raw.vertices,
          ¬ (p.1 - 1 < 1 ∨ p.2 - 1 < 1 ∨ p.1 - 1 ≥ (rampGrid.width : ℚ) - 1 ∨
            p.2 - 1 ≥ (rampGrid.height : ℚ) - 1) ∧
          P = contourPoint rampTool rampGrid (p.1 - 1) (p.2 - 1) l.z :=
  ⟨Option.get (generateContours rampTool borderInputs rampGrid [] 2) (by decide!),
    (Option.some_get _).symm, by decide!,
    no_vertex_on_border rampTool borderInputs rampGrid [] 2 _ rfl (by decide!) (by decide!)
      (Option.some_get _).symm⟩

/-- C17 (counterexample). With `minVertexCount = 3` and the borders ignored,
the raw line `ringContour` of 12 vertices gives, at the level 15/2 of
`rampGrid`, one line of 2 vertices. -/
theorem split_fragment_below_minVertexCount :
    borderInputs.minVertexCount = 3 ∧ borderInputs.ignoreContourBorders = true ∧
    (generateContours rampTool borderInputs rampGrid [] 2).map
      (fun r => r.lines.map fun l => l.vertices.length) = some [2] := by
  decide!

/-- C17 (amended). On a valid grid with a start that is not above
`maxHeight`, every line that `generateContours` leaves has at least 2 vertices
and is made of vertices of a raw line of its level with at least
`minVertexCount` vertices; when the borders are not ignored the line itself
has at least `minVertexCount` vertices. -/
theorem emitted_line_sizes (t : Tool) (c : ContourInputs) (g : RasterGrid)
    (m : List ContourLine) (fuel : ℕ) (r : ContourResult) (hv : g.valid = true)
    (hs : c.contourStart ≤ g.maxHeight) (h : generateContours t c g m fuel = some r) :
    ∀ l ∈ r.lines, 2 ≤ l.vertices.length ∧
      (∃ raw ∈ rawContours t c g l.z, c.minVertexCount ≤ (raw.vertices.length : ℤ) ∧
        ∀ P ∈ l.vertices, FromInsideVertex t c g l.z raw P) ∧
      (c.ignoreContourBorders = false → c.minVertexCount ≤ (l.vertices.length : ℤ)) := by
  refine generateContours_all t c g m fuel r _ ?_ hv hs h
  intro z raw hraw hlen ok l hl
  obtain ⟨hz, h2, _, hin⟩ := convertContour_lines t c g z ok raw l hl
  rw [hz]
  refine ⟨h2, ⟨raw, hraw, hlen, hin⟩, ?_⟩
  intro hb
  rw [convertContour_length_of_not_ignore t c g z ok raw hb l hl]
  exact hlen

/-- Witness of C17 (amended): the level 15/2 on `rampGrid` with the raw line
`ringContour` and the borders kept; one line is left. -/
theorem emitted_line_sizes_witness :
    ∃ r, generateContours rampTool wholeInputs rampGrid [] 2 = some r ∧ r.lines.length = 1 ∧
      ∀ l ∈ r.lines, 2 ≤ l.vertices.length ∧
        (∃ raw ∈ rawContours rampTool wholeInputs rampGrid l.z,
          wholeInputs.minVertexCount ≤ (raw.vertices.length : ℤ) ∧
          ∀ P ∈ l.vertices, FromInsideVertex rampTool wholeInputs rampGrid l.z raw P) ∧
        (wholeInputs.ignoreContourBorders = false →
          wholeInputs.minVertexCount ≤ (l.vertices.length : ℤ)) :=
  ⟨Option.get (generateContours rampTool wholeInputs rampGrid [] 2) (by decide!),
    (Option.some_get _).symm, by decide!,
    emitted_line_sizes rampTool wholeInputs rampGrid [] 2 _ (by decide!) (by decide!)
      (Option.some_get _).symm⟩

/-! ## The contour lines: the start and the levels -/

/-- C18. On a valid grid, an outcome of `generateContours` is
`startAboveRange` exactly when `contourStart > maxHeight`; and when
`contourStart > maxHeight`, `generateContours` returns with that outcome, no
level traced, and `m_contourLines` as it was before the call: no line is
added. -/
theorem start_above_range (t : Tool) (c : ContourInputs) (g : RasterGrid)
    (m : List ContourLine) (fuel : ℕ) (hv : g.valid = true) :
    (∀ r, generateContours t c g m fuel = some r →
      (r.status = .startAboveRange ↔ c.contourStart > g.maxHeight)) ∧
    (c.contourStart > g.maxHeight →
      generateContours t c g m fuel =
        some { status := .startAboveRange, lines := m, levels := [] }) := by
  have hv1 : ¬ g.valid = false := by rw [hv]; decide
  constructor
  · intro r h
    constructor
    · intro hst
      by_contra hs
      rcases generateContours_traced t c g m fuel r hv (not_lt.mp hs) h with ⟨h1, _⟩ | ⟨h1, _⟩
      · rw [h1] at hst; exact ContourStatus.noConfusion hst
      · rw [h1] at hst; exact ContourStatus.noConfusion hst
    · intro hs
      unfold generateContours at h
      rw [if_neg hv1, if_pos hs] at h
      rw [← Option.some.inj h]
  · intro hs
    unfold generateContours
    rw [if_neg hv1, if_pos hs]

/-- Witness of C18: `flatGrid` has the constant height 5, and a start of 6
gives the outcome `startAboveRange` and no line. -/
theorem start_above_range_witness :
    flatGrid.valid = true ∧ flatGrid.minHeight = 5 ∧ flatGrid.maxHeight = 5 ∧
    highStartInputs.contourStart = 6 ∧
    generateContours flatTool highStartInputs flatGrid [] 2 =
      some { status := .startAboveRange, lines := [], levels := [] } :=
  ⟨by decide!, by decide!, by decide!, rfl,
    (start_above_range flatTool highStartInputs flatGrid [] 2 (by decide!)).2 (by decide!)⟩

theorem levelLoopDouble_succ (t : Tool) (c : ContourInputs) (g : RasterGrid) (fuel : ℕ) (z : ℚ)
    (k : ℕ) (lines : List ContourLine) (levels : List ℚ) :
    levelLoopDouble t c g (fuel + 1) z k lines levels =
      if z ≤ g.maxHeight then
        if (convertContours t c g z k (rawContours t c g z) 0 []).2 then
          some (true, lines ++ (convertContours t c g z k (rawContours t c g z) 0 []).1,
            levels ++ [z])
        else if c.oneStep k then
          levelLoopDouble t c g fuel (roundDouble (z + c.contourStep)) (k + 1)
            (lines ++ (convertContours t c g z k (rawContours t c g z) 0 []).1) (levels ++ [z])
        else
          some (false, lines ++ (convertContours t c g z k (rawContours t c g z) 0 []).1,
            levels ++ [z])
      else some (false, lines, levels) := rfl

/-- With enough fuel, no memory error and no cancellation, when the sums of the
loop are exact (each `z + m * contourStep`, `m ≤ n`, is a double), the loop on
the levels in doubles ends and adds the levels `z + m * contourStep` for the
`n` first values of `m`, when `n` is the first number of steps that goes above
`maxHeight`. -/
theorem levelLoopDouble_levels (t : Tool) (c : ContourInputs) (g : RasterGrid)
    (hr : ∀ k i, c.reserved k i 0 = true) (ho : ∀ k, c.oneStep k = true) :
    ∀ (n fuel : ℕ) (z : ℚ) (k : ℕ) (lines : List ContourLine) (levels : List ℚ),
      n < fuel →
      (∀ m : ℕ, m ≤ n → roundDouble (z + (m : ℚ) * c.contourStep) = z + (m : ℚ) * c.contourStep) →
      (∀ m : ℕ, m < n → z + (m : ℚ) * c.contourStep ≤ g.maxHeight) →
      g.maxHeight < z + (n : ℚ) * c.contourStep →
      ∃ ls, levelLoopDouble t c g fuel z k lines levels =
        some (false, ls,
          levels ++ (List.range n).map fun m : ℕ => z + (m : ℚ) * c.contourStep) := by
  intro n
  induction n with
  | zero =>
    intro fuel z k lines levels hf _ _ hgt
    obtain ⟨f, rfl⟩ : ∃ f, fuel = f + 1 := ⟨fuel - 1, by omega⟩
    have h1 : ¬ z ≤ g.maxHeight := by
      simp only [Nat.cast_zero, zero_mul, add_zero] at hgt
      exact not_le.mpr hgt
    rw [levelLoopDouble_succ, if_neg h1]
    exact ⟨lines, by simp⟩
  | succ n ih =>
    intro fuel z k lines levels hf hex hle hgt
    obtain ⟨f, rfl⟩ : ∃ f, fuel = f + 1 := ⟨fuel - 1, by omega⟩
    have h1 : z ≤ g.maxHeight := by
      have := hle 0 (Nat.succ_pos n)
      simpa using this
    have h2 : ¬ (convertContours t c g z k (rawContours t c g z) 0 []).2 = true := by
      rw [convertContours_no_error t c g z k (hr k)]; decide
    have hz : roundDouble (z + c.contourStep) = z + c.contourStep := by
      have := hex 1 (by omega)
      simpa using this
    rw [levelLoopDouble_succ, if_pos h1, if_neg h2, if_pos (ho k), hz]
    obtain ⟨ls, e⟩ := ih f (z + c.contourStep) (k + 1)
      (lines ++ (convertContours t c g z k (rawContours t c g z) 0 []).1) (levels ++ [z])
      (by omega)
      (fun m hm => by
        have := hex (m + 1) (by omega)
        push_cast at this
        rw [show z + c.contourStep + (m : ℚ) * c.contourStep =
          z + ((m : ℚ) + 1) * c.contourStep by ring]
        exact this)
      (fun m hm => by
        have := hle (m + 1) (by omega)
        push_cast at this
        linarith)
      (by push_cast at hgt; linarith)
    refine ⟨ls, ?_⟩
    rw [e, List.range_succ_eq_map, List.map_cons, List.map_map, List.append_assoc]
    have e1 : (List.range n).map (fun m : ℕ => z + c.contourStep + (m : ℚ) * c.contourStep) =
        (List.range n).map ((fun m : ℕ => z + (m : ℚ) * c.contourStep) ∘ Nat.succ) := by
      apply List.map_congr_left
      intro m _
      simp only [Function.comp_apply, Nat.cast_succ]
      ring
    rw [e1]
    simp

/-- C19 (counterexample). On the valid grid `halfGrid`, of maximum height 1/2,
with the start -0.1 and the step 0.1 (as doubles), `levelCount` is 6, in exact
arithmetic and in doubles, and the sixth sum `start + 6 * step` is above 1/2;
but the loop in doubles adds the step to the rounded level: it traces 7
levels, the last of which is 1/2. -/
theorem double_loop_traces_seven_levels :
    (halfGrid.valid = true ∧ halfGrid.maxHeight = 1 / 2 ∧
      tenthInputs.contourStart = roundDouble (-1 / 10) ∧
      tenthInputs.contourStep = roundDouble (1 / 10) ∧
      tenthInputs.contourStart ≤ halfGrid.maxHeight ∧ 0 < tenthInputs.contourStep) ∧
    (levelCount tenthInputs halfGrid = 6 ∧ levelCountDouble tenthInputs halfGrid = 6 ∧
      halfGrid.maxHeight < tenthInputs.contourStart + 6 * tenthInputs.contourStep) ∧
    (levelLoopDouble halfTool tenthInputs halfGrid 8 tenthInputs.contourStart 0 [] []).map
        (fun r => (r.1, r.2.2)) =
      some (false,
        [roundDouble (-1 / 10), 0, roundDouble (1 / 10), roundDouble (2 / 10),
          1351079888211149 / 4503599627370496, roundDouble (4 / 10), 1 / 2]) := by
  refine ⟨by decide!, by decide!, by decide!⟩

/-- C19 (amended). On a valid grid, for a start that is not above `maxHeight`
and a positive step, when the allocations succeed and the user never cancels:
in exact arithmetic, `generateContours` ends (for every fuel above
`levelCount`) with the outcome `done`, and the levels given to the tracer are
`contourStart + k * contourStep` for `k = 0, ..., levelCount - 1`, in order,
where `levelCount = 1 + floor((maxHeight - contourStart) / contourStep)`; and
the loop in doubles ends with the same levels when its sums are exact (each
`contourStart + k * contourStep`, `k ≤ levelCount`, is a double). -/
theorem traced_levels_when_exact (t : Tool) (c : ContourInputs) (g : RasterGrid)
    (m : List ContourLine) (fuel : ℕ) (hv : g.valid = true)
    (hs : c.contourStart ≤ g.maxHeight) (hstep : 0 < c.contourStep)
    (ha : c.gridAllocated = true) (hr : ∀ k i, c.reserved k i 0 = true)
    (ho : ∀ k, c.oneStep k = true) (hf : levelCount c g < fuel) :
    (levelCount c g : ℤ) = 1 + ⌊(g.maxHeight - c.contourStart) / c.contourStep⌋ ∧
    (∃ r, generateContours t c g m fuel = some r ∧ r.status = .done ∧
      r.levels =
        (List.range (levelCount c g)).map
          fun k : ℕ => c.contourStart + (k : ℚ) * c.contourStep) ∧
    ((∀ k : ℕ, k ≤ levelCount c g →
        roundDouble (c.contourStart + (k : ℚ) * c.contourStep) =
          c.contourStart + (k : ℚ) * c.contourStep) →
      ∃ ls, levelLoopDouble t c g fuel c.contourStart 0 [] [] =
        some (false, ls,
          (List.range (levelCount c g)).map
            fun k : ℕ => c.contourStart + (k : ℚ) * c.contourStep)) := by
  obtain ⟨h1, h2⟩ := levelCount_steps c g hs hstep
  refine ⟨?_, ?_, ?_⟩
  · unfold levelCount
    rw [Nat.cast_add, Int.toNat_of_nonneg
      (Int.floor_nonneg.mpr (div_nonneg (by linarith) hstep.le))]
    rfl
  · obtain ⟨ls, e⟩ := levelLoop_levels t c g hr ho (levelCount c g) fuel c.contourStart 0 [] []
      hf h1 h2
    have e2 : generateContours t c g m fuel = some (ContourResult.mk .done ls
        ((List.range (levelCount c g)).map
          fun k : ℕ => c.contourStart + (k : ℚ) * c.contourStep)) := by
      unfold generateContours
      rw [if_neg (by rw [hv]; decide), if_neg (not_lt.mpr hs), if_neg (by rw [ha]; decide), e]
      simp
    exact ⟨_, e2, rfl, rfl⟩
  · intro hex
    obtain ⟨ls, e⟩ := levelLoopDouble_levels t c g hr ho (levelCount c g) fuel c.contourStart 0
      [] [] hf hex h1 h2
    exact ⟨ls, by rw [e, List.nil_append]⟩

/-- Witness of C19 (amended): `rampGrid` has the maximum height 15; with the
start 15/2 and the step 100, `levelCount` is 1, the sums 15/2 and 215/2 are
doubles, and the single level 15/2 is traced, in exact arithmetic and in
doubles. -/
theorem traced_levels_when_exact_witness :
    (rampGrid.maxHeight = 15 ∧ wholeInputs.contourStart = 15 / 2 ∧
      wholeInputs.contourStep = 100 ∧ levelCount wholeInputs rampGrid = 1 ∧
      roundDouble (15 / 2) = 15 / 2 ∧ roundDouble (15 / 2 + 100) = 15 / 2 + 100 ∧
      (generateContours rampTool wholeInputs rampGrid [] 2).map (fun r => r.levels) =
        some [15 / 2] ∧
      (levelLoopDouble rampTool wholeInputs rampGrid 2 (15 / 2) 0 [] []).map
        (fun r => (r.1, r.2.2)) = some (false, [15 / 2])) ∧
    ((levelCount wholeInputs rampGrid : ℤ) =
      1 + ⌊(rampGrid.maxHeight - wholeInputs.contourStart) / wholeInputs.contourStep⌋ ∧
    (∃ r, generateContours rampTool wholeInputs rampGrid [] 2 = some r ∧ r.status = .done ∧
      r.levels =
        (List.range (levelCount wholeInputs rampGrid)).map
          fun k : ℕ => wholeInputs.contourStart + (k : ℚ) * wholeInputs.contourStep) ∧
    ((∀ k : ℕ, k ≤ levelCount wholeInputs rampGrid →
        roundDouble (wholeInputs.contourStart + (k : ℚ) * wholeInputs.contourStep) =
          wholeInputs.contourStart + (k : ℚ) * wholeInputs.contourStep) →
      ∃ ls, levelLoopDouble rampTool wholeInputs rampGrid 2 wholeInputs.contourStart 0 [] [] =
        some (false, ls,
          (List.range (levelCount wholeInputs rampGrid)).map
            fun k : ℕ => wholeInputs.contourStart + (k : ℚ) * wholeInputs.contourStep))) :=
  ⟨by decide!,
    traced_levels_when_exact rampTool wholeInputs rampGrid [] 2 (by decide!) (by decide!)
      (by decide!) rfl (fun _ _ => rfl) (fun _ => rfl) (by decide!)⟩

/-! ## The contour lines: whole lines -/

/-- With a determinant that is not 0, weights of sum 1 that combine the
vertices into `(i, j)` are the weights `l1`, `l2`, `l3`. -/
theorem weights_unique (P : Fin 3 → ℤ × ℤ) (i j : ℤ) (hd : triangleDet P ≠ 0) (m0 m1 m2 : ℚ)
    (hs : m0 + m1 + m2 = 1)
    (hx : (i : ℚ) = m0 * ((P 0).1 : ℚ) + m1 * ((P 1).1 : ℚ) + m2 * ((P 2).1 : ℚ))
    (hy : (j : ℚ) = m0 * ((P 0).2 : ℚ) + m1 * ((P 1).2 : ℚ) + m2 * ((P 2).2 : ℚ)) :
    baryL1 P i j = m0 ∧ baryL2 P i j = m1 ∧ baryL3 P i j = m2 := by
  have hd' : (triangleDet P : ℚ) ≠ 0 := by exact_mod_cast hd
  have h1 : baryL1 P i j = m0 := by
    rw [baryL1_eq, div_eq_iff hd']
    unfold baryN1 triangleDet
    push_cast
    linear_combination (((P 1).2 : ℚ) - (P 2).2) * hx + (((P 2).1 : ℚ) - (P 1).1) * hy +
      ((((P 1).2 : ℚ) - (P 2).2) * (P 2).1 + (((P 2).1 : ℚ) - (P 1).1) * (P 2).2) * hs
  have h2 : baryL2 P i j = m1 := by
    rw [baryL2_eq, div_eq_iff hd']
    unfold baryN2 triangleDet
    push_cast
    linear_combination (((P 2).2 : ℚ) - (P 0).2) * hx + (((P 0).1 : ℚ) - (P 2).1) * hy +
      ((((P 2).2 : ℚ) - (P 0).2) * (P 2).1 + (((P 0).1 : ℚ) - (P 2).1) * (P 2).2) * hs
  refine ⟨h1, h2, ?_⟩
  unfold baryL3
  rw [h1, h2]
  linarith

/-- The cell that `fillCell` leaves at `(i, j)` when the cell is empty and the
inclusion test accepts it. -/
theorem fillCell_filled (P : Fin 3 → ℤ × ℤ) (g : RasterGrid) (i j : ℤ)
    (h0 : (g.data j.toNat i.toNat).nbPoints = 0) (hin : insideTriangle P i j = true) :
    (fillCell P g i j).data j.toNat i.toNat =
      { g.data j.toNat i.toNat with nbPoints := 1, height := fillHeight g P i j } := by
  unfold fillCell
  rw [if_pos h0, if_pos hin]
  simp only [and_self, if_true]
  rfl

/-- A cell that is not empty is left as it is by `fillCell`. -/
theorem fillCell_of_nonEmpty (P : Fin 3 → ℤ × ℤ) (g : RasterGrid) (i j : ℤ)
    (h0 : (g.data j.toNat i.toNat).nbPoints ≠ 0) : fillCell P g i j = g := by
  unfold fillCell
  rw [if_neg h0]

/-- C25. For every triangle, degenerate or not, and every cell `(i, j)`: when
the inclusion test says `inside`, the determinant `det` is not 0, so the
divisions by `det` in the weights `l1` and `l2` are not divisions by 0. -/
theorem inside_implies_det_ne_zero (P : Fin 3 → ℤ × ℤ) (i j : ℤ)
    (h : insideTriangle P i j = true) :
    triangleDet P ≠ 0 ∧ ((triangleDet P : ℤ) : ℚ) ≠ 0 := by
  have hd := (weights_nonneg P i j h).1
  exact ⟨hd, by exact_mod_cast hd⟩

/-- Witness of C25: the cell `(1, 1)` is inside `sampleTriangle`, of
determinant 16; no cell of the box of the collinear `flatTriangle`, of
determinant 0, passes the test. -/
theorem inside_implies_det_ne_zero_witness :
    triangleDet sampleTriangle = 16 ∧ triangleDet flatTriangle = 0 ∧
    (∀ i ∈ intRange 0 4, ∀ j ∈ intRange 0 4, insideTriangle flatTriangle i j = false) ∧
    (triangleDet sampleTriangle ≠ 0 ∧ ((triangleDet sampleTriangle : ℤ) : ℚ) ≠ 0) :=
  ⟨by decide, by decide, by decide!,
    inside_implies_det_ne_zero sampleTriangle 1 1 (by decide)⟩

/-! ## The interpolation: cells strictly inside a triangle -/

/-- When the determinant and the three numerators of the weights are all
positive, or all negative, the inclusion test says `inside`. -/
theorem insideTriangle_of_signs (P : Fin 3 → ℤ × ℤ) (i j : ℤ)
    (h : (0 < triangleDet P ∧ 0 < baryN1 P i j ∧ 0 < baryN2 P i j ∧
        0 < triangleDet P - baryN1 P i j - baryN2 P i j) ∨
      (triangleDet P < 0 ∧ baryN1 P i j < 0 ∧ baryN2 P i j < 0 ∧
        triangleDet P - baryN1 P i j - baryN2 P i j < 0)) :
    insideTriangle P i j = true := by
  rw [insideTriangle_eq]
  have k0 : edgeSide (P 0) (P 1) i j = triangleDet P - baryN1 P i j - baryN2 P i j := by
    unfold edgeSide triangleDet baryN1 baryN2; ring
  have k1 : edgeSide (P 1) (P 2) i j = baryN1 P i j := by
    unfold edgeSide baryN1; ring
  have k2 : edgeSide (P 2) (P 0) i j = baryN2 P i j := by
    unfold edgeSide baryN2; ring
  have hsum : baryN1 P i j * (j - (P 0).2) + baryN2 P i j * (j - (P 1).2) +
      (triangleDet P - baryN1 P i j - baryN2 P i j) * (j - (P 2).2) = 0 := by
    unfold triangleDet baryN1 baryN2; ring
  generalize triangleDet P = d at *
  generalize baryN1 P i j = n1 at *
  generalize baryN2 P i j = n2 at *
  by_cases hA : (P 0).2 ≤ j <;> by_cases hB : (P 1).2 ≤ j <;> by_cases hC : (P 2).2 ≤ j
  · -- all low: the three heights equal `j`, which the numerators exclude
    exfalso
    rcases h with ⟨_, a1, a2, a3⟩ | ⟨_, a1, a2, a3⟩
    · have t1 := mul_nonneg a1.le (sub_nonneg.mpr hA)
      have t2 := mul_nonneg a2.le (sub_nonneg.mpr hB)
      have t3 := mul_nonneg a3.le (sub_nonneg.mpr hC)
      have z1 : n1 * (j - (P 0).2) = 0 := by linarith
      have z2 : n2 * (j - (P 1).2) = 0 := by linarith
      have e1 : j - (P 0).2 = 0 := (mul_eq_zero.mp z1).resolve_left a1.ne'
      have e2 : j - (P 1).2 = 0 := (mul_eq_zero.mp z2).resolve_left a2.ne'
      have e0 : n1 = j * ((P 2).1 - (P 1).1) - (P 2).2 * ((P 2).1 - (P 1).1) +
          ((P 1).2 - (P 2).2) * (i - (P 2).1) := by rw [← k1]; unfold edgeSide; ring
      have e3 : n2 = j * ((P 0).1 - (P 2).1) - (P 2).2 * ((P 0).1 - (P 2).1) +
          ((P 2).2 - (P 0).2) * (i - (P 2).1) := by rw [← k2]; unfold edgeSide; ring
      have e4 : d - n1 - n2 = (i - (P 1).1) * ((P 0).2 - (P 1).2) -
          ((P 0).1 - (P 1).1) * (j - (P 1).2) := by rw [← k0]; unfold edgeSide; ring
      have e5 : (P 0).2 - (P 1).2 = 0 := by linarith
      rw [e5, e2] at e4
      simp at e4
      omega
    · have t1 := mul_nonneg_of_nonpos_of_nonpos a1.le (sub_nonpos.mpr hA)
      have t2 := mul_nonneg_of_nonpos_of_nonpos a2.le (sub_nonpos.mpr hB)
      have t3 := mul_nonneg_of_nonpos_of_nonpos a3.le (sub_nonpos.mpr hC)
      have s1 : n1 * (j - (P 0).2) = -(n1 * ((P 0).2 - j)) := by ring
      have s2 : n2 * (j - (P 1).2) = -(n2 * ((P 1).2 - j)) := by ring
      have s3 : (d - n1 - n2) * (j - (P 2).2) = -((d - n1 - n2) * ((P 2).2 - j)) := by ring
      have z2 : n2 * ((P 1).2 - j) = 0 := by linarith
      have z1 : n1 * ((P 0).2 - j) = 0 := by linarith
      have e1 : (P 0).2 - j = 0 := (mul_eq_zero.mp z1).resolve_left a1.ne
      have e2 : (P 1).2 - j = 0 := (mul_eq_zero.mp z2).resolve_left a2.ne
      have e4 : d - n1 - n2 = (i - (P 1).1) * ((P 0).2 - (P 1).2) -
          ((P 0).1 - (P 1).1) * (j - (P 1).2) := by rw [← k0]; unfold edgeSide; ring
      have e5 : (P 0).2 - (P 1).2 = 0 := by linarith
      have e6 : j - (P 1).2 = 0 := by linarith
      rw [e5, e6] at e4
      simp at e4
      omega
  · -- C high
    have hC' := not_le.mp hC
    rw [crossesEdge_low_low _ _ i j hA hB, crossesEdge_low_high _ _ i j hB hC',
      crossesEdge_high_low _ _ i j hC' hA, Bool.false_xor, k1, k2]
    rcases h with ⟨_, a1, a2, _⟩ | ⟨_, a1, a2, _⟩
    · rw [decide_eq_true a1, decide_eq_false (not_lt.mpr a2.le)]; rfl
    · rw [decide_eq_false (not_lt.mpr a1.le), decide_eq_true a2]; rfl
  · -- B high
    have hB' := not_le.mp hB
    rw [crossesEdge_low_high _ _ i j hA hB', crossesEdge_high_low _ _ i j hB' hC,
      crossesEdge_low_low _ _ i j hC hA, Bool.xor_false, k0, k1]
    rcases h with ⟨_, a1, _, a3⟩ | ⟨_, a1, _, a3⟩
    · rw [decide_eq_true a3, decide_eq_false (not_lt.mpr a1.le)]; rfl
    · rw [decide_eq_false (not_lt.mpr a3.le), decide_eq_true a1]; rfl
  · -- A low, B and C high
    have hB' := not_le.mp hB
    have hC' := not_le.mp hC
    rw [crossesEdge_low_high _ _ i j hA hB', crossesEdge_high_high _ _ i j hB' hC',
      crossesEdge_high_low _ _ i j hC' hA, Bool.xor_false, k0, k2]
    rcases h with ⟨_, _, a2, a3⟩ | ⟨_, _, a2, a3⟩
    · rw [decide_eq_true a3, decide_eq_false (not_lt.mpr a2.le)]; rfl
    · rw [decide_eq_false (not_lt.mpr a3.le), decide_eq_true a2]; rfl
  · -- A high, B and C low
    have hA' := not_le.mp hA
    rw [crossesEdge_high_low _ _ i j hA' hB, crossesEdge_low_low _ _ i j hB hC,
      crossesEdge_low_high _ _ i j hC hA', Bool.xor_false, k0, k2]
    rcases h with ⟨_, _, a2, a3⟩ | ⟨_, _, a2, a3⟩
    · rw [decide_eq_false (not_lt.mpr a3.le), decide_eq_true a2]; rfl
    · rw [decide_eq_true a3, decide_eq_false (not_lt.mpr a2.le)]; rfl
  · -- B low, A and C high
    have hA' := not_le.mp hA
    have hC' := not_le.mp hC
    rw [crossesEdge_high_low _ _ i j hA' hB, crossesEdge_low_high _ _ i j hB hC',
      crossesEdge_high_high _ _ i j hC' hA', Bool.xor_false, k0, k1]
    rcases h with ⟨_, a1, _, a3⟩ | ⟨_, a1, _, a3⟩
    · rw [decide_eq_false (not_lt.mpr a3.le), decide_eq_true a1]; rfl
    · rw [decide_eq_true a3, decide_eq_false (not_lt.mpr a1.le)]; rfl
  · -- C low, A and B high
    have hA' := not_le.mp hA
    have hB' := not_le.mp hB
    rw [crossesEdge_high_high _ _ i j hA' hB', crossesEdge_high_low _ _ i j hB' hC,
      crossesEdge_low_high _ _ i j hC hA', Bool.false_xor, k1, k2]
    rcases h with ⟨_, a1, a2, _⟩ | ⟨_, a1, a2, _⟩
    · rw [decide_eq_false (not_lt.mpr a1.le), decide_eq_true a2]; rfl
    · rw [decide_eq_true a1, decide_eq_false (not_lt.mpr a2.le)]; rfl
  · -- all high
    exfalso
    have hA' := not_le.mp hA
    have hB' := not_le.mp hB
    have hC' := not_le.mp hC
    rcases h with ⟨_, a1, a2, a3⟩ | ⟨_, a1, a2, a3⟩
    · have t1 := mul_pos a1 (sub_pos.mpr hA')
      have t2 := mul_pos a2 (sub_pos.mpr hB')
      have t3 := mul_pos a3 (sub_pos.mpr hC')
      have s1 : n1 * (j - (P 0).2) = -(n1 * ((P 0).2 - j)) := by ring
      have s2 : n2 * (j - (P 1).2) = -(n2 * ((P 1).2 - j)) := by ring
      have s3 : (d - n1 - n2) * (j - (P 2).2) = -((d - n1 - n2) * ((P 2).2 - j)) := by ring
      linarith
    · have t1 := mul_pos_of_neg_of_neg a1 (sub_neg.mpr hA')
      have t2 := mul_pos_of_neg_of_neg a2 (sub_neg.mpr hB')
      have t3 := mul_pos_of_neg_of_neg a3 (sub_neg.mpr hC')
      linarith

/-- A cell strictly inside a triangle with a determinant that is not 0 passes
the inclusion test. -/
theorem insideTriangle_of_open (P : Fin 3 → ℤ × ℤ) (i j : ℤ) (hd : triangleDet P ≠ 0)
    (h : InOpenTriangle P i j) : insideTriangle P i j = true := by
  obtain ⟨w0, w1, w2, p0, p1, p2, hs, hx, hy⟩ := h
  obtain ⟨e1, e2, e3⟩ := weights_unique P i j hd w0 w1 w2 hs hx hy
  rw [baryL1_eq] at e1
  rw [baryL2_eq] at e2
  rw [baryL3_eq P i j hd] at e3
  rw [← e1] at p0
  rw [← e2] at p1
  rw [← e3] at p2
  apply insideTriangle_of_signs
  rcases lt_or_gt_of_ne hd with hneg | hpos
  · right
    have hq : ((triangleDet P : ℤ) : ℚ) < 0 := by exact_mod_cast hneg
    have neg : ∀ n : ℚ, 0 < n / ((triangleDet P : ℤ) : ℚ) → n < 0 := by
      intro n hn
      rcases div_pos_iff.mp hn with ⟨_, hb⟩ | ⟨ha, _⟩
      · exact absurd hb (not_lt.mpr hq.le)
      · exact ha
    have q0 := neg _ p0
    have q1 := neg _ p1
    have q2 := neg _ p2
    exact ⟨hneg, by exact_mod_cast q0, by exact_mod_cast q1, by exact_mod_cast q2⟩
  · left
    have hq : (0 : ℚ) < ((triangleDet P : ℤ) : ℚ) := by exact_mod_cast hpos
    have q0 := (div_pos_iff_of_pos_right hq).mp p0
    have q1 := (div_pos_iff_of_pos_right hq).mp p1
    have q2 := (div_pos_iff_of_pos_right hq).mp p2
    exact ⟨hpos, by exact_mod_cast q0, by exact_mod_cast q1, by exact_mod_cast q2⟩

/-- A property that every step keeps and that the step of `x` gives holds
after a fold on a list that holds `x`. -/
theorem foldl_reaches {α β : Type} (Inv : β → Prop) (f : β → α → β)
    (hkeep : ∀ b y, Inv b → Inv (f b y)) (x : α) (hx : ∀ b, Inv (f b x)) :
    ∀ l : List α, x ∈ l → ∀ b, Inv (l.foldl f b) := by
  intro l
  induction l with
  | nil => intro h; exact absurd h (List.not_mem_nil x)
  | cons y l ih =>
    intro h b
    rw [List.foldl_cons]
    rcases List.mem_cons.mp h with e | h1
    · rw [← e]
      exact foldl_invariant Inv f l (fun y _ b hb => hkeep b y hb) _ (hx b)
    · exact ih h1 _

theorem intRange_mem (a b v : ℤ) (h1 : a ≤ v) (h2 : v ≤ b) : v ∈ intRange a b := by
  simp only [intRange, List.mem_map, List.bind_eq_flatMap, List.mem_flatMap, List.mem_range,
    List.pure_def, List.mem_singleton]
  exact ⟨((v - a).toNat : ℤ), ⟨(v - a).toNat, by omega, rfl⟩, by omega⟩

/-- A combination of three integers with non-negative weights of sum 1 lies
between their minimum and their maximum. -/
theorem combination_in_box (x0 x1 x2 i : ℤ) (w0 w1 w2 : ℚ) (p0 : 0 ≤ w0) (p1 : 0 ≤ w1)
    (p2 : 0 ≤ w2) (hs : w0 + w1 + w2 = 1)
    (hx : (i : ℚ) = w0 * (x0 : ℚ) + w1 * (x1 : ℚ) + w2 * (x2 : ℚ)) :
    min (min x0 x1) x2 ≤ i ∧ i ≤ max (max x0 x1) x2 := by
  obtain ⟨a, b⟩ := combination_bounds w0 w1 w2 (x0 : ℚ) (x1 : ℚ) (x2 : ℚ) p0 p1 p2 hs
  rw [← hx] at a b
  constructor
  · have : ((min (min x0 x1) x2 : ℤ) : ℚ) ≤ (i : ℚ) := by push_cast; exact a
    exact_mod_cast this
  · have : (i : ℚ) ≤ ((max (max x0 x1) x2 : ℤ) : ℚ) := by push_cast; exact b
    exact_mod_cast this

/-- A cell that holds a point keeps holding one in every grid that keeps the
cells. -/
theorem KeepsCells.nonEmpty {g g1 : RasterGrid} (h : KeepsCells g g1) (j i : ℕ)
    (h0 : (g.data j i).nbPoints ≠ 0) : (g1.data j i).nbPoints ≠ 0 := by
  rw [h.2.2 j i h0]; exact h0

/-- After `fillCell` at a cell that the inclusion test accepts, the cell is
not empty. -/
theorem fillCell_nonEmpty (P : Fin 3 → ℤ × ℤ) (g : RasterGrid) (i j : ℤ)
    (hin : insideTriangle P i j = true) :
    ((fillCell P g i j).data j.toNat i.toNat).nbPoints ≠ 0 := by
  by_cases h0 : (g.data j.toNat i.toNat).nbPoints = 0
  · rw [fillCell_filled P g i j h0 hin]; exact Nat.one_ne_zero
  · rw [fillCell_of_nonEmpty P g i j h0]; exact h0

/-- After the projection of a triangle with a determinant that is not 0, a
cell strictly inside it is not empty. -/
theorem fillTriangle_nonEmpty (pts : List (ℤ × ℤ)) (g : RasterGrid) (tsi : Fin 3 → ℕ)
    (hd : triangleDet (triangleVertices pts tsi) ≠ 0) (i j : ℤ)
    (h : InOpenTriangle (triangleVertices pts tsi) i j) :
    ((fillTriangle pts g tsi).data j.toNat i.toNat).nbPoints ≠ 0 := by
  have hin := insideTriangle_of_open _ i j hd h
  obtain ⟨w0, w1, w2, p0, p1, p2, hs, hx, hy⟩ := h
  obtain ⟨bx1, bx2⟩ := combination_in_box _ _ _ i w0 w1 w2 p0.le p1.le p2.le hs hx
  obtain ⟨by1, by2⟩ := combination_in_box _ _ _ j w0 w1 w2 p0.le p1.le p2.le hs hy
  unfold fillTriangle
  simp only
  refine foldl_reaches (fun g1 : RasterGrid => (g1.data j.toNat i.toNat).nbPoints ≠ 0) _ ?_ j ?_
    _ (intRange_mem _ _ j by1 by2) g
  · intro b y hb
    exact (KeepsCells.foldl _ (fun g1 x => fillCell_keeps _ g1 x y) _ b).nonEmpty _ _ hb
  · intro b
    refine foldl_reaches (fun g1 : RasterGrid => (g1.data j.toNat i.toNat).nbPoints ≠ 0) _ ?_ i ?_
      _ (intRange_mem _ _ i bx1 bx2) b
    · intro b1 y hb
      exact (fillCell_keeps _ b1 y j).nonEmpty _ _ hb
    · intro b1
      exact fillCell_nonEmpty _ b1 i j hin

/-- C26. For every triangle with a determinant that is not 0 and every cell
strictly inside it, the inclusion test says `inside`; and after the projection
of a list of triangles on the grid, no cell strictly inside one of the
triangles with a determinant that is not 0 is empty. -/
theorem strict_interior_is_filled (g : RasterGrid) (tris : List (Fin 3 → ℕ)) :
    (∀ (P : Fin 3 → ℤ × ℤ) (i j : ℤ), triangleDet P ≠ 0 → InOpenTriangle P i j →
      insideTriangle P i j = true) ∧
    ∀ tsi ∈ tris, triangleDet (triangleVertices (the2DPoints g) tsi) ≠ 0 →
      ∀ i j : ℤ, InOpenTriangle (triangleVertices (the2DPoints g) tsi) i j →
        ((tris.foldl (fillTriangle (the2DPoints g)) g).data j.toNat i.toNat).nbPoints ≠ 0 := by
  refine ⟨fun P i j hd h => insideTriangle_of_open P i j hd h, ?_⟩
  intro tsi hin hd i j h
  refine foldl_reaches (fun g1 : RasterGrid => (g1.data j.toNat i.toNat).nbPoints ≠ 0) _ ?_ tsi ?_
    tris hin g
  · intro b y hb
    exact (fillTriangle_keeps _ b y).nonEmpty _ _ hb
  · intro b
    exact fillTriangle_nonEmpty _ b tsi hd i j h

/-- Witness of C26: on `squareGrid`, the triangle of the cells `(0, 0)`,
`(4, 0)` and `(0, 4)` holds the cell `(1, 1)` strictly inside, with the weights
1/2, 1/4 and 1/4; the cell is empty before and not empty after. -/
theorem strict_interior_is_filled_witness :
    (squareGrid.data 1 1).nbPoints = 0 ∧ insideTriangle sampleTriangle 1 1 = true ∧
    (([fun k : Fin 3 => k.val].foldl (fillTriangle (the2DPoints squareGrid)) squareGrid).data
      (1 : ℤ).toNat (1 : ℤ).toNat).nbPoints ≠ 0 :=
  ⟨by decide!,
    (strict_interior_is_filled squareGrid [fun k : Fin 3 => k.val]).1 sampleTriangle 1 1
      (by decide) ⟨1 / 2, 1 / 4, 1 / 4, by norm_num, by norm_num, by norm_num, by norm_num,
        by decide!, by decide!⟩,
    (strict_interior_is_filled squareGrid [fun k : Fin 3 => k.val]).2 _
      (List.mem_singleton.mpr rfl) (by decide!) 1 1
      ⟨1 / 2, 1 / 4, 1 / 4, by norm_num, by norm_num, by norm_num, by norm_num,
        by decide!, by decide!⟩⟩

/-! ## The contour lines: closed lines -/

/-- The current polyline at the end of the loop on the vertices holds at most
the vertices it held plus the vertices of the list that are not `outside`. -/
theorem splitContour_length (t : Tool) (c : ContourInputs) (g : RasterGrid) (z : ℚ)
    (ok : ℕ → Bool) (n : ℕ) :
    ∀ (verts : List (ℚ × ℚ)) (v : ℕ) (poly : List CCVector3) (out : List ContourLine),
      (splitContour t c g z ok n verts v poly out).1.length ≤
        poly.length + verts.countP fun p => !isOutside c g (p.1 - 1) (p.2 - 1) := by
  intro verts
  induction verts with
  | nil => intro v poly out; rw [splitContour_nil]; simp
  | cons p rest ih =>
    intro v poly out
    rw [splitContour_cons]
    by_cases h1 : isOutside c g (p.1 - 1) (p.2 - 1) = true
    · rw [if_pos h1, List.countP_cons_of_neg _ _ (by simp [h1])]
      by_cases h2 : poly.length ≠ 0
      · rw [if_pos h2]
        by_cases h3 : poly.length = 1
        · rw [if_pos h3]
          by_cases h4 : ok v = true
          · rw [if_pos h4]
            have := ih (v + 1) [] out
            simp only [List.length_nil, Nat.zero_add] at this
            omega
          · rw [if_neg h4]; simp
        · rw [if_neg h3]
          by_cases h5 : v + 2 ≥ n
          · rw [if_pos h5]; simp
          · rw [if_neg h5]
            by_cases h4 : ok v = true
            · rw [if_pos h4]
              have := ih (v + 1) []
                (out ++ [({ z := z, vertices := poly, closed := false } : ContourLine)])
              simp only [List.length_nil, Nat.zero_add] at this
              omega
            · rw [if_neg h4]; simp
      · rw [if_neg h2]; exact ih _ _ _
    · rw [if_neg h1, List.countP_cons_of_pos _ _ (by simpa using h1)]
      have := ih (v + 1) (poly ++ [contourPoint t g (p.1 - 1) (p.2 - 1) z]) out
      simp only [List.length_append, List.length_singleton] at this
      omega

/-- When no vertex of the list is `outside`, the loop on the vertices adds
every vertex to the current polyline and adds no polyline. -/
theorem splitContour_of_all_inside (t : Tool) (c : ContourInputs) (g : RasterGrid) (z : ℚ)
    (ok : ℕ → Bool) (n : ℕ) :
    ∀ (verts : List (ℚ × ℚ)) (v : ℕ) (poly : List CCVector3) (out : List ContourLine),
      (∀ p ∈ verts, isOutside c g (p.1 - 1) (p.2 - 1) = false) →
      splitContour t c g z ok n verts v poly out =
        (poly ++ verts.map fun p => contourPoint t g (p.1 - 1) (p.2 - 1) z, out) := by
  intro verts
  induction verts with
  | nil => intro v poly out _; rw [splitContour_nil]; simp
  | cons p rest ih =>
    intro v poly out h
    have h1 : ¬ isOutside c g (p.1 - 1) (p.2 - 1) = true := by
      rw [h p (List.mem_cons_self _ _)]; decide
    rw [splitContour_cons, if_neg h1, ih _ _ _ (fun q hq => h q (List.mem_cons_of_mem _ hq)),
      List.map_cons, List.append_assoc]
    rfl

/-- A closed polyline added for a raw line is the whole raw line, and no
vertex of the raw line is `outside`. -/
theorem convertContour_closed (t : Tool) (c : ContourInputs) (g : RasterGrid) (z : ℚ)
    (ok : ℕ → Bool) (raw : RawContour) :
    ∀ l ∈ convertContour t c g z ok raw, l.closed = true →
      (∀ p ∈ raw.vertices, isOutside c g (p.1 - 1) (p.2 - 1) = false) ∧
      l = wholeLine t g z raw := by
  intro l hl hc
  have hopen := (splitContour_invariant t c g z ok raw.vertices.length (fun _ => True)
    raw.vertices 0 [] [] (fun _ _ _ => trivial) (fun _ _ => trivial)
    (fun l hl => absurd hl (List.not_mem_nil l))).2
  have hlen := splitContour_length t c g z ok raw.vertices.length raw.vertices 0 [] []
  unfold convertContour at hl
  simp only at hl
  have hlast : l = ContourLine.mk z
      (splitContour t c g z ok raw.vertices.length raw.vertices 0 [] []).1
      (decide ((splitContour t c g z ok raw.vertices.length raw.vertices 0 [] []).1.length
        = raw.vertices.length)) := by
    split_ifs at hl with h3
    · rcases List.mem_append.mp hl with hl | hl
      · rw [(hopen l hl).2.2.1] at hc; exact Bool.noConfusion hc
      · exact List.mem_singleton.mp hl
    · rw [(hopen l hl).2.2.1] at hc; exact Bool.noConfusion hc
  rw [hlast] at hc
  simp only [decide_eq_true_eq] at hc
  rw [hc, List.length_nil, Nat.zero_add] at hlen
  have hall : ∀ p ∈ raw.vertices, isOutside c g (p.1 - 1) (p.2 - 1) = false := by
    have e := le_antisymm (List.countP_le_length _) hlen
    intro p hp
    have := List.countP_eq_length.mp e p hp
    simpa using this
  refine ⟨hall, ?_⟩
  rw [hlast, splitContour_of_all_inside t c g z ok _ _ 0 [] [] hall]
  simp [wholeLine]

/-- C21. A raw line with at least one `outside` vertex gives only open
polylines; and on a valid grid with a start that is not above `maxHeight`,
every closed line that `generateContours` leaves is the whole of a raw line of
its level, none of whose vertices is `outside`. -/
theorem closed_line_is_whole (t : Tool) (c : ContourInputs) (g : RasterGrid)
    (m : List ContourLine) (fuel : ℕ) (r : ContourResult) (hv : g.valid = true)
    (hs : c.contourStart ≤ g.maxHeight) (h : generateContours t c g m fuel = some r) :
    (∀ (z : ℚ) (ok : ℕ → Bool) (raw : RawContour),
      (∃ p ∈ raw.vertices, isOutside c g (p.1 - 1) (p.2 - 1) = true) →
      ∀ l ∈ convertContour t c g z ok raw, l.closed = false) ∧
    ∀ l ∈ r.lines, l.closed = true →
      ∃ raw ∈ rawContours t c g l.z,
        (∀ p ∈ raw.vertices, isOutside c g (p.1 - 1) (p.2 - 1) = false) ∧
        l = wholeLine t g l.z raw := by
  constructor
  · intro z ok raw ⟨p, hp, ho⟩ l hl
    cases hc : l.closed with
    | false => rfl
    | true =>
      have := (convertContour_closed t c g z ok raw l hl hc).1 p hp
      rw [ho] at this
      exact Bool.noConfusion this
  · refine generateContours_all t c g m fuel r _ ?_ hv hs h
    intro z raw hraw _ ok l hl hc
    obtain ⟨hz, _, _, _⟩ := convertContour_lines t c g z ok raw l hl
    obtain ⟨hall, e⟩ := convertContour_closed t c g z ok raw l hl hc
    rw [hz]
    exact ⟨raw, hraw, hall, e⟩

/-- Witness of C21: the level 15/2 on `rampGrid` with the borders ignored and
the raw lines `ringContour`, which has `outside` vertices, and `innerContour`,
which has none; the first gives an open line of 2 vertices and the second a
closed line of 4 vertices. -/
theorem closed_line_is_whole_witness :
    ∃ r, generateContours rampTool mixedInputs rampGrid [] 2 = some r ∧
      r.lines.map (fun l => (l.vertices.length, l.closed)) = [(2, false), (4, true)] ∧
      ((∀ (z : ℚ) (ok : ℕ → Bool) (raw : RawContour),
        (∃ p ∈ raw.vertices, isOutside mixedInputs rampGrid (p.1 - 1) (p.2 - 1) = true) →
        ∀ l ∈ convertContour rampTool mixedInputs rampGrid z ok raw, l.closed = false) ∧
      ∀ l ∈ r.lines, l.closed = true →
        ∃ raw ∈ rawContours rampTool mixedInputs rampGrid l.z,
          (∀ p ∈ raw.vertices, isOutside mixedInputs rampGrid (p.1 - 1) (p.2 - 1) = false) ∧
          l = wholeLine rampTool rampGrid l.z raw) :=
  ⟨Option.get (generateContours rampTool mixedInputs rampGrid [] 2) (by decide!),
    (Option.some_get _).symm, by decide!,
    closed_line_is_whole rampTool mixedInputs rampGrid [] 2 _ (by decide!) (by decide!)
      (Option.some_get _).symm⟩

/-! ## The contour lines: the runs of inside vertices -/

theorem splitOnP_length_le {α : Type} (p : α → Bool) :
    ∀ l : List α, ∀ run ∈ l.splitOnP p, run.length ≤ l.length := by
  intro l
  induction l with
  | nil =>
    intro run h
    rw [List.splitOnP_nil] at h
    rw [List.mem_singleton.mp h]
  | cons x xs ih =>
    intro run h
    rw [List.splitOnP_cons] at h
    rw [List.length_cons]
    split_ifs at h with hp
    · rcases List.mem_cons.mp h with e | h1
      · rw [e]; exact Nat.zero_le _
      · exact Nat.le_succ_of_le (ih run h1)
    · cases hS : List.splitOnP p xs with
      | nil => rw [hS] at h; exact absurd h (List.not_mem_nil run)
      | cons s0 S =>
        rw [hS, List.modifyHead_cons] at h
        rcases List.mem_cons.mp h with e | h1
        · rw [e, List.length_cons]
          exact Nat.succ_le_succ (ih s0 (by rw [hS]; exact List.mem_cons_self _ _))
        · exact Nat.le_succ_of_le (ih run (by rw [hS]; exact List.mem_cons_of_mem _ h1))

theorem modifyHead_nil_append {α : Type} (l : List (List α)) :
    l.modifyHead (fun run => [] ++ run) = l := by
  cases l with
  | nil => rfl
  | cons a l => rw [List.modifyHead_cons, List.nil_append]

/-- When the `reserve` calls succeed, the polylines that the loop on the
vertices adds and the current polyline it ends with, if it holds more than 1
vertex, are the runs of at least 2 vertices that are not `outside`, the first
run being joined to the current polyline the loop starts with. -/
theorem splitContour_runs (t : Tool) (c : ContourInputs) (g : RasterGrid) (z : ℚ)
    (ok : ℕ → Bool) (n : ℕ) (hok : ∀ v, ok v = true) :
    ∀ (verts : List (ℚ × ℚ)) (v : ℕ) (poly : List CCVector3) (out : List ContourLine),
      v + verts.length = n →
      (splitContour t c g z ok n verts v poly out).2.map (fun l => l.vertices) ++
        (if (splitContour t c g z ok n verts v poly out).1.length > 1 then
          [(splitContour t c g z ok n verts v poly out).1] else []) =
      out.map (fun l => l.vertices) ++
        ((((verts.splitOnP fun p => isOutside c g (p.1 - 1) (p.2 - 1)).map
          (List.map fun p => contourPoint t g (p.1 - 1) (p.2 - 1) z)).modifyHead
            (fun run => poly ++ run)).filter fun run => decide (2 ≤ run.length)) := by
  intro verts
  induction verts with
  | nil =>
    intro v poly out _
    rw [splitContour_nil, List.splitOnP_nil]
    simp only [List.map_cons, List.map_nil, List.modifyHead_cons, List.append_nil]
    by_cases h : poly.length > 1
    · rw [if_pos h, List.filter_cons_of_pos (by simp only [decide_eq_true_eq]; omega)]; rfl
    · rw [if_neg h, List.filter_cons_of_neg (by simp only [decide_eq_true_eq]; omega)]; rfl
  | cons p rest ih =>
    intro v poly out hn
    simp only [List.length_cons] at hn
    rw [splitContour_cons, List.splitOnP_cons]
    by_cases h1 : isOutside c g (p.1 - 1) (p.2 - 1) = true
    · rw [if_pos h1, if_pos h1]
      simp only [List.map_cons, List.map_nil, List.modifyHead_cons, List.append_nil]
      have hrest : ∀ out1 : List ContourLine,
          (splitContour t c g z ok n rest (v + 1) [] out1).2.map (fun l => l.vertices) ++
            (if (splitContour t c g z ok n rest (v + 1) [] out1).1.length > 1 then
              [(splitContour t c g z ok n rest (v + 1) [] out1).1] else []) =
          out1.map (fun l => l.vertices) ++
            (((rest.splitOnP fun p => isOutside c g (p.1 - 1) (p.2 - 1)).map
              (List.map fun p => contourPoint t g (p.1 - 1) (p.2 - 1) z)).filter
                fun run => decide (2 ≤ run.length)) := by
        intro out1
        have := ih (v + 1) [] out1 (by omega)
        rwa [modifyHead_nil_append] at this
      by_cases h2 : poly.length ≠ 0
      · rw [if_pos h2]
        by_cases h3 : poly.length = 1
        · rw [if_pos h3, hok v, if_pos rfl, hrest out,
            List.filter_cons_of_neg (by simp [h3])]
        · rw [if_neg h3]
          have h4 : 2 ≤ poly.length := by omega
          rw [List.filter_cons_of_pos (by simp only [decide_eq_true_eq]; omega)]
          by_cases h5 : v + 2 ≥ n
          · rw [if_pos h5, if_pos (show (poly, out).1.length > 1 from h4)]
            have hnil : ((rest.splitOnP fun p => isOutside c g (p.1 - 1) (p.2 - 1)).map
                (List.map fun p => contourPoint t g (p.1 - 1) (p.2 - 1) z)).filter
                  (fun run => decide (2 ≤ run.length)) = [] := by
              rw [List.filter_eq_nil_iff]
              intro run hrun
              obtain ⟨run0, hr0, rfl⟩ := List.mem_map.mp hrun
              have := splitOnP_length_le _ rest run0 hr0
              simp only [List.length_map, decide_eq_true_eq, not_le]
              omega
            rw [hnil]
          · rw [if_neg h5, hok v, if_pos rfl, hrest, List.map_append, List.append_assoc]
            rfl
      · rw [if_neg h2]
        have h0 : poly = [] := List.length_eq_zero.mp (by simpa using h2)
        subst h0
        rw [hrest out, List.filter_cons_of_neg (by simp)]
    · rw [if_neg h1, if_neg h1, ih (v + 1) _ out (by omega)]
      cases hS : List.splitOnP (fun p => isOutside c g (p.1 - 1) (p.2 - 1)) rest with
      | nil => exact absurd hS (List.splitOnP_ne_nil _ _)
      | cons s0 S =>
        simp only [List.map_cons, List.modifyHead_cons, List.append_assoc,
          List.singleton_append]

/-- When the `reserve` calls succeed, the vertices of the polylines added for
a raw line are the images of its runs of at least 2 vertices that are not
`outside`, in order. -/
theorem convertContour_runs (t : Tool) (c : ContourInputs) (g : RasterGrid) (z : ℚ)
    (ok : ℕ → Bool) (hok : ∀ v, ok v = true) (raw : RawContour) :
    (convertContour t c g z ok raw).map (fun l => l.vertices) =
      (insideRuns c g raw.vertices).map
        (List.map fun p => contourPoint t g (p.1 - 1) (p.2 - 1) z) := by
  have h := splitContour_runs t c g z ok raw.vertices.length hok raw.vertices 0 [] []
    (Nat.zero_add _)
  rw [modifyHead_nil_append, List.map_nil, List.nil_append] at h
  unfold insideRuns
  have e : ((fun run : List CCVector3 => decide (2 ≤ run.length)) ∘
      (List.map fun p : ℚ × ℚ => contourPoint t g (p.1 - 1) (p.2 - 1) z)) =
      fun run : List (ℚ × ℚ) => decide (2 ≤ run.length) := by
    funext run
    simp
  rw [List.filter_map, e] at h
  rw [← h]
  unfold convertContour
  simp only
  split_ifs with h3
  · rw [List.map_append]; rfl
  · rw [List.append_nil]

/-- When the `reserve` calls succeed, the loop on the raw lines adds the
polylines of every raw line that passes the test on the number of vertices, in
order, and ends without memory error. -/
theorem convertContours_eq (t : Tool) (c : ContourInputs) (g : RasterGrid) (z : ℚ) (k : ℕ)
    (hr : ∀ i v, c.reserved k i v = true) :
    ∀ (raws : List RawContour) (i : ℕ) (out : List ContourLine),
      convertContours t c g z k raws i out =
        (out ++ (longContours c raws).flatMap (convertContour t c g z fun _ => true), false) := by
  intro raws
  induction raws with
  | nil => intro i out; rw [convertContours_nil]; simp [longContours]
  | cons raw rest ih =>
    intro i out
    rw [convertContours_cons]
    unfold longContours at ih ⊢
    by_cases h1 : (raw.vertices.length : ℤ) ≥ c.minVertexCount
    · have e : c.reserved k i = fun _ => true := funext (hr i)
      rw [if_pos h1, if_pos (hr i 0), ih, List.filter_cons_of_pos (by simpa using h1),
        List.flatMap_cons, List.append_assoc, e]
    · rw [if_neg h1, ih, List.filter_cons_of_neg (by simpa using h1)]

/-- When the `reserve` calls succeed, a loop on the levels that ends has
added, for each new level in order, the polylines of every raw line of that
level that passes the test on the number of vertices. -/
theorem levelLoop_eq (t : Tool) (c : ContourInputs) (g : RasterGrid)
    (hr : ∀ k i v, c.reserved k i v = true) :
    ∀ (fuel : ℕ) (z : ℚ) (k : ℕ) (lines : List ContourLine) (levels : List ℚ)
      (b : Bool) (ls : List ContourLine) (lv : List ℚ),
      levelLoop t c g fuel z k lines levels = some (b, ls, lv) →
      ∃ nl : List ℚ, lv = levels ++ nl ∧
        ls = lines ++ nl.flatMap fun z =>
          (longContours c (rawContours t c g z)).flatMap
            (convertContour t c g z fun _ => true) := by
  intro fuel
  induction fuel with
  | zero => intro z k lines levels b ls lv h; rw [levelLoop_zero] at h; exact absurd h (by simp)
  | succ fuel ih =>
    intro z k lines levels b ls lv h
    rw [levelLoop_succ, convertContours_eq t c g z k (hr k)] at h
    simp only [List.nil_append] at h
    by_cases h1 : z ≤ g.maxHeight
    · rw [if_pos h1, if_neg (by decide)] at h
      by_cases h3 : c.oneStep k = true
      · rw [if_pos h3] at h
        obtain ⟨nl, e1, e2⟩ := ih _ _ _ _ _ _ _ h
        refine ⟨z :: nl, ?_, ?_⟩
        · rw [e1, List.append_assoc]; rfl
        · rw [e2, List.append_assoc, List.flatMap_cons]
      · rw [if_neg h3] at h
        have e := Option.some.inj h
        simp only [Prod.mk.injEq] at e
        refine ⟨[z], e.2.2.symm, ?_⟩
        rw [← e.2.1, List.flatMap_cons, List.flatMap_nil, List.append_nil]
    · rw [if_neg h1] at h
      have e := Option.some.inj h
      simp only [Prod.mk.injEq] at e
      exact ⟨[], by rw [← e.2.2, List.append_nil], by rw [← e.2.1]; simp⟩

/-- C22. When the `reserve` calls succeed and `generateContours` ends with
the outcome `done`, the vertex lists of its lines are, for each level traced in
order and each raw line of that level with at least `minVertexCount` vertices
in order, the images of the maximal runs of consecutive vertices that are not
`outside` of at least 2 vertices, in order: the runs of 1 vertex and the
`outside` vertices are dropped, and no run is split or merged. -/
theorem lines_are_inside_runs (t : Tool) (c : ContourInputs) (g : RasterGrid)
    (m : List ContourLine) (fuel : ℕ) (r : ContourResult)
    (hr : ∀ k i v, c.reserved k i v = true)
    (h : generateContours t c g m fuel = some r) (hd : r.status = .done) :
    r.lines.map (fun l => l.vertices) =
      r.levels.flatMap fun z =>
        (longContours c (rawContours t c g z)).flatMap fun raw =>
          (insideRuns c g raw.vertices).map
            (List.map fun p => contourPoint t g (p.1 - 1) (p.2 - 1) z) := by
  obtain ⟨hv, hs⟩ := generateContours_done t c g m fuel r h hd
  rcases generateContours_traced t c g m fuel r hv hs h with ⟨h1, _⟩ | ⟨_, h1⟩
  · rw [h1] at hd; exact ContourStatus.noConfusion hd
  · obtain ⟨nl, e1, e2⟩ := levelLoop_eq t c g hr fuel _ 0 [] [] _ _ _ h1
    rw [List.nil_append] at e1 e2
    rw [e2, e1, List.map_flatMap]
    congr 1
    funext z
    rw [List.map_flatMap]
    congr 1
    funext raw
    exact convertContour_runs t c g z _ (fun _ => rfl) raw

/-- Witness of C22: the level 15/2 on `rampGrid` with the borders ignored and
the raw lines `ringContour`, whose only run of at least 2 vertices is
`(2, 5/2), (3, 5/2)`, and `innerContour`, which is one run. -/
theorem lines_are_inside_runs_witness :
    insideRuns mixedInputs rampGrid ringContour.vertices = [[(2, 5 / 2), (3, 5 / 2)]] ∧
    insideRuns mixedInputs rampGrid innerContour.vertices = [innerContour.vertices] ∧
    ∃ r, generateContours rampTool mixedInputs rampGrid [] 2 = some r ∧
      r.lines.map (fun l => l.vertices) =
        r.levels.flatMap fun z =>
          (longContours mixedInputs (rawContours rampTool mixedInputs rampGrid z)).flatMap
            fun raw =>
              (insideRuns mixedInputs rampGrid raw.vertices).map
                (List.map fun p => contourPoint rampTool rampGrid (p.1 - 1) (p.2 - 1) z) :=
  ⟨by decide!, by decide!,
    Option.get (generateContours rampTool mixedInputs rampGrid [] 2) (by decide!),
    (Option.some_get _).symm,
    lines_are_inside_runs rampTool mixedInputs rampGrid [] 2 _ (fun _ _ _ => rfl)
      (Option.some_get _).symm (by decide!)⟩

/-! ## The contour lines: the border of the padded array -/

/-- With a step that is not negative, the levels that the loop on the levels
adds are not below the level it starts with. -/
theorem levelLoop_levels_ge (t : Tool) (c : ContourInputs) (g : RasterGrid) (z0 : ℚ)
    (hstep : 0 ≤ c.contourStep) :
    ∀ (fuel : ℕ) (z : ℚ) (k : ℕ) (lines : List ContourLine) (levels : List ℚ)
      (r : Bool × List ContourLine × List ℚ),
      levelLoop t c g fuel z k lines levels = some r → z0 ≤ z →
      (∀ x ∈ levels, z0 ≤ x) → ∀ x ∈ r.2.2, z0 ≤ x := by
  intro fuel
  induction fuel with
  | zero => intro z k lines levels r h; rw [levelLoop_zero] at h; exact absurd h (by simp)
  | succ fuel ih =>
    intro z k lines levels r h hz hl
    rw [levelLoop_succ] at h
    have hnew : ∀ x ∈ levels ++ [z], z0 ≤ x := by
      intro x hx
      rcases List.mem_append.mp hx with hx | hx
      · exact hl x hx
      · rw [List.mem_singleton.mp hx]; exact hz
    split_ifs at h with h1 h2 h3
    · rw [← Option.some.inj h]; exact hnew
    · exact ih _ _ _ _ r h (by linarith) hnew
    · rw [← Option.some.inj h]; exact hnew
    · rw [← Option.some.inj h]; exact hl

/-- With a step that is not negative, no level that `generateContours` gives
to the tracer is below `contourStart`. -/
theorem generateContours_levels_ge (t : Tool) (c : ContourInputs) (g : RasterGrid)
    (m : List ContourLine) (fuel : ℕ) (r : ContourResult) (hstep : 0 ≤ c.contourStep)
    (h : generateContours t c g m fuel = some r) : ∀ x ∈ r.levels, c.contourStart ≤ x := by
  have hnil : ∀ x ∈ ([] : List ℚ), c.contourStart ≤ x :=
    fun x hx => absurd hx (List.not_mem_nil x)
  unfold generateContours at h
  split_ifs at h with h1 h2 h3
  · rw [← Option.some.inj h]; exact hnil
  · rw [← Option.some.inj h]; exact hnil
  · rw [← Option.some.inj h]; exact hnil
  · cases hl : levelLoop t c g fuel c.contourStart 0 [] [] with
    | none => rw [hl] at h; exact absurd h (by simp)
    | some x =>
      have hx := levelLoop_levels_ge t c g c.contourStart hstep fuel _ 0 [] [] x hl
        (le_refl _) hnil
      obtain ⟨b, ls, lv⟩ := x
      rw [hl] at h
      simp only at h hx
      cases b with
      | true =>
        rw [if_pos rfl] at h
        rw [← Option.some.inj h]; exact hx
      | false =>
        rw [if_neg (by decide)] at h
        rw [← Option.some.inj h]; exact hx

/-- The value of the cells of the one-cell border of the padded array. -/
theorem paddedGrid_border (t : Tool) (g : RasterGrid) (row col : ℕ) (hr : row < g.height + 2)
    (hc : col < g.width + 2)
    (hb : row = 0 ∨ row = g.height + 1 ∨ col = 0 ∨ col = g.width + 1) :
    paddedGrid t g row col = (t.getFillEmptyCellsStrategyWithHeights g).minHeight - 1 := by
  unfold paddedGrid
  rw [if_neg (by omega), if_pos ⟨hr, hc⟩]

/-- C28 (counterexample). On the valid grid `rampGrid`, of minimum height 0
and maximum height 15, with the start -10 and the step 100, the level -10 is
traced and the border of the padded array holds -1, which is above it. -/
theorem border_above_traced_level :
    rampGrid.valid = true ∧ rampGrid.minHeight = 0 ∧
    lowStartInputs.contourStart ≤ rampGrid.maxHeight ∧ 0 < lowStartInputs.contourStep ∧
    (generateContours rampTool lowStartInputs rampGrid [] 2).map (fun r => r.levels) =
      some [-10] ∧
    paddedGrid rampTool rampGrid 0 0 = -1 ∧ ¬ paddedGrid rampTool rampGrid 0 0 < -10 := by
  decide!

/-- C28 (amended). Every cell of the one-cell border of the padded array holds
`minHeight - 1`, for the `minHeight` that `getFillEmptyCellsStrategy` gives
back, which is at most the `minHeight` of the grid; with a positive step every
traced level is at least `contourStart`; hence when
`minHeight - 1 < contourStart` the border is strictly below every traced
level. -/
theorem border_below_levels (t : Tool) (c : ContourInputs) (g : RasterGrid)
    (m : List ContourLine) (fuel : ℕ) (r : ContourResult) (hstep : 0 < c.contourStep)
    (h : generateContours t c g m fuel = some r) :
    (∀ row col, row < g.height + 2 → col < g.width + 2 →
      (row = 0 ∨ row = g.height + 1 ∨ col = 0 ∨ col = g.width + 1) →
      paddedGrid t g row col = (t.getFillEmptyCellsStrategyWithHeights g).minHeight - 1) ∧
    (t.getFillEmptyCellsStrategyWithHeights g).minHeight ≤ g.minHeight ∧
    (∀ z ∈ r.levels, c.contourStart ≤ z) ∧
    ((t.getFillEmptyCellsStrategyWithHeights g).minHeight - 1 < c.contourStart →
      ∀ z ∈ r.levels, ∀ row col, row < g.height + 2 → col < g.width + 2 →
        (row = 0 ∨ row = g.height + 1 ∨ col = 0 ∨ col = g.width + 1) →
        paddedGrid t g row col < z) := by
  have hge := generateContours_levels_ge t c g m fuel r hstep.le h
  refine ⟨fun row col hr hc hb => paddedGrid_border t g row col hr hc hb, ?_, hge, ?_⟩
  · unfold Tool.getFillEmptyCellsStrategyWithHeights
    cases t.getFillEmptyCellsStrategy
    · exact le_refl _
    · exact le_refl _
    · exact le_refl _
    · simp only
      split_ifs <;> first | assumption | exact le_refl _
    · exact le_refl _
    · simp only
      split_ifs <;> first | assumption | exact le_refl _
  · intro hlt z hz row col hr hc hb
    rw [paddedGrid_border t g row col hr hc hb]
    exact lt_of_lt_of_le hlt (hge z hz)

/-- Witness of C28 (amended): on `rampGrid`, of minimum height 0, with the
start 15/2 and the step 100, the border holds -1 and the level 15/2 is
traced. -/
theorem border_below_levels_witness :
    ∃ r, generateContours rampTool wholeInputs rampGrid [] 2 = some r ∧ r.levels = [15 / 2] ∧
      paddedGrid rampTool rampGrid 0 0 = -1 ∧
      ((∀ row col, row < rampGrid.height + 2 → col < rampGrid.width + 2 →
        (row = 0 ∨ row = rampGrid.height + 1 ∨ col = 0 ∨ col = rampGrid.width + 1) →
        paddedGrid rampTool rampGrid row col =
          (rampTool.getFillEmptyCellsStrategyWithHeights rampGrid).minHeight - 1) ∧
      (rampTool.getFillEmptyCellsStrategyWithHeights rampGrid).minHeight ≤ rampGrid.minHeight ∧
      (∀ z ∈ r.levels, wholeInputs.contourStart ≤ z) ∧
      ((rampTool.getFillEmptyCellsStrategyWithHeights rampGrid).minHeight - 1 <
          wholeInputs.contourStart →
        ∀ z ∈ r.levels, ∀ row col, row < rampGrid.height + 2 → col < rampGrid.width + 2 →
          (row = 0 ∨ row = rampGrid.height + 1 ∨ col = 0 ∨ col = rampGrid.width + 1) →
          paddedGrid rampTool rampGrid row col < z)) :=
  ⟨Option.get (generateContours rampTool wholeInputs rampGrid [] 2) (by decide!),
    (Option.some_get _).symm, by decide!, by decide!,
    border_below_levels rampTool wholeInputs rampGrid [] 2 _ (by decide!)
      (Option.some_get _).symm⟩

/-! ## The size of the grid and the `valid` flag -/

/-- C29. A box of 65536 by 65536 with a step of 1 gives a grid of 65536 by
65536 cells, whose product is above 10,000,000, but `gridTotalSize` is 0: with
a user who would answer `No`, `updateGrid` does not stop at the question and
goes on to `init`, which here fails and leaves the valid grid `builtGrid`
invalid and cleared. -/
theorem huge_grid_is_not_confirmed :
    hugeTool.gridWidth = 65536 ∧ hugeTool.gridHeight = 65536 ∧
    hugeTool.gridWidth * hugeTool.gridHeight > 10000000 ∧ hugeTool.gridTotalSize = 0 ∧
    hugeTool.proceedAnyway = false ∧ builtGrid.valid = true ∧ builtGrid.width = 2 ∧
    (updateGrid hugeTool false builtGrid).1 = false ∧
    (updateGrid hugeTool false builtGrid).2.valid = false ∧
    (updateGrid hugeTool false builtGrid).2.width = 0 := by
  decide!

/-! ## The `valid` flag -/

/-- The method `init` leaves the grid with `valid = false`, whatever it
returns. -/
theorem init_valid (g : RasterGrid) (w h : ℕ) (a : Bool) : (g.init w h a).2.valid = false := by
  unfold RasterGrid.init
  simp only
  split_ifs <;> rfl

theorem finishGrid_valid (t : Tool) (g : RasterGrid) : (finishGrid t g).valid = true := rfl

/-- A build that returns `false` leaves the grid it was given, or a grid with
`valid = false`. -/
theorem updateGrid_failure (t : Tool) (sf : Bool) (g : RasterGrid)
    (h : (updateGrid t sf g).1 = false) :
    (updateGrid t sf g).2 = g ∨ (updateGrid t sf g).2.valid = false := by
  unfold updateGrid at h ⊢
  cases hc : t.m_cloud with
  | none => exact Or.inl rfl
  | some cloud =>
    rw [hc] at h
    simp only at h ⊢
    by_cases h1 : t.getCustomBBox.isValid = false
    · rw [if_pos h1]; exact Or.inl rfl
    rw [if_neg h1] at h ⊢
    by_cases h2 : t.boxDiag.u t.X ≤ 0 ∨ t.boxDiag.u t.Y ≤ 0
    · rw [if_pos h2]; exact Or.inl rfl
    rw [if_neg h2] at h ⊢
    by_cases h3 : (t.gridTotalSize = 1 ∨ t.gridTotalSize > 10000000) ∧ t.proceedAnyway = false
    · rw [if_pos h3]; exact Or.inl rfl
    rw [if_neg h3] at h ⊢
    right
    have hiv := init_valid g t.gridWidth t.gridHeight t.cellsAllocated
    cases hi : g.init t.gridWidth t.gridHeight t.cellsAllocated with
    | mk b g1 =>
      rw [hi] at h hiv
      cases b with
      | false => exact hiv
      | true =>
        simp only at h hiv ⊢
        generalize hsf : (sf && (cloud.isPointCloud && !cloud.scalarFields.isEmpty)) = sf1 at h ⊢
        generalize hg3 : (if sf1 = true then
            allocateSFs t cloud { g1 with gridStep := t.getGridStep }
          else { g1 with gridStep := t.getGridStep }) = g3 at h ⊢
        have hv3 : g3.valid = false := by
          rw [← hg3]; split_ifs <;> exact hiv
        have hfr := (scanPoints_frame t cloud sf1 cloud.points 0 0 g3).1
        cases hsc : scanPoints t cloud sf1 cloud.points 0 0 g3 with
        | mk b2 g4 =>
          rw [hsc] at h hfr
          cases b2 with
          | true => simp at h
          | false =>
            simp only at hfr ⊢
            rw [hfr]; exact hv3

/-- C30 (counterexample). The grid `builtGrid` is valid; a build that stops at
the question on the size of the grid, answered `No`, returns `false` and leaves
the grid as it was, with `valid = true`. -/
theorem declined_build_keeps_valid_flag :
    builtGrid.valid = true ∧ declinedTool.gridTotalSize = 1 ∧
    (updateGrid declinedTool false builtGrid).1 = false ∧
    (updateGrid declinedTool false builtGrid).2.valid = true ∧
    (updateGrid declinedTool false builtGrid).2.width = builtGrid.width := by
  decide!

/-- C30 (amended). `init` leaves `valid = false`; a build that returns `false`
leaves either the grid it was given, untouched (the build stopped before
`init`), or a grid with `valid = false`; so `valid` is true after `updateGrid`
only if the build returned `true` or left a grid that was already valid
untouched; and a build that returns `true` leaves `valid = true`, the width and
height of the new build, `nonEmptyCells` equal to the number of cells that hold
a point and, when there is one, `minHeight` and `maxHeight` equal to the least
and the greatest of their heights. -/
theorem valid_flag_after_build (t : Tool) (sf : Bool) (g : RasterGrid) :
    (∀ w h a, (g.init w h a).2.valid = false) ∧
    ((updateGrid t sf g).1 = false →
      (updateGrid t sf g).2 = g ∨ (updateGrid t sf g).2.valid = false) ∧
    ((updateGrid t sf g).2.valid = true →
      (updateGrid t sf g).1 = true ∨ ((updateGrid t sf g).2 = g ∧ g.valid = true)) ∧
    ((updateGrid t sf g).1 = true →
      (updateGrid t sf g).2.valid = true ∧
      (updateGrid t sf g).2.width = t.gridWidth ∧
      (updateGrid t sf g).2.height = t.gridHeight ∧
      (updateGrid t sf g).2.nonEmptyCells = (nonEmptyHeights (updateGrid t sf g).2).length ∧
      (nonEmptyHeights (updateGrid t sf g).2 ≠ [] →
        (updateGrid t sf g).2.minHeight ∈ nonEmptyHeights (updateGrid t sf g).2 ∧
        (updateGrid t sf g).2.maxHeight ∈ nonEmptyHeights (updateGrid t sf g).2 ∧
        ∀ h ∈ nonEmptyHeights (updateGrid t sf g).2,
          (updateGrid t sf g).2.minHeight ≤ h ∧ h ≤ (updateGrid t sf g).2.maxHeight)) := by
  refine ⟨fun w h a => init_valid g w h a, updateGrid_failure t sf g, ?_, ?_⟩
  · intro hv
    cases hb : (updateGrid t sf g).1 with
    | true => exact Or.inl rfl
    | false =>
      rcases updateGrid_failure t sf g hb with e | e
      · exact Or.inr ⟨e, by rw [e] at hv; exact hv⟩
      · rw [e] at hv; exact Bool.noConfusion hv
  · intro hb
    obtain ⟨cloud, sf1, g3, g4, _, _, _, hw, hh, _, hsc, e⟩ := updateGrid_success t sf g hb
    obtain ⟨hw4, hh4, _⟩ := scanPoints_data t cloud sf1 cloud.points 0 0 g3 g4 hsc
    rw [e]
    exact ⟨finishGrid_valid t g4, by rw [finishGrid_width, hw4, hw],
      by rw [finishGrid_height, hh4, hh], (finishGrid_stats t g4).1,
      fun hne => ((finishGrid_stats t g4).2 hne).2⟩

/-- Witness of C30 (amended): the build of `minTool` from `unbuiltGrid`
returns `true` and leaves a valid grid of 2 by 1 cells with 2 non-empty
cells. -/
theorem valid_flag_after_build_witness :
    (updateGrid minTool false unbuiltGrid).1 = true ∧
    ((updateGrid minTool false unbuiltGrid).2.valid = true ∧
      (updateGrid minTool false unbuiltGrid).2.width = minTool.gridWidth ∧
      (updateGrid minTool false unbuiltGrid).2.height = minTool.gridHeight ∧
      (updateGrid minTool false unbuiltGrid).2.nonEmptyCells =
        (nonEmptyHeights (updateGrid minTool false unbuiltGrid).2).length ∧
      (nonEmptyHeights (updateGrid minTool false unbuiltGrid).2 ≠ [] →
        (updateGrid minTool false unbuiltGrid).2.minHeight ∈
          nonEmptyHeights (updateGrid minTool false unbuiltGrid).2 ∧
        (updateGrid minTool false unbuiltGrid).2.maxHeight ∈
          nonEmptyHeights (updateGrid minTool false unbuiltGrid).2 ∧
        ∀ h ∈ nonEmptyHeights (updateGrid minTool false unbuiltGrid).2,
          (updateGrid minTool false unbuiltGrid).2.minHeight ≤ h ∧
          h ≤ (updateGrid minTool false unbuiltGrid).2.maxHeight)) :=
  ⟨by decide!, (valid_flag_after_build minTool false unbuiltGrid).2.2.2 (by decide!)⟩

/-! ## The scalar fields: the values of one cell -/

theorem scanValues_nil (mode : ProjectionType) (cnt : ℕ) (cur : Option ℚ) :
    scanValues mode cnt cur [] = cur := rfl

theorem scanValues_cons (mode : ProjectionType) (cnt : ℕ) (cur v : Option ℚ)
    (l : List (Option ℚ)) :
    scanValues mode cnt cur (v :: l) =
      scanValues mode (cnt + 1) (updateSFValue mode cnt cur v) l := rfl

theorem updateSFValue_first (mode : ProjectionType) (cur v : Option ℚ) :
    updateSFValue mode 0 cur v = v := by
  unfold updateSFValue
  cases cur <;> simp

theorem updateSFValue_none (mode : ProjectionType) (cnt : ℕ) (v : Option ℚ) :
    updateSFValue mode cnt none v = v := rfl

theorem updateSFValue_nan (mode : ProjectionType) (cnt : ℕ) (hc : cnt ≠ 0) (f : ℚ) :
    updateSFValue mode cnt (some f) none = some f := by
  unfold updateSFValue
  simp [hc]

theorem updateSFValue_valid (mode : ProjectionType) (cnt : ℕ) (hc : cnt ≠ 0) (f s : ℚ) :
    updateSFValue mode cnt (some f) (some s) = some (fieldOp mode f s) := by
  unfold updateSFValue fieldOp
  cases mode <;> simp [hc]

/-- From a valid running value, in a cell that holds a point already, the scan
combines the running value with the valid values only. -/
theorem scanValues_some (mode : ProjectionType) (l : List (Option ℚ)) :
    ∀ (cnt : ℕ) (f : ℚ), cnt ≠ 0 →
      scanValues mode cnt (some f) l = some ((validValues l).foldl (fieldOp mode) f) := by
  induction l with
  | nil => intro cnt f _; rfl
  | cons v l ih =>
    intro cnt f hc
    rw [scanValues_cons]
    cases v with
    | none => rw [updateSFValue_nan mode cnt hc, ih _ _ (Nat.succ_ne_zero _)]; rfl
    | some s => rw [updateSFValue_valid mode cnt hc, ih _ _ (Nat.succ_ne_zero _)]; rfl

/-- From a running value that is NaN, the scan takes the first valid value and
combines it with the next valid values. -/
theorem scanValues_none (mode : ProjectionType) (l : List (Option ℚ)) :
    ∀ cnt : ℕ, scanValues mode cnt none l =
      match validValues l with
      | [] => none
      | s :: rest => some (rest.foldl (fieldOp mode) s) := by
  induction l with
  | nil => intro cnt; rfl
  | cons v l ih =>
    intro cnt
    rw [scanValues_cons, updateSFValue_none]
    cases v with
    | none => rw [ih]; rfl
    | some s => rw [scanValues_some mode l _ s (Nat.succ_ne_zero _)]; rfl

/-- In a cell that holds no point yet, whatever the array holds, the scan of
at least one point leaves NaN when no value is valid, and else the combination
of the valid values. -/
theorem scanValues_zero (mode : ProjectionType) (cur : Option ℚ) (l : List (Option ℚ))
    (hl : l ≠ []) :
    scanValues mode 0 cur l =
      match validValues l with
      | [] => none
      | s :: rest => some (rest.foldl (fieldOp mode) s) := by
  cases l with
  | nil => exact absurd rfl hl
  | cons v l =>
    rw [scanValues_cons, updateSFValue_first]
    cases v with
    | none => rw [scanValues_none]; rfl
    | some s => rw [scanValues_some mode l _ s (Nat.succ_ne_zero _)]; rfl

theorem foldl_min_spec (l : List ℚ) :
    ∀ s : ℚ, l.foldl min s ∈ s :: l ∧ ∀ x ∈ s :: l, l.foldl min s ≤ x := by
  induction l with
  | nil => intro s; simp
  | cons a l ih =>
    intro s
    rw [List.foldl_cons]
    obtain ⟨h1, h2⟩ := ih (min s a)
    constructor
    · rcases List.mem_cons.mp h1 with e | e
      · rw [e]
        rcases min_choice s a with c | c <;> rw [c] <;> simp
      · exact List.mem_cons_of_mem _ (List.mem_cons_of_mem _ e)
    · intro x hx
      have hm := h2 (min s a) (List.mem_cons_self _ _)
      rcases List.mem_cons.mp hx with e | e
      · rw [e]; exact le_trans hm (min_le_left _ _)
      · rcases List.mem_cons.mp e with e1 | e1
        · rw [e1]; exact le_trans hm (min_le_right _ _)
        · exact h2 x (List.mem_cons_of_mem _ e1)

theorem foldl_max_spec (l : List ℚ) :
    ∀ s : ℚ, l.foldl max s ∈ s :: l ∧ ∀ x ∈ s :: l, x ≤ l.foldl max s := by
  induction l with
  | nil => intro s; simp
  | cons a l ih =>
    intro s
    rw [List.foldl_cons]
    obtain ⟨h1, h2⟩ := ih (max s a)
    constructor
    · rcases List.mem_cons.mp h1 with e | e
      · rw [e]
        rcases max_choice s a with c | c <;> rw [c] <;> simp
      · exact List.mem_cons_of_mem _ (List.mem_cons_of_mem _ e)
    · intro x hx
      have hm := h2 (max s a) (List.mem_cons_self _ _)
      rcases List.mem_cons.mp hx with e | e
      · rw [e]; exact le_trans (le_max_left _ _) hm
      · rcases List.mem_cons.mp e with e1 | e1
        · rw [e1]; exact le_trans (le_max_right _ _) hm
        · exact h2 x (List.mem_cons_of_mem _ e1)

theorem foldl_add_spec (l : List ℚ) : ∀ s : ℚ, l.foldl (fun f x => f + x) s = (s :: l).sum := by
  induction l with
  | nil => intro s; simp
  | cons a l ih =>
    intro s
    rw [List.foldl_cons, ih]
    simp only [List.sum_cons]
    ring

/-! ## Lemmas: the scalar fields during the scan -/

theorem cell_pos_inj (w i j i0 j0 : ℕ) (hi : i < w) (hi0 : i0 < w)
    (h : j * w + i = j0 * w + i0) : j = j0 ∧ i = i0 := by
  have h1 : (j * w + i) % w = i := by
    rw [Nat.add_comm, Nat.add_mul_mod_self_right, Nat.mod_eq_of_lt hi]
  have h2 : (j0 * w + i0) % w = i0 := by
    rw [Nat.add_comm, Nat.add_mul_mod_self_right, Nat.mod_eq_of_lt hi0]
  have hii : i = i0 := by rw [← h1, ← h2, h]
  subst hii
  have hw : 0 < w := Nat.lt_of_le_of_lt (Nat.zero_le _) hi
  have : j * w = j0 * w := by omega
  exact ⟨Nat.eq_of_mul_eq_mul_right hw this, rfl⟩

theorem cell_pos_div (w i j : ℕ) (hi : i < w) : (j * w + i) / w = j ∧ (j * w + i) % w = i := by
  have hw : 0 < w := Nat.lt_of_le_of_lt (Nat.zero_le _) hi
  constructor
  · rw [Nat.add_comm, Nat.add_mul_div_right _ _ hw, Nat.div_eq_of_lt hi, Nat.zero_add]
  · rw [Nat.add_comm, Nat.add_mul_mod_self_right, Nat.mod_eq_of_lt hi]

theorem cell_pos_lt (w h i j : ℕ) (hi : i < w) (hj : j < h) : j * w + i < w * h := by
  calc j * w + i < j * w + w := by omega
    _ = (j + 1) * w := by ring
    _ ≤ h * w := Nat.mul_le_mul_right _ hj
    _ = w * h := Nat.mul_comm _ _

theorem getD_map_range {α : Type} (f : ℕ → α) (n k : ℕ) (hk : k < n) (d : α) :
    ((List.range n).map f).getD k d = f k := by
  rw [List.getD_eq_getElem?_getD, List.getElem?_map, List.getElem?_range hk]
  rfl

theorem updateSFs_length (t : Tool) (cloud : Cloud) (g : RasterGrid) (n i j : ℕ) :
    (updateSFs t cloud g n i j).length = g.scalarFields.length := by
  unfold updateSFs
  simp

theorem updateSFs_getD (t : Tool) (cloud : Cloud) (g : RasterGrid) (n i j k : ℕ)
    (hk : k < g.scalarFields.length) (p : ℕ) :
    (updateSFs t cloud g n i j).getD k (fun _ => none) p =
      if p = j * g.width + i then
        updateSFValue t.getTypeOfSFInterpolation (g.data j i).nbPoints
          ((g.scalarFields.getD k fun _ => none) (j * g.width + i))
          ((cloud.scalarFields.getD k fun _ => none) n)
      else (g.scalarFields.getD k fun _ => none) p := by
  unfold updateSFs
  simp only
  rw [getD_map_range _ _ _ hk]

/-- After a scan with the scalar fields that is not cancelled, the value of
every array at the position of a cell is what `scanValues` makes of the value
it held with the field values of the points that fall in the cell. -/
theorem scanPoints_fields (t : Tool) (cloud : Cloud) :
    ∀ (pts : List CCVector3) (n k0 : ℕ) (g g1 : RasterGrid),
      scanPoints t cloud true pts n k0 g = (true, g1) →
      g1.scalarFields.length = g.scalarFields.length ∧
      ∀ k, k < g.scalarFields.length → ∀ i j, i < g.width →
        (g1.scalarFields.getD k fun _ => none) (j * g.width + i) =
          scanValues t.getTypeOfSFInterpolation (g.data j i).nbPoints
            ((g.scalarFields.getD k fun _ => none) (j * g.width + i))
            ((pointsOfCell t g.width g.height n pts i j).map
              fun p => (cloud.scalarFields.getD k fun _ => none) p.1) := by
  intro pts
  induction pts with
  | nil =>
    intro n k0 g g1 h
    rw [scanPoints_nil] at h
    simp only [Prod.mk.injEq, true_and] at h
    subst h
    simp [pointsOfCell, scanValues_nil]
  | cons P rest ih =>
    intro n k0 g g1 h
    rw [scanPoints_cons] at h
    cases hc : cellIndex t g.width g.height P with
    | none =>
      rw [hc] at h
      obtain ⟨hl, hd⟩ := ih (n + 1) k0 g g1 h
      refine ⟨hl, fun k hk i j hi => ?_⟩
      rw [hd k hk i j hi]
      simp [pointsOfCell, List.enumFrom_cons, List.filter_cons, hc]
    | some ij =>
      obtain ⟨i0, j0⟩ := ij
      rw [hc] at h
      simp only at h
      obtain ⟨hi0, _⟩ := cellIndex_lt t g.width g.height P i0 j0 hc
      by_cases hs : t.oneStep k0 = true
      · rw [if_pos hs] at h
        obtain ⟨hl, hd⟩ := ih (n + 1) (k0 + 1) _ g1 h
        have hsf : (projectPoint t cloud true g n P i0 j0).scalarFields =
            updateSFs t cloud g n i0 j0 := rfl
        rw [hsf, updateSFs_length] at hl
        refine ⟨hl, fun k hk i j hi => ?_⟩
        have hd1 := hd k (by rw [hsf, updateSFs_length]; exact hk) i j
          (by rw [projectPoint_width]; exact hi)
        rw [projectPoint_width, projectPoint_height, hsf, updateSFs_getD t cloud g n i0 j0 k hk]
          at hd1
        rw [hd1]
        by_cases hji : j = j0 ∧ i = i0
        · obtain ⟨rfl, rfl⟩ := hji
          rw [if_pos rfl]
          simp [pointsOfCell, List.enumFrom_cons, List.filter_cons, hc, projectPoint,
            scanValues_cons, updateCell_nbPoints]
        · have hne : ¬ ((i0, j0) = (i, j)) := by
            intro he
            simp only [Prod.mk.injEq] at he
            exact hji ⟨he.2.symm, he.1.symm⟩
          have hpos : ¬ j * g.width + i = j0 * g.width + i0 :=
            fun e => hji (cell_pos_inj g.width i j i0 j0 hi hi0 e)
          rw [if_neg hpos]
          simp [pointsOfCell, List.enumFrom_cons, List.filter_cons, hc, projectPoint, hji, hne]
      · rw [if_neg hs] at h
        simp at h

/-! ## Lemmas: the scalar fields after the scan -/

theorem averageHeights_scalarFields (t : Tool) (g : RasterGrid) :
    (averageHeights t g).scalarFields = g.scalarFields := by
  unfold averageHeights
  split_ifs <;> rfl

theorem fillCell_scalarFields (P : Fin 3 → ℤ × ℤ) (g : RasterGrid) (i j : ℤ) :
    (fillCell P g i j).scalarFields = g.scalarFields := by
  unfold fillCell
  split_ifs <;> rfl

theorem fillTriangle_scalarFields (pts : List (ℤ × ℤ)) (g : RasterGrid) (tsi : Fin 3 → ℕ) :
    (fillTriangle pts g tsi).scalarFields = g.scalarFields := by
  unfold fillTriangle
  simp only
  refine foldl_invariant (fun g1 : RasterGrid => g1.scalarFields = g.scalarFields) _ _ ?_ g rfl
  intro j _ b hb
  refine foldl_invariant (fun g1 : RasterGrid => g1.scalarFields = g.scalarFields) _ _ ?_ b hb
  intro i _ b1 hb1
  rw [fillCell_scalarFields, hb1]

theorem interpolateEmptyCells_scalarFields (t : Tool) (g : RasterGrid) :
    (interpolateEmptyCells t g).scalarFields = g.scalarFields := by
  unfold interpolateEmptyCells
  simp only
  split_ifs
  · cases t.buildMesh (the2DPoints g) with
    | none => rfl
    | some triangles =>
      refine foldl_invariant (fun g1 : RasterGrid => g1.scalarFields = g.scalarFields) _ _ ?_ g
        rfl
      intro tsi _ b hb
      rw [fillTriangle_scalarFields, hb]
  · rfl

theorem computeStats_scalarFields (g : RasterGrid) :
    (computeStats g).scalarFields = g.scalarFields := by
  rw [computeStats_eq, statsFold_frame (fun s => s.scalarFields) (fun _ _ _ _ _ => rfl)]

/-- The end of `updateGrid` leaves the scalar fields as the loop on the
average cases left them. -/
theorem finishGrid_scalarFields (t : Tool) (g : RasterGrid) :
    (finishGrid t g).scalarFields = (averageSFs t g).scalarFields := by
  unfold finishGrid
  simp only
  rw [computeStats_scalarFields]
  split_ifs
  · rw [interpolateEmptyCells_scalarFields, averageHeights_scalarFields]
  · rw [averageHeights_scalarFields]

theorem getD_map_fields (l : List (ℕ → Option ℚ)) (F : (ℕ → Option ℚ) → ℕ → Option ℚ) (k : ℕ)
    (hk : k < l.length) :
    (l.map F).getD k (fun _ => none) = F (l.getD k fun _ => none) := by
  rw [List.getD_eq_getElem?_getD, List.getElem?_map, List.getD_eq_getElem?_getD,
    List.getElem?_eq_getElem hk]
  rfl

/-- The value that the loop on the average cases leaves at the position of a
cell: in average mode, in a cell that holds points, a valid value is divided by
the number of points of the cell. -/
theorem averageSFs_getD (t : Tool) (g : RasterGrid) (k : ℕ) (hk : k < g.scalarFields.length)
    (i j : ℕ) (hi : i < g.width) (hj : j < g.height) :
    ((averageSFs t g).scalarFields.getD k fun _ => none) (j * g.width + i) =
      if t.getTypeOfSFInterpolation = .PROJ_AVERAGE_VALUE ∧ (g.data j i).nbPoints ≠ 0 then
        ((g.scalarFields.getD k fun _ => none) (j * g.width + i)).map
          fun s => s / ((g.data j i).nbPoints : ℚ)
      else (g.scalarFields.getD k fun _ => none) (j * g.width + i) := by
  unfold averageSFs
  by_cases hm : t.getTypeOfSFInterpolation = .PROJ_AVERAGE_VALUE
  · rw [if_pos hm]
    simp only
    rw [getD_map_fields _ _ k hk, if_pos (cell_pos_lt g.width g.height i j hi hj),
      (cell_pos_div g.width i j hi).1, (cell_pos_div g.width i j hi).2]
    by_cases h0 : (g.data j i).nbPoints ≠ 0
    · rw [if_pos h0, if_pos ⟨hm, h0⟩]
    · rw [if_neg h0, if_neg (fun h => h0 h.2)]
  · rw [if_neg hm, if_neg (fun h => hm h.1)]

/-- What a successful `updateGrid` with the scalar fields has gone through. -/
theorem updateGrid_success_fields (t : Tool) (g : RasterGrid) (cloud : Cloud)
    (hc : t.m_cloud = some cloud) (hpc : cloud.isPointCloud = true)
    (hsf : cloud.scalarFields ≠ []) (h : (updateGrid t true g).1 = true) :
    ∃ g3 g4 : RasterGrid,
      g3.width = t.gridWidth ∧ g3.height = t.gridHeight ∧
      (∀ j i, j < t.gridHeight → i < t.gridWidth → g3.data j i = RasterCell.empty) ∧
      g3.scalarFields.length = cloud.scalarFields.length ∧
      scanPoints t cloud true cloud.points 0 0 g3 = (true, g4) ∧
      (updateGrid t true g).2 = finishGrid t g4 := by
  unfold updateGrid at h ⊢
  rw [hc] at h ⊢
  simp only at h ⊢
  by_cases h1 : t.getCustomBBox.isValid = false
  · rw [if_pos h1] at h; simp at h
  rw [if_neg h1] at h ⊢
  by_cases h2 : t.boxDiag.u t.X ≤ 0 ∨ t.boxDiag.u t.Y ≤ 0
  · rw [if_pos h2] at h; simp at h
  rw [if_neg h2] at h ⊢
  by_cases h3 : (t.gridTotalSize = 1 ∨ t.gridTotalSize > 10000000) ∧ t.proceedAnyway = false
  · rw [if_pos h3] at h; simp at h
  rw [if_neg h3] at h ⊢
  cases hi : g.init t.gridWidth t.gridHeight t.cellsAllocated with
  | mk b g1 =>
    rw [hi] at h
    cases b with
    | false => simp at h
    | true =>
      simp only at h ⊢
      obtain ⟨hw, hh, _, hd⟩ := init_success g g1 _ _ _ hi
      have hsf1 : (true && (cloud.isPointCloud && !cloud.scalarFields.isEmpty)) = true := by
        rw [hpc]
        cases hl : cloud.scalarFields with
        | nil => exact absurd hl hsf
        | cons a l => rfl
      rw [hsf1] at h ⊢
      rw [if_pos rfl] at h ⊢
      cases hsc : scanPoints t cloud true cloud.points 0 0
          (allocateSFs t cloud { g1 with gridStep := t.getGridStep }) with
      | mk b2 g4 =>
        rw [hsc] at h
        cases b2 with
        | false => simp at h
        | true =>
          refine ⟨allocateSFs t cloud { g1 with gridStep := t.getGridStep }, g4, hw, hh,
            fun j i hj hi => hd j i hj hi, ?_, hsc, rfl⟩
          simp [allocateSFs]

/-! ## The scalar fields: the value of a cell after the build -/

/-- After a successful build with the scalar fields, the value of the array of
field `k` at the position of a cell that received points: the combination of
the valid field values of its points, NaN when there is none, divided in
average mode by the number of points of the cell. -/
theorem updateGrid_field (t : Tool) (g : RasterGrid) (cloud : Cloud)
    (hc : t.m_cloud = some cloud) (hpc : cloud.isPointCloud = true)
    (h : (updateGrid t true g).1 = true) (k : ℕ) (hk : k < cloud.scalarFields.length)
    (i j : ℕ) (hne : pointsOfCell t t.gridWidth t.gridHeight 0 cloud.points i j ≠ []) :
    ((updateGrid t true g).2.scalarFields.getD k fun _ => none)
        (j * (updateGrid t true g).2.width + i) =
      if t.getTypeOfSFInterpolation = .PROJ_AVERAGE_VALUE then
        (match validValues (fieldValuesOfCell t cloud k i j) with
          | [] => none
          | s :: rest => some (rest.foldl (fieldOp t.getTypeOfSFInterpolation) s)).map
          fun s => s / ((pointsOfCell t t.gridWidth t.gridHeight 0 cloud.points i j).length : ℚ)
      else
        match validValues (fieldValuesOfCell t cloud k i j) with
        | [] => none
        | s :: rest => some (rest.foldl (fieldOp t.getTypeOfSFInterpolation) s) := by
  have hsf : cloud.scalarFields ≠ [] := by
    intro e; rw [e] at hk; exact absurd hk (Nat.not_lt_zero k)
  obtain ⟨hi, hj, _, _, _⟩ := updateGrid_cell t true g cloud hc h i j hne
  obtain ⟨g3, g4, hw, hh, hd, hl, hsc, e⟩ := updateGrid_success_fields t g cloud hc hpc hsf h
  obtain ⟨hw4, hh4, hd4⟩ := scanPoints_data t cloud true cloud.points 0 0 g3 g4 hsc
  obtain ⟨hl4, hf4⟩ := scanPoints_fields t cloud cloud.points 0 0 g3 g4 hsc
  have hcell : (g4.data j i).nbPoints =
      (pointsOfCell t t.gridWidth t.gridHeight 0 cloud.points i j).length := by
    rw [hd4 j i, scanCell_nbPoints, hd j i hj hi, hw, hh]
    exact Nat.zero_add _
  have hlen : (pointsOfCell t t.gridWidth t.gridHeight 0 cloud.points i j).length ≠ 0 :=
    fun e0 => hne (List.length_eq_zero.mp e0)
  have hscan : (g4.scalarFields.getD k fun _ => none) (j * g4.width + i) =
      match validValues (fieldValuesOfCell t cloud k i j) with
      | [] => none
      | s :: rest => some (rest.foldl (fieldOp t.getTypeOfSFInterpolation) s) := by
    rw [hw4, hf4 k (by rw [hl]; exact hk) i j (by rw [hw]; exact hi), hd j i hj hi, hw, hh]
    exact scanValues_zero _ _ _ (by
      intro e0
      exact hne (List.map_eq_nil_iff.mp e0))
  rw [e, finishGrid_width, finishGrid_scalarFields,
    averageSFs_getD t g4 k (by rw [hl4, hl]; exact hk) i j (by rw [hw4, hw]; exact hi)
      (by rw [hh4, hh]; exact hj), hscan, hcell]
  by_cases hm : t.getTypeOfSFInterpolation = .PROJ_AVERAGE_VALUE
  · rw [if_pos ⟨hm, hlen⟩, if_pos hm]
  · rw [if_neg (fun c => hm c.1), if_neg hm]

/-- C27. After a successful build with the scalar fields of a point cloud,
for every field `k` of the cloud and every cell `(i, j)` that received at least
one point, the value of the array of field `k` at the position of the cell is
NaN when the field value of every point of the cell is NaN; otherwise it is the
minimum of the valid values in minimum mode, their maximum in maximum mode, and
in average mode their sum divided by the number of points of the cell, which is
its `nbPoints`. In a cell that holds a point already, a NaN value leaves a
valid running value as it is. -/
theorem field_value_of_cell (t : Tool) (g r : RasterGrid) (cloud : Cloud)
    (hc : t.m_cloud = some cloud) (hpc : cloud.isPointCloud = true)
    (hr : updateGrid t true g = (true, r)) (k : ℕ) (hk : k < cloud.scalarFields.length)
    (i j : ℕ) (hcell : fieldValuesOfCell t cloud k i j ≠ []) :
    (validValues (fieldValuesOfCell t cloud k i j) = [] →
      (r.scalarFields.getD k fun _ => none) (j * r.width + i) = none) ∧
    (validValues (fieldValuesOfCell t cloud k i j) ≠ [] →
      (t.getTypeOfSFInterpolation = .PROJ_MINIMUM_VALUE →
        ∃ m, (r.scalarFields.getD k fun _ => none) (j * r.width + i) = some m ∧
          m ∈ validValues (fieldValuesOfCell t cloud k i j) ∧
          ∀ x ∈ validValues (fieldValuesOfCell t cloud k i j), m ≤ x) ∧
      (t.getTypeOfSFInterpolation = .PROJ_MAXIMUM_VALUE →
        ∃ m, (r.scalarFields.getD k fun _ => none) (j * r.width + i) = some m ∧
          m ∈ validValues (fieldValuesOfCell t cloud k i j) ∧
          ∀ x ∈ validValues (fieldValuesOfCell t cloud k i j), x ≤ m) ∧
      (t.getTypeOfSFInterpolation = .PROJ_AVERAGE_VALUE →
        (r.scalarFields.getD k fun _ => none) (j * r.width + i) =
          some ((validValues (fieldValuesOfCell t cloud k i j)).sum /
            ((r.data j i).nbPoints : ℚ)))) ∧
    (r.data j i).nbPoints = (fieldValuesOfCell t cloud k i j).length ∧
    (∀ (cnt : ℕ) (f : ℚ), cnt ≠ 0 →
      updateSFValue t.getTypeOfSFInterpolation cnt (some f) none = some f) := by
  obtain ⟨h, rfl⟩ := updateGrid_eq t true g r hr
  have hne : pointsOfCell t t.gridWidth t.gridHeight 0 cloud.points i j ≠ [] :=
    fun e => hcell (by unfold fieldValuesOfCell; rw [e]; rfl)
  have hv := updateGrid_field t g cloud hc hpc h k hk i j hne
  obtain ⟨_, _, hnb, _, _⟩ := updateGrid_cell t true g cloud hc h i j hne
  have hflen : (fieldValuesOfCell t cloud k i j).length =
      (pointsOfCell t t.gridWidth t.gridHeight 0 cloud.points i j).length := by
    unfold fieldValuesOfCell; rw [List.length_map]
  refine ⟨?_, ?_, by rw [hnb, hflen], fun cnt f hcnt => updateSFValue_nan _ cnt hcnt f⟩
  · intro hV
    rw [hv, hV]
    split_ifs <;> rfl
  · intro hV
    cases hVl : validValues (fieldValuesOfCell t cloud k i j) with
    | nil => exact absurd hVl hV
    | cons s rest =>
      rw [hVl] at hv
      refine ⟨fun hm => ?_, fun hm => ?_, fun hm => ?_⟩
      · rw [hm] at hv
        rw [if_neg (by decide)] at hv
        exact ⟨_, hv, (foldl_min_spec rest s).1, (foldl_min_spec rest s).2⟩
      · rw [hm] at hv
        rw [if_neg (by decide)] at hv
        exact ⟨_, hv, (foldl_max_spec rest s).1, (foldl_max_spec rest s).2⟩
      · rw [hm] at hv
        rw [if_pos rfl] at hv
        rw [hv, hnb]
        simp only [Option.map_some']
        have : fieldOp .PROJ_AVERAGE_VALUE = fun f x : ℚ => f + x := rfl
        rw [this, foldl_add_spec]

/-- Witness of C27: in average mode, the cell `(0, 0)` of the grid of
`fieldCloud` gets the values 5, NaN and 3 and holds (5 + 3) / 3, and the cell
`(1, 0)` gets NaN only and holds NaN. -/
theorem field_value_of_cell_witness :
    validValues (fieldValuesOfCell (fieldTool .PROJ_AVERAGE_VALUE) fieldCloud 0 0 0) = [5, 3] ∧
    ((updateGrid (fieldTool .PROJ_AVERAGE_VALUE) true unbuiltGrid).2.scalarFields.getD 0
      fun _ => none) 0 = some (8 / 3) ∧
    ((updateGrid (fieldTool .PROJ_AVERAGE_VALUE) true unbuiltGrid).2.scalarFields.getD 0
      fun _ => none) 1 = none ∧
    ((updateGrid (fieldTool .PROJ_MINIMUM_VALUE) true unbuiltGrid).2.scalarFields.getD 0
      fun _ => none) 0 = some 3 ∧
    (validValues (fieldValuesOfCell (fieldTool .PROJ_AVERAGE_VALUE) fieldCloud 0 1 0) = [] →
      ((updateGrid (fieldTool .PROJ_AVERAGE_VALUE) true unbuiltGrid).2.scalarFields.getD 0
        fun _ => none)
          (0 * (updateGrid (fieldTool .PROJ_AVERAGE_VALUE) true unbuiltGrid).2.width + 1) =
        none) :=
  ⟨by decide!, by decide!, by decide!, by decide!,
    (field_value_of_cell (fieldTool .PROJ_AVERAGE_VALUE) unbuiltGrid _ fieldCloud rfl rfl
      (Prod.ext (by decide!) rfl) 0 (by decide) 1 0 (by decide!)).1⟩

end ccRasterizeTool
